import Mathlib

/-! # mdgw: order book, SPSC ring buffer, frame decoding and book worker

A shallow embedding of the data plane of the market-data gateway
(`src/book/OrderBook.hpp`, `src/util/SPSCRingBuffer.hpp`,
`src/gateway/BookUpdate.hpp`, `src/gateway/OkxMarketDataGateway.cpp`) and the
properties proved about it.

Modelling conventions.

* A C++ `double` (`Double`) is a finite value, negative zero, an infinity or a
  NaN.  A finite value is given exactly, as a rational number; every finite
  double is one.  The program compares doubles with `<` and `== 0.0`, copies
  them and prints them, and does no arithmetic on them.
* `std::map<double,double>` is the list of its entries in ascending key order,
  with `operator[]`, `erase` and `find` as the red-black tree of libstdc++
  carries them out with `std::less<double>`: by `lower_bound` and
  `upper_bound`, so that a key which is neither below nor above a stored key
  takes that entry.  For a NaN key the C++ standard leaves the behaviour of
  the container undefined; the model follows the library.
* Functions that mutate `*this` return the new state.  The ring buffer is run
  by one caller at a time (its memory ordering is not modelled).
* Library functions are modelled next to the code that calls them: the
  RapidJSON accessors with their `RAPIDJSON_ASSERT` preconditions, zlib's
  `crc32`, the `std::fixed`/`setprecision(8)` output of a number, and
  `std::to_string` (`toString` on `Nat`).  `std::stod` is a parameter `stod` of
  the functions that call it; `none` stands for the exception it throws.
* A call that does not return (an exception leaves it, or an assertion fails)
  is an `Except.error`.

The first part of the file holds the definitions (with the ordering lemmas
the map operations need), the second the theorems.
-/

namespace mdgw

/-- A C++ `double`, as far as the program tells doubles apart: a finite value,
negative zero, an infinity, or a NaN.  `finite x` stands for the finite double
of value `x` other than negative zero (`finite 0` is `+0.0`); every rational
is admitted as a value, the finite doubles being among them.  `std::stod`
delivers values of all four kinds. -/
inductive Double where
  | finite (x : ℚ)
  | negZero
  | inf (negative : Bool)
  | nan (negative : Bool)
deriving DecidableEq

namespace Double

/-- A literal such as `0.0` or `30000.0`. -/
instance (n : Nat) : OfNat Double n := ⟨finite n⟩

/-- `std::isnan(x)`. -/
def isNaN : Double → Bool
  | nan _ => true
  | _ => false

/-- `x == 0.0`: true of both zeros. -/
def isZero : Double → Bool
  | finite x => decide (x = 0)
  | negZero => true
  | _ => false

/-- The built-in `a < b`: false when either operand is a NaN, negative zero
counts as zero, `-inf` is below and `+inf` above every finite value. -/
def ltb : Double → Double → Bool
  | finite x, finite y => decide (x < y)
  | finite x, negZero => decide (x < 0)
  | negZero, finite y => decide (0 < y)
  | finite _, inf false => true
  | negZero, inf false => true
  | inf true, finite _ => true
  | inf true, negZero => true
  | inf true, inf false => true
  | _, _ => false

instance : LT Double := ⟨fun a b => ltb a b = true⟩

instance (a b : Double) : Decidable (a < b) := inferInstanceAs (Decidable (ltb a b = true))

/-- The built-in `a == b`: false when either operand is a NaN, and true of the
two zeros. -/
def equals (a b : Double) : Bool := !a.isNaN && !b.isNaN && !ltb a b && !ltb b a

/-- The double with the sign of a zero dropped (`-0.0` becomes `+0.0`): two
doubles that are not NaN are `==` exactly when these agree. -/
def dropZeroSign : Double → Double
  | negZero => finite 0
  | a => a

theorem lt_def (a b : Double) : a < b ↔ ltb a b = true := Iff.rfl

theorem lt_irrefl (a : Double) : ¬ a < a := by
  rcases a with x | _ | (_ | _) | (_ | _) <;> simp [lt_def, ltb]

theorem lt_asymm {a b : Double} (h : a < b) : ¬ b < a := by
  revert h
  rcases a with x | _ | (_ | _) | (_ | _) <;> rcases b with y | _ | (_ | _) | (_ | _) <;>
    simp [lt_def, ltb] <;> intro h <;> linarith

theorem lt_trans {a b c : Double} (h₁ : a < b) (h₂ : b < c) : a < c := by
  revert h₁ h₂
  rcases a with x | _ | (_ | _) | (_ | _) <;> rcases b with y | _ | (_ | _) | (_ | _) <;>
    rcases c with z | _ | (_ | _) | (_ | _) <;>
    simp [lt_def, ltb] <;> intros <;> linarith

end Double

namespace book

/-! ## `std::map<double, double>` -/

/-- `operator[]` followed by assignment on the entry list: `m[p] = s`.  The
first entry whose key is not below `p` (`lower_bound(p)`) gets value `s` unless
`p` is below its key; then, and when there is no such entry, `(p, s)` is
inserted at that place.  An entry whose key is overwritten keeps its key. -/
def assignRaw (p s : Double) : List (Double × Double) → List (Double × Double)
  | [] => [(p, s)]
  | (q, t) :: rest =>
    if p < q then (p, s) :: (q, t) :: rest
    else if q < p then (q, t) :: assignRaw p s rest
    else (q, s) :: rest

/-- `erase(p)` on the entry list: the entries of `equal_range(p)`, those whose
key is neither below nor above `p`, are removed. -/
def eraseRaw (p : Double) (l : List (Double × Double)) : List (Double × Double) :=
  l.filter (fun e => decide (e.1 < p) || decide (p < e.1))

/-- `find(p)` on the entry list: the value of the first entry whose key is not
below `p` (`lower_bound(p)`), unless `p` is below that key. -/
def findRaw (p : Double) : List (Double × Double) → Option Double
  | [] => none
  | (q, t) :: rest =>
    if q < p then findRaw p rest
    else if p < q then none
    else some t

/-- The ordering contract of `std::map`: keys strictly ascending.  A list with
a NaN key meets it only when that entry is its only one. -/
abbrev Ascending (l : List (Double × Double)) : Prop :=
  l.Pairwise (fun a b => a.1 < b.1)

theorem mem_assignRaw {p s : Double} {l : List (Double × Double)} {e : Double × Double}
    (h : e ∈ assignRaw p s l) :
    e = (p, s) ∨ e ∈ l ∨ (e.2 = s ∧ e.1 ∈ l.map Prod.fst ∧ ¬ p < e.1 ∧ ¬ e.1 < p) := by
  induction l with
  | nil => simp [assignRaw] at h; exact Or.inl h
  | cons hd rest ih =>
    obtain ⟨q, t⟩ := hd
    unfold assignRaw at h
    split_ifs at h with h1 h2
    · rcases List.mem_cons.1 h with h | h
      · exact Or.inl h
      · exact Or.inr (Or.inl h)
    · rcases List.mem_cons.1 h with h | h
      · exact Or.inr (Or.inl (h ▸ List.mem_cons_self _ _))
      · rcases ih h with h | h | h
        · exact Or.inl h
        · exact Or.inr (Or.inl (List.mem_cons_of_mem _ h))
        · exact Or.inr (Or.inr ⟨h.1, List.mem_cons_of_mem _ h.2.1, h.2.2⟩)
    · rcases List.mem_cons.1 h with h | h
      · subst h
        exact Or.inr (Or.inr ⟨rfl, List.mem_cons_self _ _, h1, h2⟩)
      · exact Or.inr (Or.inl (List.mem_cons_of_mem _ h))

theorem key_mem_assignRaw {p s : Double} {l : List (Double × Double)} {e : Double × Double}
    (h : e ∈ assignRaw p s l) : e.1 = p ∨ e.1 ∈ l.map Prod.fst := by
  rcases mem_assignRaw h with h | h | h
  · exact Or.inl (by rw [h])
  · exact Or.inr (List.mem_map_of_mem _ h)
  · exact Or.inr h.2.1

theorem ascending_assignRaw (p s : Double) {l : List (Double × Double)}
    (hl : Ascending l) : Ascending (assignRaw p s l) := by
  induction l with
  | nil => simp [assignRaw, Ascending]
  | cons hd rest ih =>
    obtain ⟨q, t⟩ := hd
    have hq := (List.pairwise_cons.1 hl).1
    have hr := (List.pairwise_cons.1 hl).2
    unfold assignRaw
    split_ifs with h1 h2
    · refine List.pairwise_cons.2 ⟨?_, hl⟩
      intro e he
      rcases List.mem_cons.1 he with he | he
      · subst he; exact h1
      · exact Double.lt_trans h1 (hq e he)
    · refine List.pairwise_cons.2 ⟨?_, ih hr⟩
      intro e he
      rcases key_mem_assignRaw he with he | he
      · rw [he]; exact h2
      · obtain ⟨e', he', hk⟩ := List.mem_map.1 he
        rw [← hk]
        exact hq e' he'
    · exact List.pairwise_cons.2 ⟨fun e he => hq e he, hr⟩

theorem ascending_eraseRaw (p : Double) {l : List (Double × Double)}
    (hl : Ascending l) : Ascending (eraseRaw p l) :=
  List.Pairwise.sublist (List.filter_sublist l) hl

/-- A `std::map<double,double>`: its entries in ascending key order. -/
structure PriceMap where
  entries : List (Double × Double)
  ordered : Ascending entries
deriving DecidableEq

namespace PriceMap

/-- A default-constructed (or `clear()`ed) map. -/
def empty : PriceMap := ⟨[], List.Pairwise.nil⟩

/-- `m[p] = s`. -/
def assign (m : PriceMap) (p s : Double) : PriceMap :=
  ⟨assignRaw p s m.entries, ascending_assignRaw p s m.ordered⟩

/-- `m.erase(p)`. -/
def erase (m : PriceMap) (p : Double) : PriceMap :=
  ⟨eraseRaw p m.entries, ascending_eraseRaw p m.ordered⟩

/-- The value stored under key `p`, if any (`m.find(p)`). -/
def find (m : PriceMap) (p : Double) : Option Double := findRaw p m.entries

/-- `m.size()`. -/
def size (m : PriceMap) : Nat := m.entries.length

/-- `m.empty()`. -/
def isEmpty (m : PriceMap) : Bool := m.entries.isEmpty

/-- `*m.begin()`: the entry with the smallest key. -/
def first? (m : PriceMap) : Option (Double × Double) := m.entries.head?

/-- `*m.rbegin()`: the entry with the greatest key. -/
def last? (m : PriceMap) : Option (Double × Double) := m.entries.getLast?

end PriceMap

/-! ## `OrderBook` -/

/-- `class OrderBook`: the instrument identifier and the two sides. -/
structure OrderBook where
  instrumentId_ : String
  bids_ : PriceMap
  asks_ : PriceMap
deriving DecidableEq

namespace OrderBook

/-- `explicit OrderBook(std::string instrumentId)`. -/
def new (instrumentId : String) : OrderBook :=
  ⟨instrumentId, PriceMap.empty, PriceMap.empty⟩

/-- `void clear()`. -/
def clear (ob : OrderBook) : OrderBook :=
  { ob with bids_ := PriceMap.empty, asks_ := PriceMap.empty }

/-- `void applySnapshot(bids, asks)`: both sides are replaced. -/
def applySnapshot (ob : OrderBook) (bids asks : PriceMap) : OrderBook :=
  { ob with bids_ := bids, asks_ := asks }

/-- `void applyDeltaBid(double price, double size)`. -/
def applyDeltaBid (ob : OrderBook) (price size : Double) : OrderBook :=
  if size.isZero then { ob with bids_ := ob.bids_.erase price }
  else { ob with bids_ := ob.bids_.assign price size }

/-- `void applyDeltaAsk(double price, double size)`. -/
def applyDeltaAsk (ob : OrderBook) (price size : Double) : OrderBook :=
  if size.isZero then { ob with asks_ := ob.asks_.erase price }
  else { ob with asks_ := ob.asks_.assign price size }

/-- `std::pair<double,double> bestBid() const`. -/
def bestBid (ob : OrderBook) : Double × Double :=
  if ob.bids_.isEmpty then (0, 0)
  else match ob.bids_.last? with
    | some it => (it.1, it.2)
    | none => (0, 0)

/-- `std::pair<double,double> bestAsk() const`. -/
def bestAsk (ob : OrderBook) : Double × Double :=
  if ob.asks_.isEmpty then (0, 0)
  else match ob.asks_.first? with
    | some it => (it.1, it.2)
    | none => (0, 0)

/-- `size_t bidLevels() const`. -/
def bidLevels (ob : OrderBook) : Nat := ob.bids_.size

/-- `size_t askLevels() const`. -/
def askLevels (ob : OrderBook) : Nat := ob.asks_.size

end OrderBook

end book

namespace util

/-! ## `SPSCRingBuffer<T, Capacity>` -/

/-- `class SPSCRingBuffer`: the two cursors and the slot storage.  A slot is
`some v` while it holds a constructed message `v` and `none` while it is raw
storage (never constructed, or destroyed by `tryPop`). -/
structure SPSCRingBuffer (T : Type) (Capacity : Nat) where
  head_ : Nat
  tail_ : Nat
  buffer_ : List (Option T)

namespace SPSCRingBuffer

variable {T : Type} {Capacity : Nat}

/-- `static constexpr size_t mask_ = Capacity - 1` (`Capacity` is at least 1). -/
def mask_ (Capacity : Nat) : Nat := Capacity - 1

/-- `SPSCRingBuffer() : head_(0), tail_(0) {}`: all slots raw. -/
def new : SPSCRingBuffer T Capacity := ⟨0, 0, List.replicate Capacity none⟩

/-- `bool tryEmplace(Args&&... args)`: the returned flag and the new state.
The stored cursors are masked, so `head + 1` does not wrap as a `size_t`. -/
def tryEmplace (r : SPSCRingBuffer T Capacity) (v : T) : Bool × SPSCRingBuffer T Capacity :=
  let head := r.head_
  let next_head := (head + 1) &&& mask_ Capacity
  if next_head = r.tail_ then (false, r)
  else (true, { r with buffer_ := r.buffer_.set head (some v), head_ := next_head })

/-- `bool tryPop(T& item)`: the returned flag, the message moved into `item`
(`none` when nothing was moved), and the new state. -/
def tryPop (r : SPSCRingBuffer T Capacity) : (Bool × Option T) × SPSCRingBuffer T Capacity :=
  let tail := r.tail_
  if tail = r.head_ then ((false, none), r)
  else ((true, (r.buffer_.getD tail none)),
        { r with buffer_ := r.buffer_.set tail none, tail_ := (tail + 1) &&& mask_ Capacity })

/-- `size_t size() const`: `(head - tail) & mask_` in 64-bit unsigned arithmetic. -/
def size (r : SPSCRingBuffer T Capacity) : Nat :=
  ((r.head_ + 2 ^ 64 - r.tail_) % 2 ^ 64) &&& mask_ Capacity

/-- `bool empty() const`. -/
def empty (r : SPSCRingBuffer T Capacity) : Bool := decide (r.head_ = r.tail_)

/-- The number of slots that hold a constructed message. -/
def held (r : SPSCRingBuffer T Capacity) : Nat := r.buffer_.countP Option.isSome

/-- One call made on the ring by its producer or its consumer. -/
inductive Call (T : Type) where
  | tryEmplace (v : T)
  | tryPop

/-- What a call returned: the flag, and for `tryPop` the message moved out. -/
inductive Ret (T : Type) where
  | emplaced (ok : Bool)
  | popped (ok : Bool) (item : Option T)

/-- One call on the ring. -/
def step (r : SPSCRingBuffer T Capacity) : Call T → Ret T × SPSCRingBuffer T Capacity
  | .tryEmplace v => let x := r.tryEmplace v; (.emplaced x.1, x.2)
  | .tryPop => let x := r.tryPop; (.popped x.1.1 x.1.2, x.2)

/-- A sequence of calls made one after the other: what each returned and the
final state. -/
def run (r : SPSCRingBuffer T Capacity) : List (Call T) → List (Ret T) × SPSCRingBuffer T Capacity
  | [] => ([], r)
  | c :: cs =>
    let x := r.step c
    let y := run x.2 cs
    (x.1 :: y.1, y.2)

/-! ### The reference queue: a FIFO list with a bound -/

/-- `tryEmplace` on the reference queue with room for `bound` messages. -/
def refEmplace (bound : Nat) (q : List T) (v : T) : Bool × List T :=
  if q.length < bound then (true, q ++ [v]) else (false, q)

/-- `tryPop` on the reference queue. -/
def refPop : List T → (Bool × Option T) × List T
  | [] => ((false, none), [])
  | x :: q => ((true, some x), q)

/-- One call on the reference queue. -/
def refStep (bound : Nat) (q : List T) : Call T → Ret T × List T
  | .tryEmplace v => let x := refEmplace bound q v; (.emplaced x.1, x.2)
  | .tryPop => let x := refPop q; (.popped x.1.1 x.1.2, x.2)

/-- A sequence of calls on the reference queue. -/
def refRun (bound : Nat) (q : List T) : List (Call T) → List (Ret T) × List T
  | [] => ([], q)
  | c :: cs =>
    let x := refStep bound q c
    let y := refRun bound x.2 cs
    (x.1 :: y.1, y.2)

/-- The values of the `tryEmplace` calls that returned true, in call order. -/
def accepted : List (Call T) → List (Ret T) → List T
  | .tryEmplace v :: cs, .emplaced true :: rs => v :: accepted cs rs
  | _ :: cs, _ :: rs => accepted cs rs
  | _, _ => []

/-- The values moved out by the `tryPop` calls that returned true, in call order. -/
def delivered : List (Ret T) → List (Option T)
  | .popped true item :: rs => item :: delivered rs
  | _ :: rs => delivered rs
  | [] => []

end SPSCRingBuffer

end util

namespace gateway

/-- `struct BookUpdate`: the message passed through the ring. -/
structure BookUpdate where
  instrumentId : String
  bids : List (Double × Double)
  asks : List (Double × Double)
  receiveTimeNs : Int
  checksum : String
  isSnapshot : Bool
deriving DecidableEq

/-- `BookUpdate(instId, bids_, asks_, recvNs, snapshot, cs)`: the constructor
`tryEmplace` forwards its arguments to. -/
def BookUpdate.new (instId : String) (bids_ asks_ : List (Double × Double)) (recvNs : Int)
    (snapshot : Bool) (cs : String) : BookUpdate :=
  { instrumentId := instId, bids := bids_, asks := asks_, receiveTimeNs := recvNs,
    checksum := cs, isSnapshot := snapshot }

end gateway

/-! ## RapidJSON values, as far as the gateway reads them -/

namespace json

/-- A parsed `rapidjson::Value`.  A string value stands for the C string
`GetString()` returns, which is all the gateway reads of it; a document whose
text does not parse is `null`. -/
inductive Value where
  | null
  | bool (b : Bool)
  | number (x : ℚ)
  | string (s : String)
  | array (elems : List Value)
  | object (members : List (String × Value))

/-- How a call can end without returning. -/
inductive Fault where
  /-- A `RAPIDJSON_ASSERT` precondition of an accessor does not hold. -/
  | rapidjsonAssert
  /-- `std::stod` threw `std::invalid_argument` or `std::out_of_range`. -/
  | stodException
deriving DecidableEq

namespace Value

/-- `IsObject()`. -/
def IsObject : Value → Bool
  | object _ => true
  | _ => false

/-- `IsArray()`. -/
def IsArray : Value → Bool
  | array _ => true
  | _ => false

/-- `IsString()`. -/
def IsString : Value → Bool
  | string _ => true
  | _ => false

/-- `FindMember(name)` on a member list: the first member of that name. -/
def findMember (name : String) : List (String × Value) → Option Value
  | [] => none
  | (k, v) :: rest => if k = name then some v else findMember name rest

/-- `HasMember(name)`; asserts `IsObject()`. -/
def HasMember (v : Value) (name : String) : Except Fault Bool :=
  match v with
  | object ms => .ok (findMember name ms).isSome
  | _ => .error .rapidjsonAssert

/-- `operator[](name)`; asserts `IsObject()` and that the member exists. -/
def member (v : Value) (name : String) : Except Fault Value :=
  match v with
  | object ms =>
    match findMember name ms with
    | some x => .ok x
    | none => .error .rapidjsonAssert
  | _ => .error .rapidjsonAssert

/-- `GetString()`; asserts `IsString()`. -/
def GetString : Value → Except Fault String
  | string s => .ok s
  | _ => .error .rapidjsonAssert

/-- `GetArray()`; asserts `IsArray()`. -/
def GetArray : Value → Except Fault (List Value)
  | array xs => .ok xs
  | _ => .error .rapidjsonAssert

/-- `Size()`; asserts `IsArray()`. -/
def Size : Value → Except Fault Nat
  | array xs => .ok xs.length
  | _ => .error .rapidjsonAssert

/-- `Empty()`; asserts `IsArray()`. -/
def Empty : Value → Except Fault Bool
  | array xs => .ok xs.isEmpty
  | _ => .error .rapidjsonAssert

/-- `operator[](index)`; asserts `IsArray()` and `index < Size()`. -/
def index (v : Value) (i : Nat) : Except Fault Value :=
  match v with
  | array xs =>
    match xs.get? i with
    | some x => .ok x
    | none => .error .rapidjsonAssert
  | _ => .error .rapidjsonAssert

end Value

end json

/-! ## zlib `crc32` and the number formatting of `<iostream>` -/

namespace zlib

/-- One bit of the reflected CRC-32 register update (polynomial `0xEDB88320`). -/
def crcBit (c : Nat) : Nat :=
  if c % 2 = 1 then (c >>> 1) ^^^ 0xEDB88320 else c >>> 1

/-- One byte folded into the CRC-32 register. -/
def crcByte (c b : Nat) : Nat := crcBit^[8] (c ^^^ b)

/-- `crc32(crc, buf, len)` of zlib: the running CRC-32 `crc` updated with the
first `len` bytes of `buf`.  `crc32(0L, Z_NULL, 0)` is the initial value `0`. -/
def crc32 (crc : Nat) (buf : List Nat) (len : Nat) : Nat :=
  ((buf.take len).foldl crcByte (crc ^^^ 0xFFFFFFFF)) ^^^ 0xFFFFFFFF

end zlib

namespace fmt

/-- The value `|x| * 10^8` rounded to the nearest integer, ties to even: the
digits `printf("%.8f")` prints for the exact finite value `x`. -/
def scaled8 (x : ℚ) : Nat :=
  let n := x.num.natAbs * 10 ^ 8
  let q := n / x.den
  let r := n % x.den
  if 2 * r < x.den then q
  else if x.den < 2 * r then q + 1
  else if q % 2 = 0 then q else q + 1

/-- The eight decimal digits of `m % 10^8`, most significant first. -/
def frac8 (m : Nat) : List Char :=
  [7, 6, 5, 4, 3, 2, 1, 0].map (fun i => Nat.digitChar (m / 10 ^ i % 10))

/-- `oss << std::fixed << std::setprecision(8) << x`: the characters written,
as `printf("%.8f")` of glibc forms them.  A finite value is written with its
integer digits, `'.'` and eight fractional digits, after `'-'` when it is
negative; negative zero is written `-0.00000000`; an infinity is written
`inf` and a NaN `nan`, after `'-'` when the sign bit is set. -/
def fixed8 : Double → List Char
  | .finite x =>
    let m := scaled8 x
    (if x < 0 then ['-'] else []) ++ (Nat.repr (m / 10 ^ 8)).data ++ '.' :: frac8 m
  | .negZero => '-' :: (Nat.repr 0).data ++ '.' :: frac8 0
  | .inf negative => (if negative then ['-'] else []) ++ ['i', 'n', 'f']
  | .nan negative => (if negative then ['-'] else []) ++ ['n', 'a', 'n']

end fmt

namespace gateway

/-- The characters one loop of `computeOkxChecksum` writes to the stream:
`px:sz:` for every level. -/
def writeLevels (oss : List Char) : List (Double × Double) → List Char
  | [] => oss
  | (px, sz) :: rest =>
    writeLevels (oss ++ fmt.fixed8 px ++ [':'] ++ fmt.fixed8 sz ++ [':']) rest

/-- `std::string computeOkxChecksum(bids, asks)`. -/
def computeOkxChecksum (bids asks : List (Double × Double)) : String :=
  let oss := writeLevels (writeLevels [] bids) asks
  let data := if !oss.isEmpty && oss.getLast? = some ':' then oss.dropLast else oss
  let crc := zlib.crc32 0 [] 0
  let crc := zlib.crc32 crc (data.map Char.toNat) (data.length % 2 ^ 32)
  toString crc

end gateway

/-! ## `OkxMarketDataGateway` -/

/-- `struct BestQuote`. -/
structure BestQuote where
  instrumentId : String
  bestBidPrice : Double
  bestBidSize : Double
  bestAskPrice : Double
  bestAskSize : Double
  tickToBookLatencyNs : Int
deriving DecidableEq

/-- `static constexpr size_t kRingBufferSize = 4096`. -/
def kRingBufferSize : Nat := 4096

/-- The members of `OkxMarketDataGateway` the data plane reads and writes.
`books_` is the `unordered_map` as a lookup function; the registered callback
is represented by whether one is set (`bestQuoteCallback_`) and by the
quotes it has been called with, oldest first (`callbackCalls`). -/
structure OkxMarketDataGateway where
  instruments_ : List String
  bestQuoteCallback_ : Bool
  callbackCalls : List BestQuote
  books_ : String → Option book.OrderBook
  ringBuffer_ : util.SPSCRingBuffer gateway.BookUpdate kRingBufferSize

namespace OkxMarketDataGateway

open json gateway

/-- A gateway as constructed: no instruments, no callback, an empty ring. -/
def new : OkxMarketDataGateway :=
  { instruments_ := [], bestQuoteCallback_ := false, callbackCalls := [],
    books_ := fun _ => none, ringBuffer_ := util.SPSCRingBuffer.new }

/-- `void setInstruments(const std::vector<std::string>& instruments)`. -/
def setInstruments (g : OkxMarketDataGateway) (instruments : List String) :
    OkxMarketDataGateway :=
  { g with
    instruments_ := instruments
    books_ := fun inst => if inst ∈ instruments then some (book.OrderBook.new inst) else none }

/-- `void setBestQuoteCallback(BestQuoteCallback callback)` with a non-empty
callback. -/
def setBestQuoteCallback (g : OkxMarketDataGateway) : OkxMarketDataGateway :=
  { g with bestQuoteCallback_ := true }

/-- `std::stod(lvl[k].GetString())` for a conversion `stod`; `none` from `stod`
is the exception it throws. -/
def stodOf (stod : String → Option Double) (v : Value) : Except Fault Double := do
  let s ← v.GetString
  match stod s with
  | some x => pure x
  | none => throw Fault.stodException

/-- The body of the loops over `book["bids"].GetArray()` and
`book["asks"].GetArray()`: the levels appended to the vector, in order. -/
def parseLevels (stod : String → Option Double) :
    List Value → Except Fault (List (Double × Double))
  | [] => pure []
  | lvl :: rest => do
    let sizeOk ← (if lvl.IsArray then do pure (decide ((← lvl.Size) ≥ 2)) else pure false)
    if sizeOk then
      let px ← stodOf stod (← lvl.index 0)
      let sz ← stodOf stod (← lvl.index 1)
      let more ← parseLevels stod rest
      pure ((px, sz) :: more)
    else
      parseLevels stod rest

/-- `if (book.HasMember(name) && book[name].IsArray()) { for ... }` for
`name` one of `"bids"`, `"asks"`. -/
def parseSide (stod : String → Option Double) (book : Value) (name : String) :
    Except Fault (List (Double × Double)) := do
  if (← book.HasMember name) then
    let side ← book.member name
    if side.IsArray then parseLevels stod (← side.GetArray) else pure []
  else pure []

/-- `bool readOnceAndProcess()`.  `frame` is what `ws_->read` delivered:
`none` for a read error, else the parsed document; `recvNs` is the clock
reading taken after the read; `stod` is the string-to-double conversion.
The result is the returned flag and the gateway afterwards, or the fault
that ended the call. -/
def readOnceAndProcess (stod : String → Option Double) (frame : Option Value) (recvNs : Int)
    (g : OkxMarketDataGateway) : Except Fault (Bool × OkxMarketDataGateway) :=
  match frame with
  | none => pure (false, g)
  | some d => do
    if !d.IsObject then return (true, g)
    if !(← d.HasMember "arg") then return (true, g)
    let arg ← d.member "arg"
    if !(← arg.HasMember "channel") then return (true, g)
    if (← (← arg.member "channel").GetString) ≠ "books" then return (true, g)
    if !(← d.HasMember "data") then return (true, g)
    let dataArr ← d.member "data"
    if !dataArr.IsArray then return (true, g)
    if (← dataArr.Empty) then return (true, g)
    let book ← dataArr.index 0
    let instId ← (← arg.member "instId").GetString
    let hasAction ← d.HasMember "action"
    let isSnapshot ←
      (if hasAction then do
        let a ← d.member "action"
        if a.IsString then do pure (decide ((← a.GetString) = "snapshot")) else pure false
      else pure false)
    let bids ← parseSide stod book "bids"
    let asks ← parseSide stod book "asks"
    let hasCs ← book.HasMember "cs"
    let receivedChecksum ←
      (if hasCs then do
        let c ← book.member "cs"
        if c.IsString then c.GetString else pure ""
      else pure "")
    if receivedChecksum ≠ "" then
      let computedChecksum := computeOkxChecksum bids asks
      if receivedChecksum ≠ computedChecksum then return (true, g)
    let pushed := g.ringBuffer_.tryEmplace
      (BookUpdate.new instId bids asks recvNs isSnapshot receivedChecksum)
    return (true, { g with ringBuffer_ := pushed.2 })

/-- What `ioThreadRun` does after one call of `readOnceAndProcess`. -/
inductive SessionAction where
  /-- The inner loop calls `readOnceAndProcess` again on the same connection. -/
  | continueReading
  /-- The inner loop is left (by `break` or by a caught exception) and the
  outer loop calls `connectAndSubscribe` again. -/
  | reconnect
  /-- The process is terminated by the failed assertion. -/
  | abort
deriving DecidableEq

/-- The inner loop and the `try`/`catch` of `ioThreadRun` (while `running_`),
applied to the outcome of one `readOnceAndProcess`. -/
def ioThreadRunStep : Except Fault (Bool × OkxMarketDataGateway) → SessionAction
  | .ok (true, _) => .continueReading
  | .ok (false, _) => .reconnect
  | .error .stodException => .reconnect
  | .error .rapidjsonAssert => .abort

/-- `for (const auto& [px, sz] : levels) m[px] = sz;` -/
def fillMap (m : book.PriceMap) : List (Double × Double) → book.PriceMap
  | [] => m
  | (px, sz) :: rest => fillMap (m.assign px sz) rest

/-- `for (const auto& [px, sz] : update.bids) ob.applyDeltaBid(px, sz);` -/
def applyBidDeltas (ob : book.OrderBook) : List (Double × Double) → book.OrderBook
  | [] => ob
  | (px, sz) :: rest => applyBidDeltas (ob.applyDeltaBid px sz) rest

/-- `for (const auto& [px, sz] : update.asks) ob.applyDeltaAsk(px, sz);` -/
def applyAskDeltas (ob : book.OrderBook) : List (Double × Double) → book.OrderBook
  | [] => ob
  | (px, sz) :: rest => applyAskDeltas (ob.applyDeltaAsk px sz) rest

/-- The book `processBookUpdate` leaves behind for `update`, given the book
`ob` it found. -/
def updatedBook (ob : book.OrderBook) (update : BookUpdate) : book.OrderBook :=
  if update.isSnapshot then
    let bidMap := fillMap book.PriceMap.empty update.bids
    let askMap := fillMap book.PriceMap.empty update.asks
    ob.applySnapshot bidMap askMap
  else
    applyAskDeltas (applyBidDeltas ob update.bids) update.asks

/-- `void processBookUpdate(const gateway::BookUpdate& update)`; `now` is the
clock reading taken for the latency. -/
def processBookUpdate (now : Int) (g : OkxMarketDataGateway) (update : BookUpdate) :
    OkxMarketDataGateway :=
  match g.books_ update.instrumentId with
  | none => g
  | some found =>
    let ob := updatedBook found update
    let books := fun inst => if inst = update.instrumentId then some ob else g.books_ inst
    let (bbp, bbs) := ob.bestBid
    let (bap, bas) := ob.bestAsk
    let q : BestQuote := ⟨update.instrumentId, bbp, bbs, bap, bas, now - update.receiveTimeNs⟩
    if g.bestQuoteCallback_ then
      { g with books_ := books, callbackCalls := g.callbackCalls ++ [q] }
    else
      { g with books_ := books }

end OkxMarketDataGateway

/-! ## Call sequences and reference notions used in the statements -/

namespace book

/-- One `applyDeltaBid` or `applyDeltaAsk` call. -/
inductive Delta where
  | bid (price size : Double)
  | ask (price size : Double)

/-- A sequence of delta calls made on a book, first call first. -/
def applyDeltas (ob : OrderBook) : List Delta → OrderBook
  | [] => ob
  | .bid p s :: rest => applyDeltas (ob.applyDeltaBid p s) rest
  | .ask p s :: rest => applyDeltas (ob.applyDeltaAsk p s) rest

/-- The key a delta call addresses: its side (`true` for a bid) and its price. -/
def Delta.key : Delta → Bool × Double
  | .bid p _ => (true, p)
  | .ask p _ => (false, p)

/-- Two delta calls address the same level: the same side, and prices that
are `==`. -/
def Delta.sameKey (a b : Delta) : Bool :=
  (a.key.1 == b.key.1) && a.key.2.equals b.key.2

/-- No entry of the list has size zero (`size == 0.0` is false of every entry). -/
def NoZeroSize (l : List (Double × Double)) : Prop := ∀ e ∈ l, e.2.isZero = false

/-- Neither side of the book stores a level of size zero. -/
def OrderBook.NoZeroLevel (ob : OrderBook) : Prop :=
  NoZeroSize ob.bids_.entries ∧ NoZeroSize ob.asks_.entries

/-- The size a list of levels gives for price `p`: that of the last level
whose price is `p` (`price == p`), if there is one. -/
def lastSize (p : Double) : List (Double × Double) → Option Double
  | [] => none
  | (q, s) :: rest =>
    match lastSize p rest with
    | some t => some t
    | none => if q.equals p then some s else none

/-- The number of distinct prices among the levels, prices that are `==`
counting as one. -/
def distinctPrices (l : List (Double × Double)) : Nat :=
  ((l.map (fun e => e.1.dropZeroSign)).dedup).length

/-- No level of the list has a NaN price. -/
def NoNaNPrice (l : List (Double × Double)) : Prop := ∀ e ∈ l, e.1.isNaN = false

/-- One call made directly on an `OrderBook`. -/
inductive BookCall where
  | clear
  | applySnapshot (bids asks : PriceMap)
  | applyDeltaBid (price size : Double)
  | applyDeltaAsk (price size : Double)

/-- The book after one direct call. -/
def BookCall.apply (ob : OrderBook) : BookCall → OrderBook
  | .clear => ob.clear
  | .applySnapshot bids asks => ob.applySnapshot bids asks
  | .applyDeltaBid p s => ob.applyDeltaBid p s
  | .applyDeltaAsk p s => ob.applyDeltaAsk p s

/-- A sequence of direct calls on a book, first call first. -/
def applyCalls (ob : OrderBook) : List BookCall → OrderBook
  | [] => ob
  | c :: rest => applyCalls (c.apply ob) rest

/-- The snapshot maps of a direct call store no size 0 (any other call passes). -/
def BookCall.SnapshotNoZero : BookCall → Prop
  | .applySnapshot bids asks => NoZeroSize bids.entries ∧ NoZeroSize asks.entries
  | _ => True

end book

namespace OkxMarketDataGateway

/-- The worker applying a sequence of popped updates, each with the clock
reading taken for it, first update first. -/
def processBookUpdates (g : OkxMarketDataGateway) :
    List (Int × gateway.BookUpdate) → OkxMarketDataGateway
  | [] => g
  | (now, u) :: rest => processBookUpdates (processBookUpdate now g u) rest

/-- A snapshot update lists no level of size 0 (a delta update passes). -/
def SnapshotNoZero (u : gateway.BookUpdate) : Prop :=
  u.isSnapshot = true → book.NoZeroSize u.bids ∧ book.NoZeroSize u.asks

/-- Every book of the gateway is free of zero-size levels. -/
def BooksNoZero (g : OkxMarketDataGateway) : Prop :=
  ∀ inst ob, g.books_ inst = some ob → ob.NoZeroLevel

end OkxMarketDataGateway

namespace util.SPSCRingBuffer

/-- The ring `r` of capacity `C` holds exactly the messages `q`, oldest first:
the cursors are in range, `head_` is `q.length` slots ahead of `tail_` (modulo
`C`), the slots from `tail_` on hold the messages of `q` in order, and every
other slot is raw storage. -/
structure Holds {T : Type} {C : Nat} (r : SPSCRingBuffer T C) (q : List T) : Prop where
  tail_lt : r.tail_ < C
  buffer_len : r.buffer_.length = C
  room : q.length < C
  head_eq : r.head_ = (r.tail_ + q.length) % C
  slots : ∀ i, i < q.length → r.buffer_[(r.tail_ + i) % C]? = some q[i]?
  raw : ∀ j, j < C → (∀ i, i < q.length → j ≠ (r.tail_ + i) % C) → r.buffer_[j]? = some none
  count : r.held = q.length

end util.SPSCRingBuffer

namespace gateway

/-- The numbers of a list of levels in written order: price, size, price, size, ... -/
def numbers : List (Double × Double) → List Double
  | [] => []
  | (px, sz) :: rest => px :: sz :: numbers rest

/-- The given pieces joined by `':'`, with no trailing `':'`. -/
def joinColon : List (List Char) → List Char
  | [] => []
  | [t] => t
  | t :: t2 :: rest => t ++ ':' :: joinColon (t2 :: rest)

/-- The string the checksum is taken over, in the words of the specification:
price and size of every bid in received order, then of every ask, each in
fixed-point notation with 8 fractional digits, joined by `':'`. -/
def canonical (bids asks : List (Double × Double)) : List Char :=
  joinColon ((numbers bids ++ numbers asks).map fmt.fixed8)

end gateway

/-! ## The wire format of a books frame -/

namespace OkxMarketDataGateway

open json in
/-- A level of the wire format: an array `[priceString, sizeString, …]` whose
first two strings `stod` converts to `px` and `sz`. -/
def IsLevel (stod : String → Option Double) (v : Value) (level : Double × Double) : Prop :=
  ∃ p s extra, v = .array (.string p :: .string s :: extra)
    ∧ stod p = some level.1 ∧ stod s = some level.2

open json in
/-- A side of the wire format: an array of levels, decoding to `levels` in
received order. -/
def IsSide (stod : String → Option Double) (v : Value) (levels : List (Double × Double)) :
    Prop :=
  ∃ elems, v = .array elems ∧ List.Forall₂ (IsLevel stod) elems levels

open json in
/-- A well-formed books frame (`{"arg":{"channel":"books","instId":…},
"action":…, "data":[{"bids":…,"asks":…,"cs":…}]}`, members in any order,
further members allowed) and its reference decoding: the instrument
identifier of `arg`, the top-level `action` if present, the bid and ask levels
in received order, and the `cs` string if present. -/
def WellFormedBooks (stod : String → Option Double) (d : Value) (instId : String)
    (action : Option String) (bids asks : List (Double × Double)) (cs : Option String) : Prop :=
  ∃ members argMembers bookMembers rest bidsV asksV,
    d = .object members
    ∧ Value.findMember "arg" members = some (.object argMembers)
    ∧ Value.findMember "channel" argMembers = some (.string "books")
    ∧ Value.findMember "instId" argMembers = some (.string instId)
    ∧ Value.findMember "action" members = action.map Value.string
    ∧ Value.findMember "data" members = some (.array (.object bookMembers :: rest))
    ∧ Value.findMember "bids" bookMembers = some bidsV ∧ IsSide stod bidsV bids
    ∧ Value.findMember "asks" bookMembers = some asksV ∧ IsSide stod asksV asks
    ∧ Value.findMember "cs" bookMembers = cs.map Value.string

open json in
/-- The string `receivedChecksum` holds after
`if (book.HasMember("cs") && book["cs"].IsString()) receivedChecksum = book["cs"].GetString();`
for the `cs` member found in `data[0]` (`none` when there is none): the string
itself, and the empty string for an absent `cs` and for one that is not a
string. -/
def receivedChecksumOf : Option Value → String
  | some (.string c) => c
  | _ => ""

open json in
/-- A books frame as `WellFormedBooks` describes it, except that the `cs` member
of `data[0]`, when present, may be any JSON value: `csV` is that member. -/
def BooksFrameWithCs (stod : String → Option Double) (d : Value) (instId : String)
    (action : Option String) (bids asks : List (Double × Double)) (csV : Option Value) : Prop :=
  ∃ members argMembers bookMembers rest bidsV asksV,
    d = .object members
    ∧ Value.findMember "arg" members = some (.object argMembers)
    ∧ Value.findMember "channel" argMembers = some (.string "books")
    ∧ Value.findMember "instId" argMembers = some (.string instId)
    ∧ Value.findMember "action" members = action.map Value.string
    ∧ Value.findMember "data" members = some (.array (.object bookMembers :: rest))
    ∧ Value.findMember "bids" bookMembers = some bidsV ∧ IsSide stod bidsV bids
    ∧ Value.findMember "asks" bookMembers = some asksV ∧ IsSide stod asksV asks
    ∧ Value.findMember "cs" bookMembers = csV

end OkxMarketDataGateway

namespace fmt

/-- The number a list of decimal digit characters denotes. -/
def decimalValue (cs : List Char) : Nat :=
  cs.foldl (fun acc c => 10 * acc + (c.toNat - 48)) 0

end fmt

/-! ## Sample inputs -/

namespace sample

/-- A snapshot update for `BTC-USDT` with two bid levels and one ask level. -/
def snapshotUpdate : gateway.BookUpdate :=
  ⟨"BTC-USDT", [(30000, 1), (29999, 2)], [(30001, 3)], 10, "", true⟩

/-- A delta update for `BTC-USDT` that removes a bid level and sets an ask level. -/
def deltaUpdate : gateway.BookUpdate :=
  ⟨"BTC-USDT", [(30000, 0)], [(30002, 5)], 20, "", false⟩

/-- A gateway with the one instrument `BTC-USDT` registered and a callback set. -/
def gatewayBtc : OkxMarketDataGateway :=
  (OkxMarketDataGateway.new.setInstruments ["BTC-USDT"]).setBestQuoteCallback

/-- A conversion that agrees with `std::stod` on the numerals `0` to `4`, on
`-0`, `inf` and `nan`, and throws on everything else. -/
def stod (s : String) : Option Double :=
  if s = "0" then some 0
  else if s = "1" then some 1
  else if s = "2" then some 2
  else if s = "3" then some 3
  else if s = "4" then some 4
  else if s = "-0" then some .negZero
  else if s = "inf" then some (.inf false)
  else if s = "nan" then some (.nan false)
  else none

open json in
/-- A books frame with the given action, first bid price string and `cs`:
`{"arg":{"channel":"books","instId":"BTC-USDT"},"action":action,
"data":[{"asks":[["3","4","0","1"]],"bids":[[px,"2","0","1"]],"cs":cs}]}`. -/
def booksFrame (action px cs : String) : Value :=
  .object [
    ("arg", .object [("channel", .string "books"), ("instId", .string "BTC-USDT")]),
    ("action", .string action),
    ("data", .array [.object [
      ("asks", .array [.array [.string "3", .string "4", .string "0", .string "1"]]),
      ("bids", .array [.array [.string px, .string "2", .string "0", .string "1"]]),
      ("cs", .string cs)]])]

open json in
/-- A frame whose `arg.channel` is a number:
`{"arg":{"channel":7,"instId":"BTC-USDT"},"data":[{}]}`. -/
def numericChannelFrame : Value :=
  .object [
    ("arg", .object [("channel", .number 7), ("instId", .string "BTC-USDT")]),
    ("data", .array [.object []])]

open json in
/-- A books frame without `arg.instId`:
`{"arg":{"channel":"books"},"data":[{"bids":[],"asks":[]}]}`. -/
def noInstIdFrame : Value :=
  .object [
    ("arg", .object [("channel", .string "books")]),
    ("data", .array [.object [("bids", .array []), ("asks", .array [])]])]

/-- The book of `tests/test_orderbook.cpp` after its initial snapshot, with
prices in units of 0.25 and sizes in units of 0.1 (bids 30000.0 → 1.5 and
29999.5 → 2.0, asks 30000.5 → 1.2 and 30001.0 → 3.0). -/
def testBook : book.OrderBook :=
  (book.OrderBook.new "BTC-USDT-SWAP").applySnapshot
    (OkxMarketDataGateway.fillMap book.PriceMap.empty [(120000, 15), (119998, 20)])
    (OkxMarketDataGateway.fillMap book.PriceMap.empty [(120002, 12), (120004, 30)])

/-- A ring of the gateway's capacity in the state `kRingBufferSize - 1`
successful `tryEmplace` calls leave a new ring in: `head_` is 4095, `tail_` is
0, and every slot but the last holds a message. -/
def fullRing : util.SPSCRingBuffer gateway.BookUpdate kRingBufferSize :=
  ⟨kRingBufferSize - 1, 0, List.replicate (kRingBufferSize - 1) (some deltaUpdate) ++ [none]⟩

/-- The gateway `gatewayBtc` with that ring. -/
def fullGateway : OkxMarketDataGateway :=
  { gatewayBtc with ringBuffer_ := fullRing }

open json in
/-- A frame without `data` whose `arg.channel` is a number:
`{"arg":{"channel":7,"instId":"BTC-USDT"},"action":"snapshot"}`. -/
def numericChannelNoDataFrame : Value :=
  .object [
    ("arg", .object [("channel", .number 7), ("instId", .string "BTC-USDT")]),
    ("action", .string "snapshot")]

open json in
/-- A frame without `data` whose `arg` is a string:
`{"arg":"books","action":"snapshot"}`. -/
def stringArgFrame : Value :=
  .object [("arg", .string "books"), ("action", .string "snapshot")]

open json in
/-- A frame of another channel that otherwise looks like a books snapshot:
`{"arg":{"channel":"tickers","instId":"BTC-USDT"},"action":"snapshot",
"data":[{"asks":[["3","4"]],"bids":[["1","2"]]}]}`. -/
def tickersFrame : Value :=
  .object [
    ("arg", .object [("channel", .string "tickers"), ("instId", .string "BTC-USDT")]),
    ("action", .string "snapshot"),
    ("data", .array [.object [
      ("asks", .array [.array [.string "3", .string "4"]]),
      ("bids", .array [.array [.string "1", .string "2"]])]])]

open json in
/-- A books frame with the given `data` member and with levels and an action
at the top level: `{"arg":{"channel":"books","instId":"BTC-USDT"},
"action":"snapshot","bids":[["1","2"]],"asks":[["3","4"]],"data":data}`. -/
def booksFrameWithData (data : Value) : Value :=
  .object [
    ("arg", .object [("channel", .string "books"), ("instId", .string "BTC-USDT")]),
    ("action", .string "snapshot"),
    ("bids", .array [.array [.string "1", .string "2"]]),
    ("asks", .array [.array [.string "3", .string "4"]]),
    ("data", data)]

open json in
/-- The same books frame without a `data` member. -/
def booksNoDataFrame : Value :=
  .object [
    ("arg", .object [("channel", .string "books"), ("instId", .string "BTC-USDT")]),
    ("action", .string "snapshot"),
    ("bids", .array [.array [.string "1", .string "2"]]),
    ("asks", .array [.array [.string "3", .string "4"]])]

open json in
/-- A snapshot books frame with one bid and one ask level whose `cs` member is
the given JSON value:
`{"arg":{"channel":"books","instId":"BTC-USDT"},"action":"snapshot",
"data":[{"asks":[["3","4"]],"bids":[["1","2"]],"cs":cs}]}`. -/
def booksFrameCs (cs : Value) : Value :=
  .object [
    ("arg", .object [("channel", .string "books"), ("instId", .string "BTC-USDT")]),
    ("action", .string "snapshot"),
    ("data", .array [.object [
      ("asks", .array [.array [.string "3", .string "4"]]),
      ("bids", .array [.array [.string "1", .string "2"]]),
      ("cs", cs)]])]

end sample

/-! # Properties -/

open book gateway json util OkxMarketDataGateway util.SPSCRingBuffer

/-! ## Comparing doubles -/

namespace Double

theorem not_nan_of_lt {a b : Double} (h : a < b) : a.isNaN = false ∧ b.isNaN = false := by
  revert h
  rcases a with x | _ | (_ | _) | (_ | _) <;> rcases b with y | _ | (_ | _) | (_ | _) <;>
    simp [lt_def, ltb, isNaN]

/-- On doubles that are not NaN, `<` is a strict weak order: what is not below
`b` is above everything `b` is above. -/
theorem lt_of_lt_of_not_lt {a b c : Double} (h : a < b) (h₁ : ¬ c < b) (hc : c.isNaN = false) :
    a < c := by
  revert h h₁ hc
  rcases a with x | _ | (_ | _) | (_ | _) <;> rcases b with y | _ | (_ | _) | (_ | _) <;>
    rcases c with z | _ | (_ | _) | (_ | _) <;>
    simp [lt_def, ltb, isNaN] <;> intros <;> linarith

theorem lt_of_not_lt_of_lt {a b c : Double} (h₁ : ¬ b < a) (ha : a.isNaN = false) (h : b < c) :
    a < c := by
  revert h h₁ ha
  rcases a with x | _ | (_ | _) | (_ | _) <;> rcases b with y | _ | (_ | _) | (_ | _) <;>
    rcases c with z | _ | (_ | _) | (_ | _) <;>
    simp [lt_def, ltb, isNaN] <;> intros <;> linarith

theorem equals_iff {a b : Double} :
    a.equals b = true ↔ a.isNaN = false ∧ b.isNaN = false ∧ ¬ a < b ∧ ¬ b < a := by
  simp [equals, lt_def, and_assoc]

theorem equals_eq_false_iff {a b : Double} (ha : a.isNaN = false) (hb : b.isNaN = false) :
    a.equals b = false ↔ a < b ∨ b < a := by
  constructor
  · intro h
    by_contra hn
    rw [not_or] at hn
    have := equals_iff.2 ⟨ha, hb, hn.1, hn.2⟩
    rw [h] at this
    exact Bool.false_ne_true this
  · intro h
    cases hh : a.equals b
    · rfl
    · have := equals_iff.1 hh
      rcases h with h | h
      · exact absurd h this.2.2.1
      · exact absurd h this.2.2.2

theorem equals_comm (a b : Double) : a.equals b = b.equals a := by
  simp only [equals]
  cases a.isNaN <;> cases b.isNaN <;> cases ltb a b <;> cases ltb b a <;> rfl

theorem equals_self {a : Double} (ha : a.isNaN = false) : a.equals a = true :=
  equals_iff.2 ⟨ha, ha, lt_irrefl a, lt_irrefl a⟩

theorem equals_nan_left {a b : Double} (ha : a.isNaN = true) : a.equals b = false := by
  simp [equals, ha]

theorem equals_nan_right {a b : Double} (hb : b.isNaN = true) : a.equals b = false := by
  simp [equals, hb]

theorem equals_trans {a b c : Double} (h₁ : a.equals b = true) (h₂ : b.equals c = true) :
    a.equals c = true := by
  obtain ⟨ha, hb, hab, hba⟩ := equals_iff.1 h₁
  obtain ⟨_, hc, hbc, hcb⟩ := equals_iff.1 h₂
  refine equals_iff.2 ⟨ha, hc, fun h => ?_, fun h => ?_⟩
  · exact hbc (lt_of_not_lt_of_lt hab hb h)
  · exact hcb (lt_of_lt_of_not_lt h hba hb)

/-- Doubles that are `==` compare alike with every double. -/
theorem lt_congr_left {a b : Double} (h : a.equals b = true) (c : Double) : a < c ↔ b < c := by
  obtain ⟨ha, hb, hab, hba⟩ := equals_iff.1 h
  exact ⟨fun hc => lt_of_not_lt_of_lt hab hb hc, fun hc => lt_of_not_lt_of_lt hba ha hc⟩

theorem lt_congr_right {a b : Double} (h : a.equals b = true) (c : Double) : c < a ↔ c < b := by
  obtain ⟨ha, hb, hab, hba⟩ := equals_iff.1 h
  exact ⟨fun hc => lt_of_lt_of_not_lt hc hba hb, fun hc => lt_of_lt_of_not_lt hc hab ha⟩

theorem isZero_zero : (0 : Double).isZero = true := by decide

end Double

/-! ## The ordered map -/

namespace book

theorem PriceMap.eq_of_entries {a b : PriceMap} (h : a.entries = b.entries) : a = b := by
  cases a; cases b; cases h; rfl

theorem findRaw_assignRaw_self (p s : Double) (l : List (Double × Double)) :
    findRaw p (assignRaw p s l) = some s := by
  induction l with
  | nil => simp [assignRaw, findRaw, Double.lt_irrefl]
  | cons hd rest ih =>
    obtain ⟨q, t⟩ := hd
    unfold assignRaw
    split_ifs with h1 h2
    · simp [findRaw, Double.lt_irrefl]
    · simp [findRaw, h2, ih]
    · simp [findRaw, h1, h2]

theorem eraseRaw_cons (p : Double) (hd : Double × Double) (rest : List (Double × Double)) :
    eraseRaw p (hd :: rest)
      = if hd.1 < p ∨ p < hd.1 then hd :: eraseRaw p rest else eraseRaw p rest := by
  by_cases h : hd.1 < p ∨ p < hd.1
  · rw [if_pos h]; simp [eraseRaw, List.filter_cons, h]
  · rw [if_neg h]; simp [eraseRaw, List.filter_cons, h]

theorem findRaw_eraseRaw_self (p : Double) (l : List (Double × Double)) :
    findRaw p (eraseRaw p l) = none := by
  induction l with
  | nil => rfl
  | cons hd rest ih =>
    obtain ⟨q, t⟩ := hd
    rw [eraseRaw_cons]
    by_cases h1 : q < p
    · simp [h1, findRaw, ih]
    · by_cases h2 : p < q
      · simp [h1, h2, findRaw]
      · simp [h1, h2, ih]

theorem mem_eraseRaw {p : Double} {l : List (Double × Double)} {e : Double × Double} :
    e ∈ eraseRaw p l ↔ e ∈ l ∧ (e.1 < p ∨ p < e.1) := by
  simp [eraseRaw, List.mem_filter]

/-- A key below every stored key is not found. -/
theorem findRaw_of_lt_all {q : Double} {l : List (Double × Double)}
    (h : ∀ e ∈ l, q < e.1) : findRaw q l = none := by
  cases l with
  | nil => rfl
  | cons hd rest =>
    have h1 := h hd (List.mem_cons_self _ _)
    simp [findRaw, Double.lt_asymm h1, h1]

theorem findRaw_assignRaw_of_ne {p q : Double} (s : Double) {l : List (Double × Double)}
    (hl : NoNaNPrice l) (hne : q < p ∨ p < q) :
    findRaw q (assignRaw p s l) = findRaw q l := by
  induction l with
  | nil =>
    rcases hne with h | h
    · simp [assignRaw, findRaw, h, Double.lt_asymm h]
    · simp [assignRaw, findRaw, h]
  | cons hd rest ih =>
    obtain ⟨r, t⟩ := hd
    have hr : r.isNaN = false := hl (r, t) (List.mem_cons_self _ _)
    have hrest : NoNaNPrice rest := fun e he => hl e (List.mem_cons_of_mem _ he)
    unfold assignRaw
    split_ifs with h1 h2
    · rcases hne with h | h
      · have hqr : q < r := Double.lt_trans h h1
        simp [findRaw, h, Double.lt_asymm h, hqr, Double.lt_asymm hqr]
      · simp [findRaw, h]
    · by_cases h3 : r < q
      · simp [findRaw, h3, ih hrest]
      · simp [findRaw, h3]
    · by_cases h3 : r < q
      · simp [findRaw, h3]
      · by_cases h4 : q < r
        · simp [findRaw, h3, h4]
        · exfalso
          rcases hne with h | h
          · exact h2 (Double.lt_of_not_lt_of_lt h4 hr h)
          · exact h1 (Double.lt_of_lt_of_not_lt h h3 hr)

theorem findRaw_eraseRaw_of_ne {p q : Double} {l : List (Double × Double)}
    (hl : Ascending l) (hn : NoNaNPrice l) (hne : q < p ∨ p < q) :
    findRaw q (eraseRaw p l) = findRaw q l := by
  induction l with
  | nil => rfl
  | cons hd rest ih =>
    obtain ⟨r, t⟩ := hd
    have hr : r.isNaN = false := hn (r, t) (List.mem_cons_self _ _)
    have hrest : NoNaNPrice rest := fun e he => hn e (List.mem_cons_of_mem _ he)
    have hasc := (List.pairwise_cons.1 hl).2
    have hlt := (List.pairwise_cons.1 hl).1
    rw [eraseRaw_cons]
    by_cases hk : r < p ∨ p < r
    · rw [if_pos hk]
      by_cases h3 : r < q
      · simp [findRaw, h3, ih hasc hrest]
      · simp [findRaw, h3]
    · rw [if_neg hk, ih hasc hrest]
      rw [not_or] at hk
      by_cases h3 : r < q
      · simp [findRaw, h3]
      · have h4 : q < r := by
          rcases hne with h | h
          · exact Double.lt_of_lt_of_not_lt h hk.1 hr
          · exact absurd (Double.lt_of_not_lt_of_lt hk.2 hr h) h3
        have : findRaw q rest = none :=
          findRaw_of_lt_all (fun e he => Double.lt_trans h4 (hlt e he))
        simp [findRaw, h3, h4, this]

/-- What `find` returns is the value of a stored entry whose key is neither
below nor above the key looked up. -/
theorem mem_of_findRaw {p s : Double} {l : List (Double × Double)}
    (h : findRaw p l = some s) : ∃ q, (q, s) ∈ l ∧ ¬ q < p ∧ ¬ p < q := by
  induction l with
  | nil => simp [findRaw] at h
  | cons hd rest ih =>
    obtain ⟨q, t⟩ := hd
    unfold findRaw at h
    split_ifs at h with h1 h2
    · obtain ⟨r, hr, hh⟩ := ih h
      exact ⟨r, List.mem_cons_of_mem _ hr, hh⟩
    · have : t = s := by simpa using h
      subst this
      exact ⟨q, List.mem_cons_self _ _, h1, h2⟩

theorem findRaw_of_mem {l : List (Double × Double)} (hl : Ascending l)
    {e : Double × Double} (he : e ∈ l) : findRaw e.1 l = some e.2 := by
  induction l with
  | nil => exact absurd he (List.not_mem_nil _)
  | cons hd rest ih =>
    obtain ⟨q, t⟩ := hd
    have hq := (List.pairwise_cons.1 hl).1
    have hr := (List.pairwise_cons.1 hl).2
    rcases List.mem_cons.1 he with he | he
    · subst he; simp [findRaw, Double.lt_irrefl]
    · simp [findRaw, hq e he, ih hr he]

/-- `find` misses exactly when every stored key is below or above the key
looked up. -/
theorem findRaw_eq_none_iff {p : Double} {l : List (Double × Double)} (hl : Ascending l) :
    findRaw p l = none ↔ ∀ e ∈ l, e.1 < p ∨ p < e.1 := by
  induction l with
  | nil => simp [findRaw]
  | cons hd rest ih =>
    obtain ⟨q, t⟩ := hd
    have hq := (List.pairwise_cons.1 hl).1
    have hr := (List.pairwise_cons.1 hl).2
    by_cases h1 : q < p
    · simp [findRaw, h1, ih hr]
    · by_cases h2 : p < q
      · simp only [findRaw, h1, h2, if_false, if_true, true_iff]
        intro e he
        rcases List.mem_cons.1 he with he | he
        · subst he; exact Or.inr h2
        · exact Or.inr (Double.lt_trans h2 (hq e he))
      · simp [findRaw, h1, h2]

theorem eraseRaw_of_absent {p : Double} {l : List (Double × Double)} (hl : Ascending l)
    (h : findRaw p l = none) : eraseRaw p l = l := by
  rw [eraseRaw, List.filter_eq_self]
  intro e he
  simpa using (findRaw_eq_none_iff hl).1 h e he

theorem length_eraseRaw_of_present {p : Double} {l : List (Double × Double)}
    (hl : Ascending l) (hn : NoNaNPrice l) (hp : p.isNaN = false)
    (h : findRaw p l ≠ none) : (eraseRaw p l).length + 1 = l.length := by
  induction l with
  | nil => simp [findRaw] at h
  | cons hd rest ih =>
    obtain ⟨q, t⟩ := hd
    have hq := (List.pairwise_cons.1 hl).1
    have hr := (List.pairwise_cons.1 hl).2
    have hqn : q.isNaN = false := hn (q, t) (List.mem_cons_self _ _)
    have hrest : NoNaNPrice rest := fun e he => hn e (List.mem_cons_of_mem _ he)
    rw [eraseRaw_cons]
    by_cases h1 : q < p
    · have h2 : findRaw p rest ≠ none := by simpa [findRaw, h1] using h
      rw [if_pos (Or.inl h1), List.length_cons, ih hr hrest h2, List.length_cons]
    · by_cases h2 : p < q
      · simp [findRaw, h1, h2] at h
      · have hk : ¬ (q < p ∨ p < q) := not_or.2 ⟨h1, h2⟩
        have habs : findRaw p rest = none :=
          findRaw_of_lt_all (fun e he => Double.lt_of_not_lt_of_lt h1 hp (hq e he))
        rw [if_neg hk, eraseRaw_of_absent hr habs, List.length_cons]

theorem length_assignRaw (p s : Double) (l : List (Double × Double)) :
    (assignRaw p s l).length = if findRaw p l = none then l.length + 1 else l.length := by
  induction l with
  | nil => simp [assignRaw, findRaw]
  | cons hd rest ih =>
    obtain ⟨q, t⟩ := hd
    unfold assignRaw
    split_ifs with h1 h2 h3 h4 h5
    · rfl
    · simp [findRaw, h1, Double.lt_asymm h1] at h2
    · have h5 : findRaw p rest = none := by simpa [findRaw, h3] using h4
      simp [ih, h5]
    · have h6 : findRaw p rest ≠ none := by simpa [findRaw, h3] using h4
      simp [ih, h6]
    · simp [findRaw, h1, h3] at h5
    · rfl

end book

namespace book

/-- An entry at another price is in the map after `m[p] = s` exactly when it was
before. -/
theorem mem_assignRaw_iff_of_ne {p : Double} (s : Double) {l : List (Double × Double)}
    {e : Double × Double} (hne : e.1 < p ∨ p < e.1) : e ∈ assignRaw p s l ↔ e ∈ l := by
  have hep : ∀ {v : Double}, e ≠ (p, v) := by
    intro v h
    rw [h] at hne
    exact hne.elim (Double.lt_irrefl p) (Double.lt_irrefl p)
  induction l with
  | nil => simp [assignRaw, hep]
  | cons hd rest ih =>
    obtain ⟨q, t⟩ := hd
    unfold assignRaw
    split_ifs with h1 h2
    · simp [hep]
    · simp [ih]
    · have hq : ∀ {v : Double}, e ≠ (q, v) := by
        intro v h
        rw [h] at hne
        exact hne.elim h2 h1
      simp [hq]

theorem noNaNPrice_assignRaw {p s : Double} {l : List (Double × Double)}
    (hp : p.isNaN = false) (hl : NoNaNPrice l) : NoNaNPrice (assignRaw p s l) := by
  intro e he
  rcases key_mem_assignRaw he with h | h
  · rw [h]; exact hp
  · obtain ⟨e', he', hk⟩ := List.mem_map.1 h
    rw [← hk]
    exact hl e' he'

theorem noNaNPrice_eraseRaw (p : Double) {l : List (Double × Double)}
    (hl : NoNaNPrice l) : NoNaNPrice (eraseRaw p l) :=
  fun e he => hl e (List.mem_of_mem_filter he)

/-! ## Deltas never store a size of zero; the best entries of an ordered map -/

theorem noZeroSize_assignRaw {p s : Double} {l : List (Double × Double)}
    (hs : s.isZero = false) (hl : NoZeroSize l) : NoZeroSize (assignRaw p s l) := by
  intro e he
  rcases mem_assignRaw he with h | h | h
  · rw [h]; exact hs
  · exact hl e h
  · rw [h.1]; exact hs

theorem noZeroSize_eraseRaw (p : Double) {l : List (Double × Double)}
    (hl : NoZeroSize l) : NoZeroSize (eraseRaw p l) :=
  fun e he => hl e (List.mem_of_mem_filter he)

theorem noZeroLevel_applyDeltaBid (ob : OrderBook) (p s : Double) (h : ob.NoZeroLevel) :
    (ob.applyDeltaBid p s).NoZeroLevel := by
  unfold OrderBook.applyDeltaBid
  split_ifs with hs
  · exact ⟨noZeroSize_eraseRaw p h.1, h.2⟩
  · exact ⟨noZeroSize_assignRaw (Bool.eq_false_iff.2 hs) h.1, h.2⟩

theorem noZeroLevel_applyDeltaAsk (ob : OrderBook) (p s : Double) (h : ob.NoZeroLevel) :
    (ob.applyDeltaAsk p s).NoZeroLevel := by
  unfold OrderBook.applyDeltaAsk
  split_ifs with hs
  · exact ⟨h.1, noZeroSize_eraseRaw p h.2⟩
  · exact ⟨h.1, noZeroSize_assignRaw (Bool.eq_false_iff.2 hs) h.2⟩

theorem noZeroLevel_new (instrumentId : String) : (OrderBook.new instrumentId).NoZeroLevel :=
  ⟨fun _ he => absurd he (List.not_mem_nil _), fun _ he => absurd he (List.not_mem_nil _)⟩

theorem noZeroLevel_applyDeltas (ds : List Delta) :
    ∀ ob : OrderBook, ob.NoZeroLevel → (applyDeltas ob ds).NoZeroLevel := by
  induction ds with
  | nil => intro ob h; exact h
  | cons d rest ih =>
    intro ob h
    cases d with
    | bid p s => exact ih _ (noZeroLevel_applyDeltaBid ob p s h)
    | ask p s => exact ih _ (noZeroLevel_applyDeltaAsk ob p s h)

/-- The last entry of an ordered map: every other entry has a smaller key. -/
theorem lt_getLast_of_ascending {l : List (Double × Double)} (hl : Ascending l)
    {last : Double × Double} (h : l.getLast? = some last) :
    last ∈ l ∧ ∀ e ∈ l, e = last ∨ e.1 < last.1 := by
  have hmem : last ∈ l := List.mem_of_getLast?_eq_some h
  refine ⟨hmem, ?_⟩
  have hne : l ≠ [] := List.ne_nil_of_mem hmem
  have hlast : l.getLast hne = last := by
    rw [List.getLast?_eq_getLast l hne] at h
    exact Option.some.inj h
  have hsplit := List.dropLast_append_getLast hne
  rw [hlast] at hsplit
  intro e he
  rw [← hsplit] at he hl
  rcases List.mem_append.1 he with he | he
  · exact Or.inr ((List.pairwise_append.1 hl).2.2 e he last (List.mem_singleton_self _))
  · exact Or.inl (List.mem_singleton.1 he)

/-- The first entry of an ordered map: every other entry has a greater key. -/
theorem head_lt_of_ascending {l : List (Double × Double)} (hl : Ascending l)
    {first : Double × Double} (h : l.head? = some first) :
    first ∈ l ∧ ∀ e ∈ l, e = first ∨ first.1 < e.1 := by
  cases l with
  | nil => simp at h
  | cons hd rest =>
    have : hd = first := by simpa using h
    subst this
    refine ⟨List.mem_cons_self _ _, ?_⟩
    intro e he
    rcases List.mem_cons.1 he with he | he
    · exact Or.inl he
    · exact Or.inr ((List.pairwise_cons.1 hl).1 e he)

end book

/-! ## The order book contract (C2, C3, C5) -/

/-- The scenario of `tests/test_orderbook.cpp` (prices in units of 0.25, sizes
in units of 0.1): best quotes and level counts after the snapshot, after a
bid size change and an ask removal, after a better ask, and after a bid
removal. -/
theorem orderbook_test_scenario :
    sample.testBook.bestBid = (120000, 15) ∧ sample.testBook.bestAsk = (120002, 12)
    ∧ sample.testBook.bidLevels = 2 ∧ sample.testBook.askLevels = 2
    ∧ ((sample.testBook.applyDeltaBid 120000 25).applyDeltaAsk 120002 0).bestBid = (120000, 25)
    ∧ ((sample.testBook.applyDeltaBid 120000 25).applyDeltaAsk 120002 0).bestAsk = (120004, 30)
    ∧ ((sample.testBook.applyDeltaBid 120000 25).applyDeltaAsk 120002 0).bidLevels = 2
    ∧ ((sample.testBook.applyDeltaBid 120000 25).applyDeltaAsk 120002 0).askLevels = 1
    ∧ (((sample.testBook.applyDeltaBid 120000 25).applyDeltaAsk 120002 0).applyDeltaAsk
        120001 42).bestAsk = (120001, 42)
    ∧ ((((sample.testBook.applyDeltaBid 120000 25).applyDeltaAsk 120002 0).applyDeltaAsk
        120001 42).applyDeltaBid 119998 0).bidLevels = 1 := by
  decide

/-- C2, refuted as stated.  On the book of the order book test (bids 119998 → 20
and 120000 → 15, asks 120002 → 12 and 120004 → 30) `applyDeltaBid(NaN, 5)`
overwrites the bid level at the smallest price, 119998, and
`applyDeltaBid(NaN, 0)` removes both bid levels; `applyDeltaAsk` does the same
on the ask side.  On a book whose one bid level has a NaN price,
`applyDeltaBid(1, 5)` changes the size of that level. -/
theorem applyDelta_nan_price :
    sample.testBook.bids_.entries = [(119998, 20), (120000, 15)]
    ∧ (sample.testBook.applyDeltaBid (.nan false) 5).bids_.entries
        = [(119998, 5), (120000, 15)]
    ∧ sample.testBook.bids_.find 119998 = some 20
    ∧ (sample.testBook.applyDeltaBid (.nan false) 5).bids_.find 119998 = some 5
    ∧ (sample.testBook.applyDeltaBid (.nan false) 0).bids_.entries = []
    ∧ sample.testBook.asks_.entries = [(120002, 12), (120004, 30)]
    ∧ (sample.testBook.applyDeltaAsk (.nan false) 5).asks_.entries
        = [(120002, 5), (120004, 30)]
    ∧ (sample.testBook.applyDeltaAsk (.nan false) 0).asks_.entries = []
    ∧ ((OrderBook.new "BTC-USDT").applyDeltaBid (.nan false) 1).bids_.entries
        = [(.nan false, 1)]
    ∧ (((OrderBook.new "BTC-USDT").applyDeltaBid (.nan false) 1).applyDeltaBid 1 5).bids_.entries
        = [(.nan false, 5)] := by
  decide

theorem applyDeltaBid_of_zero (ob : OrderBook) (p : Double) {s : Double}
    (hs : s.isZero = true) :
    ob.applyDeltaBid p s = { ob with bids_ := ob.bids_.erase p } := by
  simp [OrderBook.applyDeltaBid, hs]

theorem applyDeltaBid_of_nonzero (ob : OrderBook) (p : Double) {s : Double}
    (hs : s.isZero = false) :
    ob.applyDeltaBid p s = { ob with bids_ := ob.bids_.assign p s } := by
  simp [OrderBook.applyDeltaBid, hs]

theorem applyDeltaAsk_of_zero (ob : OrderBook) (p : Double) {s : Double}
    (hs : s.isZero = true) :
    ob.applyDeltaAsk p s = { ob with asks_ := ob.asks_.erase p } := by
  simp [OrderBook.applyDeltaAsk, hs]

theorem applyDeltaAsk_of_nonzero (ob : OrderBook) (p : Double) {s : Double}
    (hs : s.isZero = false) :
    ob.applyDeltaAsk p s = { ob with asks_ := ob.asks_.assign p s } := by
  simp [OrderBook.applyDeltaAsk, hs]

/-- What `erase(p)` and `m[p] = s` do to an ordered map without NaN keys, for a
key `p` that is not a NaN. -/
theorem priceMap_update_contract (m : PriceMap) (p s : Double) (hp : p.isNaN = false)
    (hm : NoNaNPrice m.entries) :
    ((m.erase p).find p = none
      ∧ (∀ q : Double, q.isNaN = false → q.equals p = false → (m.erase p).find q = m.find q)
      ∧ (∀ e : Double × Double, e.1.equals p = false →
          (e ∈ (m.erase p).entries ↔ e ∈ m.entries))
      ∧ (m.find p = none → m.erase p = m)
      ∧ (m.find p ≠ none → (m.erase p).size + 1 = m.size)
      ∧ NoNaNPrice (m.erase p).entries)
    ∧ ((m.assign p s).find p = some s
      ∧ (∀ q : Double, q.isNaN = false → q.equals p = false → (m.assign p s).find q = m.find q)
      ∧ (∀ e : Double × Double, e.1.equals p = false →
          (e ∈ (m.assign p s).entries ↔ e ∈ m.entries))
      ∧ ((m.assign p s).size = if m.find p = none then m.size + 1 else m.size)
      ∧ NoNaNPrice (m.assign p s).entries) := by
  have hcmp : ∀ q : Double, q.isNaN = false → q.equals p = false → q < p ∨ p < q :=
    fun q hq h => (Double.equals_eq_false_iff hq hp).1 h
  refine ⟨⟨findRaw_eraseRaw_self p _, fun q hq h => ?_, fun e he => ?_, fun habs => ?_,
    fun hpres => length_eraseRaw_of_present m.ordered hm hp hpres, noNaNPrice_eraseRaw p hm⟩,
    ⟨findRaw_assignRaw_self p s _, fun q hq h => ?_, fun e he => ?_, length_assignRaw p s _,
      noNaNPrice_assignRaw hp hm⟩⟩
  · exact findRaw_eraseRaw_of_ne m.ordered hm (hcmp q hq h)
  · show e ∈ eraseRaw p m.entries ↔ _
    rw [mem_eraseRaw]
    constructor
    · exact fun h => h.1
    · intro h
      exact ⟨h, hcmp e.1 (hm e h) he⟩
  · exact PriceMap.eq_of_entries (eraseRaw_of_absent m.ordered habs)
  · exact findRaw_assignRaw_of_ne s hm (hcmp q hq h)
  · show e ∈ assignRaw p s m.entries ↔ _
    by_cases hen : e.1.isNaN = true
    · constructor
      · intro h
        have := noNaNPrice_assignRaw (s := s) hp hm e h
        rw [this] at hen
        exact absurd hen Bool.false_ne_true
      · intro h
        rw [hm e h] at hen
        exact absurd hen Bool.false_ne_true
    · exact mem_assignRaw_iff_of_ne s (hcmp e.1 (Bool.eq_false_iff.2 hen) he)

/-- C2, amended.  For every book that stores no NaN price and every price `p`
that is not a NaN: `applyDeltaBid(p, s)` with `s == 0` removes the bid level at
`p` (the level count drops by one when the level was present; the book is
unchanged when it was absent), and with `s != 0` it makes the bid side map `p`
to `s` (inserting or replacing); every bid level at another price, the ask
side and the instrument identifier are unchanged, and the book still stores no
NaN price.  `applyDeltaAsk` does the same on the ask side. -/
theorem applyDelta_contract (ob : OrderBook) (p s : Double) (hp : p.isNaN = false)
    (hbids : NoNaNPrice ob.bids_.entries) (hasks : NoNaNPrice ob.asks_.entries) :
    ((ob.applyDeltaBid p s).bids_.find p = (if s.isZero then none else some s)
      ∧ (∀ q : Double, q.isNaN = false → q.equals p = false →
          (ob.applyDeltaBid p s).bids_.find q = ob.bids_.find q)
      ∧ (∀ e : Double × Double, e.1.equals p = false →
          (e ∈ (ob.applyDeltaBid p s).bids_.entries ↔ e ∈ ob.bids_.entries))
      ∧ (s.isZero = true → ob.bids_.find p = none → ob.applyDeltaBid p s = ob)
      ∧ (s.isZero = true → ob.bids_.find p ≠ none →
          (ob.applyDeltaBid p s).bidLevels + 1 = ob.bidLevels)
      ∧ (s.isZero = false → (ob.applyDeltaBid p s).bidLevels =
          if ob.bids_.find p = none then ob.bidLevels + 1 else ob.bidLevels)
      ∧ (ob.applyDeltaBid p s).asks_ = ob.asks_
      ∧ (ob.applyDeltaBid p s).instrumentId_ = ob.instrumentId_
      ∧ NoNaNPrice (ob.applyDeltaBid p s).bids_.entries)
    ∧ ((ob.applyDeltaAsk p s).asks_.find p = (if s.isZero then none else some s)
      ∧ (∀ q : Double, q.isNaN = false → q.equals p = false →
          (ob.applyDeltaAsk p s).asks_.find q = ob.asks_.find q)
      ∧ (∀ e : Double × Double, e.1.equals p = false →
          (e ∈ (ob.applyDeltaAsk p s).asks_.entries ↔ e ∈ ob.asks_.entries))
      ∧ (s.isZero = true → ob.asks_.find p = none → ob.applyDeltaAsk p s = ob)
      ∧ (s.isZero = true → ob.asks_.find p ≠ none →
          (ob.applyDeltaAsk p s).askLevels + 1 = ob.askLevels)
      ∧ (s.isZero = false → (ob.applyDeltaAsk p s).askLevels =
          if ob.asks_.find p = none then ob.askLevels + 1 else ob.askLevels)
      ∧ (ob.applyDeltaAsk p s).bids_ = ob.bids_
      ∧ (ob.applyDeltaAsk p s).instrumentId_ = ob.instrumentId_
      ∧ NoNaNPrice (ob.applyDeltaAsk p s).asks_.entries) := by
  obtain ⟨id, bids, asks⟩ := ob
  have hB := priceMap_update_contract bids p s hp hbids
  have hA := priceMap_update_contract asks p s hp hasks
  constructor
  · cases hs : s.isZero
    · rw [applyDeltaBid_of_nonzero _ _ hs]
      exact ⟨hB.2.1, hB.2.2.1, hB.2.2.2.1, fun h => absurd h Bool.false_ne_true,
        fun h => absurd h Bool.false_ne_true, fun _ => hB.2.2.2.2.1, rfl, rfl, hB.2.2.2.2.2⟩
    · rw [applyDeltaBid_of_zero _ _ hs]
      refine ⟨hB.1.1, hB.1.2.1, hB.1.2.2.1, fun _ habs => ?_, fun _ hpres => hB.1.2.2.2.2.1 hpres,
        fun h => absurd h.symm Bool.false_ne_true, rfl, rfl, hB.1.2.2.2.2.2⟩
      have : bids.erase p = bids := hB.1.2.2.2.1 habs
      show OrderBook.mk id (bids.erase p) asks = _
      rw [this]
  · cases hs : s.isZero
    · rw [applyDeltaAsk_of_nonzero _ _ hs]
      exact ⟨hA.2.1, hA.2.2.1, hA.2.2.2.1, fun h => absurd h Bool.false_ne_true,
        fun h => absurd h Bool.false_ne_true, fun _ => hA.2.2.2.2.1, rfl, rfl, hA.2.2.2.2.2⟩
    · rw [applyDeltaAsk_of_zero _ _ hs]
      refine ⟨hA.1.1, hA.1.2.1, hA.1.2.2.1, fun _ habs => ?_, fun _ hpres => hA.1.2.2.2.2.1 hpres,
        fun h => absurd h.symm Bool.false_ne_true, rfl, rfl, hA.1.2.2.2.2.2⟩
      have : asks.erase p = asks := hA.1.2.2.2.1 habs
      show OrderBook.mk id bids (asks.erase p) = _
      rw [this]

theorem noNaNPrice_testBook :
    NoNaNPrice sample.testBook.bids_.entries ∧ NoNaNPrice sample.testBook.asks_.entries := by
  unfold NoNaNPrice
  decide

/-- The bid size change `applyDeltaBid(30000.0, 2.5)` and the ask removal
`applyDeltaAsk(30000.5, 0.0)` of the order book test (in its units). -/
theorem applyDelta_contract_witness :
    (sample.testBook.applyDeltaBid 120000 25).bids_.find 120000 = some 25
    ∧ (∀ q : Double, q.isNaN = false → q.equals 120000 = false →
        (sample.testBook.applyDeltaBid 120000 25).bids_.find q = sample.testBook.bids_.find q)
    ∧ (sample.testBook.applyDeltaBid 120000 25).bidLevels = 2
    ∧ (sample.testBook.applyDeltaAsk 120002 0).asks_.find 120002 = none
    ∧ (sample.testBook.applyDeltaAsk 120002 0).askLevels + 1 = sample.testBook.askLevels :=
  ⟨(applyDelta_contract sample.testBook 120000 25 (by decide) noNaNPrice_testBook.1
      noNaNPrice_testBook.2).1.1,
    (applyDelta_contract sample.testBook 120000 25 (by decide) noNaNPrice_testBook.1
      noNaNPrice_testBook.2).1.2.1,
    (applyDelta_contract sample.testBook 120000 25 (by decide) noNaNPrice_testBook.1
      noNaNPrice_testBook.2).1.2.2.2.2.2.1 (by decide),
    (applyDelta_contract sample.testBook 120002 0 (by decide) noNaNPrice_testBook.1
      noNaNPrice_testBook.2).2.1,
    (applyDelta_contract sample.testBook 120002 0 (by decide) noNaNPrice_testBook.1
      noNaNPrice_testBook.2).2.2.2.2.2.1 (by decide) (by decide)⟩

/-- C3. `bestBid()` is `(0.0, 0.0)` on an empty bid side and otherwise a stored
bid level (price with its size) whose price is greatest among the stored bid
levels: every other stored bid level has a smaller price.  `bestAsk()` is
`(0.0, 0.0)` on an empty ask side and otherwise a stored ask level whose price
is smallest among the stored ask levels. -/
theorem bestBid_bestAsk_contract (ob : OrderBook) :
    (ob.bidLevels = 0 → ob.bestBid = (0, 0))
    ∧ (ob.bidLevels ≠ 0 →
        ob.bestBid ∈ ob.bids_.entries
        ∧ (∀ e ∈ ob.bids_.entries, e = ob.bestBid ∨ e.1 < ob.bestBid.1)
        ∧ ∀ e ∈ ob.bids_.entries, ¬ ob.bestBid.1 < e.1)
    ∧ (ob.askLevels = 0 → ob.bestAsk = (0, 0))
    ∧ (ob.askLevels ≠ 0 →
        ob.bestAsk ∈ ob.asks_.entries
        ∧ (∀ e ∈ ob.asks_.entries, e = ob.bestAsk ∨ ob.bestAsk.1 < e.1)
        ∧ ∀ e ∈ ob.asks_.entries, ¬ e.1 < ob.bestAsk.1) := by
  obtain ⟨id, bids, asks⟩ := ob
  have hnot : ∀ {a b : Double × Double}, a = b ∨ a.1 < b.1 → ¬ b.1 < a.1 := by
    intro a b h
    rcases h with h | h
    · rw [h]; exact Double.lt_irrefl _
    · exact Double.lt_asymm h
  refine ⟨?_, ?_, ?_, ?_⟩
  · intro h
    have : bids.entries = [] := List.length_eq_zero.1 h
    simp [OrderBook.bestBid, PriceMap.isEmpty, this]
  · intro h
    have hne : bids.entries ≠ [] := fun hnil => h (by simp [OrderBook.bidLevels, PriceMap.size, hnil])
    have hlast := List.getLast?_eq_getLast bids.entries hne
    have := lt_getLast_of_ascending bids.ordered hlast
    have hbest : OrderBook.bestBid ⟨id, bids, asks⟩ = bids.entries.getLast hne := by
      simp [OrderBook.bestBid, PriceMap.isEmpty, PriceMap.last?, hne, hlast]
    rw [hbest]
    exact ⟨this.1, this.2, fun e he => hnot (this.2 e he)⟩
  · intro h
    have : asks.entries = [] := List.length_eq_zero.1 h
    simp [OrderBook.bestAsk, PriceMap.isEmpty, this]
  · intro h
    have hne : asks.entries ≠ [] := fun hnil => h (by simp [OrderBook.askLevels, PriceMap.size, hnil])
    obtain ⟨hd, rest, hcons⟩ := List.exists_cons_of_ne_nil hne
    have hhead : asks.entries.head? = some hd := by rw [hcons]; rfl
    have := head_lt_of_ascending asks.ordered hhead
    have hbest : OrderBook.bestAsk ⟨id, bids, asks⟩ = hd := by
      simp [OrderBook.bestAsk, PriceMap.isEmpty, PriceMap.first?, hne, hhead]
    rw [hbest]
    refine ⟨this.1, this.2, fun e he => ?_⟩
    rcases this.2 e he with h | h
    · rw [h]; exact Double.lt_irrefl _
    · exact Double.lt_asymm h

/-- C5. Starting from an empty book, after any finite sequence of
`applyDeltaBid` and `applyDeltaAsk` calls with arbitrary prices and sizes, no
level stored on either side has size 0 (`size == 0.0` is false of every stored
size). -/
theorem no_zero_size_after_deltas (instrumentId : String) (ds : List Delta) :
    (∀ e ∈ (applyDeltas (OrderBook.new instrumentId) ds).bids_.entries, e.2.isZero = false)
    ∧ (∀ e ∈ (applyDeltas (OrderBook.new instrumentId) ds).asks_.entries, e.2.isZero = false) :=
  noZeroLevel_applyDeltas ds _ (noZeroLevel_new instrumentId)

/-! ## Snapshots (C4, C6) -/

namespace Double

theorem dropZeroSign_eq_iff {a b : Double} (ha : a.isNaN = false) (hb : b.isNaN = false) :
    a.dropZeroSign = b.dropZeroSign ↔ a.equals b = true := by
  rcases a with x | _ | (_ | _) | (_ | _) <;> rcases b with y | _ | (_ | _) | (_ | _) <;>
    simp [dropZeroSign, equals, ltb, isNaN] at ha hb ⊢
  all_goals exact ⟨fun h => ⟨le_of_eq h.symm, le_of_eq h⟩, fun h => le_antisymm h.2 h.1⟩

end Double

namespace book

/-- Keys that are `==` find the same entry. -/
theorem findRaw_congr {p q : Double} (h : p.equals q = true) (l : List (Double × Double)) :
    findRaw p l = findRaw q l := by
  induction l with
  | nil => rfl
  | cons hd rest ih =>
    obtain ⟨r, t⟩ := hd
    simp only [findRaw, Double.lt_congr_right h, Double.lt_congr_left h, ih]

theorem find_assign (m : PriceMap) (q s p : Double) (hm : NoNaNPrice m.entries)
    (hq : q.isNaN = false) (hp : p.isNaN = false) :
    (m.assign q s).find p = if q.equals p then some s else m.find p := by
  cases h : q.equals p
  · have hne := (Double.equals_eq_false_iff hq hp).1 h
    simp only [Bool.false_eq_true, if_false]
    exact findRaw_assignRaw_of_ne s hm (Or.symm hne)
  · simp only [if_true]
    show findRaw p (assignRaw q s m.entries) = some s
    rw [findRaw_congr (by rw [Double.equals_comm]; exact h), findRaw_assignRaw_self]

theorem find_fillMap (p : Double) (hp : p.isNaN = false) (levels : List (Double × Double))
    (hl : NoNaNPrice levels) :
    ∀ m : PriceMap, NoNaNPrice m.entries →
      (fillMap m levels).find p =
        match lastSize p levels with
        | some s => some s
        | none => m.find p := by
  induction levels with
  | nil => intro m _; rfl
  | cons hd rest ih =>
    obtain ⟨q, s⟩ := hd
    intro m hm
    have hq : q.isNaN = false := hl (q, s) (List.mem_cons_self _ _)
    have hrest : NoNaNPrice rest := fun e he => hl e (List.mem_cons_of_mem _ he)
    rw [fillMap, ih hrest _ (noNaNPrice_assignRaw hq hm), lastSize]
    cases hlast : lastSize p rest with
    | some t => rfl
    | none =>
      simp only [find_assign m q s p hm hq hp]
      cases q.equals p <;> rfl

theorem find_fillMap_empty (p : Double) (hp : p.isNaN = false)
    (levels : List (Double × Double)) (hl : NoNaNPrice levels) :
    (fillMap PriceMap.empty levels).find p = lastSize p levels := by
  rw [find_fillMap p hp levels hl PriceMap.empty (fun _ he => absurd he (List.not_mem_nil _))]
  cases lastSize p levels <;> rfl

theorem lastSize_isSome_iff (p : Double) (levels : List (Double × Double)) :
    (lastSize p levels).isSome ↔ ∃ e ∈ levels, e.1.equals p = true := by
  induction levels with
  | nil => simp [lastSize]
  | cons hd rest ih =>
    obtain ⟨q, s⟩ := hd
    rw [lastSize]
    cases hrest : lastSize p rest with
    | some t =>
      obtain ⟨e, he, hh⟩ := ih.1 (by simp [hrest])
      simp only [Option.isSome_some, true_iff]
      exact ⟨e, List.mem_cons_of_mem _ he, hh⟩
    | none =>
      have hno : ¬ ∃ e ∈ rest, e.1.equals p = true := fun h => by simpa [hrest] using ih.2 h
      cases hq : q.equals p
      · simp only [Bool.false_eq_true, if_false, Option.isSome_none, false_iff]
        rintro ⟨e, he, hh⟩
        rcases List.mem_cons.1 he with he | he
        · rw [he] at hh; rw [hq] at hh; exact Bool.false_ne_true hh
        · exact hno ⟨e, he, hh⟩
      · simp only [if_true, Option.isSome_some, true_iff]
        exact ⟨(q, s), List.mem_cons_self _ _, hq⟩

/-- Every key of the filled map is a key it had or the price of a level. -/
theorem key_mem_fillMap (levels : List (Double × Double)) :
    ∀ (m : PriceMap) (k : Double), k ∈ (fillMap m levels).entries.map Prod.fst →
      k ∈ m.entries.map Prod.fst ∨ k ∈ levels.map Prod.fst := by
  induction levels with
  | nil => intro m k h; exact Or.inl h
  | cons hd rest ih =>
    obtain ⟨q, s⟩ := hd
    intro m k h
    rcases ih _ k h with h | h
    · obtain ⟨e, he, hk⟩ := List.mem_map.1 h
      rcases key_mem_assignRaw he with h' | h'
      · exact Or.inr (by rw [← hk, h']; exact List.mem_cons_self _ _)
      · exact Or.inl (hk ▸ h')
    · exact Or.inr (List.mem_cons_of_mem _ h)

theorem noNaNPrice_fillMap (levels : List (Double × Double)) (hl : NoNaNPrice levels) :
    ∀ m : PriceMap, NoNaNPrice m.entries → NoNaNPrice (fillMap m levels).entries := by
  induction levels with
  | nil => intro m hm; exact hm
  | cons hd rest ih =>
    obtain ⟨q, s⟩ := hd
    intro m hm
    exact ih (fun e he => hl e (List.mem_cons_of_mem _ he)) _
      (noNaNPrice_assignRaw (hl (q, s) (List.mem_cons_self _ _)) hm)

/-- The stored keys of an ordered map are pairwise not `==`. -/
theorem nodup_keys_dropZeroSign (m : PriceMap) :
    (m.entries.map (fun e => e.1.dropZeroSign)).Nodup := by
  rw [List.Nodup, List.pairwise_map]
  refine m.ordered.imp ?_
  intro a b hab heq
  have hn := Double.not_nan_of_lt hab
  have := Double.equals_iff.1 ((Double.dropZeroSign_eq_iff hn.1 hn.2).1 heq)
  exact this.2.2.1 hab

theorem size_fillMap_empty (levels : List (Double × Double)) (hl : NoNaNPrice levels) :
    (fillMap PriceMap.empty levels).size = distinctPrices levels := by
  have hnn := noNaNPrice_fillMap levels hl PriceMap.empty
    (fun _ he => absurd he (List.not_mem_nil _))
  have h1 : ((fillMap PriceMap.empty levels).entries.map (fun e => e.1.dropZeroSign)).toFinset
      = (levels.map (fun e => e.1.dropZeroSign)).toFinset := by
    ext x
    rw [List.mem_toFinset, List.mem_toFinset, List.mem_map, List.mem_map]
    constructor
    · rintro ⟨e, he, rfl⟩
      rcases key_mem_fillMap levels PriceMap.empty e.1 (List.mem_map_of_mem _ he) with h | h
      · simp [PriceMap.empty] at h
      · obtain ⟨e', he', hk⟩ := List.mem_map.1 h
        exact ⟨e', he', by rw [hk]⟩
    · rintro ⟨e, he, rfl⟩
      have hp := hl e he
      have hsome : ((fillMap PriceMap.empty levels).find e.1).isSome := by
        rw [find_fillMap_empty e.1 hp levels hl, lastSize_isSome_iff]
        exact ⟨e, he, Double.equals_self hp⟩
      obtain ⟨s, hs⟩ := Option.isSome_iff_exists.1 hsome
      obtain ⟨k, hk, h1, h2⟩ := mem_of_findRaw hs
      refine ⟨(k, s), hk, ?_⟩
      exact (Double.dropZeroSign_eq_iff (hnn _ hk) hp).2
        (Double.equals_iff.2 ⟨hnn _ hk, hp, h1, h2⟩)
  have h2 := List.toFinset_card_of_nodup (nodup_keys_dropZeroSign (fillMap PriceMap.empty levels))
  rw [h1, List.card_toFinset] at h2
  rw [distinctPrices, h2, PriceMap.size, List.length_map]

end book

theorem books_processBookUpdate_self (now : Int) (g : OkxMarketDataGateway) (u : BookUpdate)
    (prior : OrderBook) (hreg : g.books_ u.instrumentId = some prior) :
    (processBookUpdate now g u).books_ u.instrumentId = some (updatedBook prior u) := by
  unfold processBookUpdate
  rw [hreg]
  by_cases hcb : g.bestQuoteCallback_ = true <;> simp [hcb]

theorem books_processBookUpdate_other (now : Int) (g : OkxMarketDataGateway) (u : BookUpdate)
    (inst : String) (hne : inst ≠ u.instrumentId) :
    (processBookUpdate now g u).books_ inst = g.books_ inst := by
  unfold processBookUpdate
  cases hreg : g.books_ u.instrumentId with
  | none => rfl
  | some prior => by_cases hcb : g.bestQuoteCallback_ = true <;> simp [hcb, hne]

theorem books_processBookUpdate_unknown (now : Int) (g : OkxMarketDataGateway) (u : BookUpdate)
    (hreg : g.books_ u.instrumentId = none) : processBookUpdate now g u = g := by
  unfold processBookUpdate
  rw [hreg]

theorem books_gatewayBtc :
    sample.gatewayBtc.books_ "BTC-USDT" = some (OrderBook.new "BTC-USDT") := by decide

/-- C4, refuted as stated.  The snapshot update with the bid levels
`(NaN, 1), (30000, 2), (29999, 3)` leaves the one bid level `NaN → 3` in the
registered book: the prices 30000 and 29999 that occur in the update are not
held, and `bidLevels` is 1. -/
theorem snapshot_with_nan_price :
    ∃ ob, (processBookUpdate 7 sample.gatewayBtc
          ⟨"BTC-USDT", [(.nan false, 1), (30000, 2), (29999, 3)], [], 5, "", true⟩).books_
            "BTC-USDT" = some ob
      ∧ ob.bids_.entries = [(.nan false, 3)]
      ∧ ob.bidLevels = 1 := by
  refine ⟨⟨"BTC-USDT", ⟨[(.nan false, 3)], by simp⟩, PriceMap.empty⟩, ?_, rfl, rfl⟩
  rw [books_processBookUpdate_self 7 sample.gatewayBtc _ _ books_gatewayBtc]
  decide

/-- C4, amended.  For every prior book state and every snapshot update `u` for a
registered instrument none of whose prices is a NaN, after
`processBookUpdate(u)` the book's bid side holds exactly the prices that occur
in `u.bids`, each mapped to the size of its last occurrence in `u.bids`, and
the ask side likewise from `u.asks`; nothing of the prior state survives, and
`bidLevels` and `askLevels` are the numbers of distinct prices in `u.bids` and
`u.asks`.  Prices are told apart by `==`; a NaN is not a price. -/
theorem snapshot_replaces_book (now : Int) (g : OkxMarketDataGateway) (u : BookUpdate)
    (prior : OrderBook) (hreg : g.books_ u.instrumentId = some prior)
    (hsnap : u.isSnapshot = true) (hbids : NoNaNPrice u.bids) (hasks : NoNaNPrice u.asks) :
    ∃ ob, (processBookUpdate now g u).books_ u.instrumentId = some ob
      ∧ (∀ p : Double, p.isNaN = false → ob.bids_.find p = lastSize p u.bids)
      ∧ (∀ p : Double, p.isNaN = false → ob.asks_.find p = lastSize p u.asks)
      ∧ (∀ p : Double, p.isNaN = false →
          ((ob.bids_.find p).isSome ↔ ∃ e ∈ u.bids, e.1.equals p = true))
      ∧ (∀ p : Double, p.isNaN = false →
          ((ob.asks_.find p).isSome ↔ ∃ e ∈ u.asks, e.1.equals p = true))
      ∧ (∀ e ∈ ob.bids_.entries, e.1 ∈ u.bids.map Prod.fst)
      ∧ (∀ e ∈ ob.asks_.entries, e.1 ∈ u.asks.map Prod.fst)
      ∧ ob.bidLevels = distinctPrices u.bids
      ∧ ob.askLevels = distinctPrices u.asks := by
  refine ⟨updatedBook prior u, books_processBookUpdate_self now g u prior hreg, ?_⟩
  have e : updatedBook prior u
      = prior.applySnapshot (fillMap PriceMap.empty u.bids) (fillMap PriceMap.empty u.asks) := by
    simp [updatedBook, hsnap]
  rw [e]
  have hkey : ∀ (levels : List (Double × Double)),
      ∀ e ∈ (fillMap PriceMap.empty levels).entries, e.1 ∈ levels.map Prod.fst := by
    intro levels e he
    rcases key_mem_fillMap levels PriceMap.empty e.1 (List.mem_map_of_mem _ he) with h | h
    · simp [PriceMap.empty] at h
    · exact h
  refine ⟨fun p hp => find_fillMap_empty p hp u.bids hbids,
    fun p hp => find_fillMap_empty p hp u.asks hasks,
    fun p hp => ?_, fun p hp => ?_, hkey u.bids, hkey u.asks,
    size_fillMap_empty u.bids hbids, size_fillMap_empty u.asks hasks⟩
  · show ((fillMap PriceMap.empty u.bids).find p).isSome ↔ _
    rw [find_fillMap_empty p hp u.bids hbids, lastSize_isSome_iff]
  · show ((fillMap PriceMap.empty u.asks).find p).isSome ↔ _
    rw [find_fillMap_empty p hp u.asks hasks, lastSize_isSome_iff]

/-- A snapshot that lists the price 30000 twice, delivered to a registered
book: two bid levels, 29999 → 2 and 30000 → 3, and one ask level. -/
theorem snapshot_replaces_book_witness :
    (∃ ob, (processBookUpdate 7 sample.gatewayBtc
          ⟨"BTC-USDT", [(30000, 1), (29999, 2), (30000, 3)], [(30001, 4)], 5, "", true⟩).books_
            "BTC-USDT" = some ob
      ∧ ob.bids_.entries = [(29999, 2), (30000, 3)])
    ∧ lastSize 30000 [(30000, 1), (29999, 2), (30000, 3)] = some 3
    ∧ distinctPrices [(30000, 1), (29999, 2), (30000, 3)] = 2
    ∧ ∃ ob, (processBookUpdate 7 sample.gatewayBtc
          ⟨"BTC-USDT", [(30000, 1), (29999, 2), (30000, 3)], [(30001, 4)], 5, "", true⟩).books_
            "BTC-USDT" = some ob
      ∧ (∀ p : Double, p.isNaN = false →
          ob.bids_.find p = lastSize p [(30000, 1), (29999, 2), (30000, 3)])
      ∧ (∀ p : Double, p.isNaN = false → ob.asks_.find p = lastSize p [(30001, 4)])
      ∧ (∀ p : Double, p.isNaN = false →
          ((ob.bids_.find p).isSome
            ↔ ∃ e ∈ [(30000, 1), (29999, 2), ((30000 : Double), (3 : Double))],
                e.1.equals p = true))
      ∧ (∀ p : Double, p.isNaN = false →
          ((ob.asks_.find p).isSome
            ↔ ∃ e ∈ [((30001 : Double), (4 : Double))], e.1.equals p = true))
      ∧ (∀ e ∈ ob.bids_.entries,
          e.1 ∈ [(30000, 1), (29999, 2), ((30000 : Double), (3 : Double))].map Prod.fst)
      ∧ (∀ e ∈ ob.asks_.entries, e.1 ∈ [((30001 : Double), (4 : Double))].map Prod.fst)
      ∧ ob.bidLevels = distinctPrices [(30000, 1), (29999, 2), (30000, 3)]
      ∧ ob.askLevels = distinctPrices [(30001, 4)] :=
  ⟨⟨⟨"BTC-USDT", ⟨[(29999, 2), (30000, 3)], by decide⟩, ⟨[(30001, 4)], by decide⟩⟩,
      by rw [books_processBookUpdate_self 7 sample.gatewayBtc _ _ books_gatewayBtc]; decide,
      rfl⟩,
    by decide, by decide,
    snapshot_replaces_book 7 sample.gatewayBtc
      ⟨"BTC-USDT", [(30000, 1), (29999, 2), (30000, 3)], [(30001, 4)], 5, "", true⟩
      (OrderBook.new "BTC-USDT") books_gatewayBtc rfl (by unfold NoNaNPrice; decide)
      (by unfold NoNaNPrice; decide)⟩

theorem noZeroSize_fillMap (levels : List (Double × Double)) (h : NoZeroSize levels) :
    ∀ m : PriceMap, NoZeroSize m.entries → NoZeroSize (fillMap m levels).entries := by
  induction levels with
  | nil => intro m hm; exact hm
  | cons hd rest ih =>
    obtain ⟨q, s⟩ := hd
    intro m hm
    exact ih (fun e he => h e (List.mem_cons_of_mem _ he)) _
      (noZeroSize_assignRaw (h (q, s) (List.mem_cons_self _ _)) hm)

theorem noZeroSize_fillMap_empty {levels : List (Double × Double)} (h : NoZeroSize levels) :
    NoZeroSize (fillMap PriceMap.empty levels).entries :=
  noZeroSize_fillMap levels h PriceMap.empty (fun _ he => absurd he (List.not_mem_nil _))

theorem noZeroLevel_applyBidDeltas (levels : List (Double × Double)) :
    ∀ ob : OrderBook, ob.NoZeroLevel → (applyBidDeltas ob levels).NoZeroLevel := by
  induction levels with
  | nil => intro ob h; exact h
  | cons hd rest ih =>
    obtain ⟨p, s⟩ := hd
    intro ob h
    exact ih _ (noZeroLevel_applyDeltaBid ob p s h)

theorem noZeroLevel_applyAskDeltas (levels : List (Double × Double)) :
    ∀ ob : OrderBook, ob.NoZeroLevel → (applyAskDeltas ob levels).NoZeroLevel := by
  induction levels with
  | nil => intro ob h; exact h
  | cons hd rest ih =>
    obtain ⟨p, s⟩ := hd
    intro ob h
    exact ih _ (noZeroLevel_applyDeltaAsk ob p s h)

theorem noZeroLevel_updatedBook (ob : OrderBook) (u : BookUpdate)
    (hob : ob.NoZeroLevel) (hu : SnapshotNoZero u) : (updatedBook ob u).NoZeroLevel := by
  unfold updatedBook
  split_ifs with hsnap
  · exact ⟨noZeroSize_fillMap_empty (hu hsnap).1, noZeroSize_fillMap_empty (hu hsnap).2⟩
  · exact noZeroLevel_applyAskDeltas _ _ (noZeroLevel_applyBidDeltas _ _ hob)

theorem booksNoZero_processBookUpdate (now : Int) (g : OkxMarketDataGateway) (u : BookUpdate)
    (hg : BooksNoZero g) (hu : SnapshotNoZero u) : BooksNoZero (processBookUpdate now g u) := by
  intro inst ob hob
  cases hreg : g.books_ u.instrumentId with
  | none =>
    rw [books_processBookUpdate_unknown now g u hreg] at hob
    exact hg inst ob hob
  | some prior =>
    by_cases hi : inst = u.instrumentId
    · subst hi
      rw [books_processBookUpdate_self now g u prior hreg] at hob
      rw [← Option.some.inj hob]
      exact noZeroLevel_updatedBook prior u (hg _ _ hreg) hu
    · rw [books_processBookUpdate_other now g u inst hi] at hob
      exact hg inst ob hob

theorem booksNoZero_processBookUpdates (updates : List (Int × BookUpdate)) :
    ∀ g : OkxMarketDataGateway, BooksNoZero g → (∀ x ∈ updates, SnapshotNoZero x.2) →
      BooksNoZero (processBookUpdates g updates) := by
  induction updates with
  | nil => intro g hg _; exact hg
  | cons hd rest ih =>
    obtain ⟨now, u⟩ := hd
    intro g hg hall
    exact ih _ (booksNoZero_processBookUpdate now g u hg (hall _ (List.mem_cons_self _ _)))
      (fun x hx => hall x (List.mem_cons_of_mem _ hx))

theorem booksNoZero_setInstruments (g : OkxMarketDataGateway) (instruments : List String) :
    BooksNoZero (g.setInstruments instruments) := by
  intro inst ob hob
  simp only [setInstruments] at hob
  split_ifs at hob
  rw [← Option.some.inj hob]
  exact noZeroLevel_new inst

theorem noZeroLevel_applyCalls (calls : List BookCall) :
    ∀ ob : OrderBook, ob.NoZeroLevel → (∀ c ∈ calls, c.SnapshotNoZero) →
      (applyCalls ob calls).NoZeroLevel := by
  induction calls with
  | nil => intro ob h _; exact h
  | cons c rest ih =>
    intro ob h hall
    refine ih _ ?_ (fun c' hc' => hall c' (List.mem_cons_of_mem _ hc'))
    have hc := hall c (List.mem_cons_self _ _)
    cases c with
    | clear => exact noZeroLevel_new _
    | applySnapshot bids asks => exact hc
    | applyDeltaBid p s => exact noZeroLevel_applyDeltaBid ob p s h
    | applyDeltaAsk p s => exact noZeroLevel_applyDeltaAsk ob p s h

/-- C6, as stated, fails: a snapshot update that lists a level of size 0 is
applied by `processBookUpdate` as it is, and the book of the registered
instrument then stores that level.  The level stored need not be the last one
listed at its price: of the snapshot levels `(5, 1)`, `(NaN, 0)`, `(3, 1)`,
`(NaN, 2)` the map keeps `3 → 2` and `5 → 0`. -/
theorem snapshot_stores_zero_size :
    (∃ ob, (processBookUpdate 1 (setInstruments new ["BTC-USDT"])
          ⟨"BTC-USDT", [(30000, 0)], [], 0, "", true⟩).books_ "BTC-USDT" = some ob
      ∧ ob.bids_.entries = [(30000, 0)] ∧ ¬ ob.NoZeroLevel)
    ∧ (fillMap PriceMap.empty [(5, 1), (.nan false, 0), (3, 1), (.nan false, 2)]).entries
        = [(3, 2), (5, 0)] := by
  refine ⟨⟨⟨"BTC-USDT", ⟨[(30000, 0)], by simp⟩, PriceMap.empty⟩, by decide, rfl, ?_⟩, by decide⟩
  intro h
  have := h.1 (30000, 0) (List.mem_singleton_self _)
  exact absurd this (by decide)

/-- C6, amended. In every state reached from registered (empty) books by
`processBookUpdate` with snapshot and delta updates, and in every state
reached from a new book by direct `clear`, `applySnapshot`, `applyDeltaBid`
and `applyDeltaAsk` calls, no stored level has size 0, provided no snapshot
holds a size 0 (no level a snapshot update lists has size 0, and the maps
passed to `applySnapshot` hold no size 0). -/
theorem no_zero_size_reachable (g : OkxMarketDataGateway) (instruments : List String)
    (updates : List (Int × BookUpdate)) (instrumentId : String) (calls : List BookCall)
    (hupdates : ∀ x ∈ updates, SnapshotNoZero x.2)
    (hcalls : ∀ c ∈ calls, c.SnapshotNoZero) :
    (∀ inst ob, (processBookUpdates (g.setInstruments instruments) updates).books_ inst = some ob →
      (∀ e ∈ ob.bids_.entries, e.2.isZero = false) ∧ (∀ e ∈ ob.asks_.entries, e.2.isZero = false))
    ∧ ((∀ e ∈ (applyCalls (OrderBook.new instrumentId) calls).bids_.entries, e.2.isZero = false)
      ∧ (∀ e ∈ (applyCalls (OrderBook.new instrumentId) calls).asks_.entries,
          e.2.isZero = false)) :=
  ⟨booksNoZero_processBookUpdates updates _ (booksNoZero_setInstruments g instruments) hupdates,
    noZeroLevel_applyCalls calls _ (noZeroLevel_new instrumentId) hcalls⟩

theorem snapshotNoZero_snapshotUpdate : SnapshotNoZero sample.snapshotUpdate := by
  intro _
  unfold NoZeroSize
  decide

theorem snapshotNoZero_deltaUpdate : SnapshotNoZero sample.deltaUpdate := by
  intro h
  exact absurd h (by decide)

/-- A snapshot and a delta applied by the worker, and direct calls on a book. -/
theorem no_zero_size_reachable_witness :
    (∀ inst ob, (processBookUpdates (new.setInstruments ["BTC-USDT"])
        [(11, sample.snapshotUpdate), (21, sample.deltaUpdate)]).books_ inst = some ob →
      (∀ e ∈ ob.bids_.entries, e.2.isZero = false) ∧ (∀ e ∈ ob.asks_.entries, e.2.isZero = false))
    ∧ ((∀ e ∈ (applyCalls (OrderBook.new "BTC-USDT")
          [.applyDeltaBid 30000 1, .applySnapshot PriceMap.empty PriceMap.empty,
            .applyDeltaAsk 30001 0, .clear]).bids_.entries, e.2.isZero = false)
      ∧ (∀ e ∈ (applyCalls (OrderBook.new "BTC-USDT")
          [.applyDeltaBid 30000 1, .applySnapshot PriceMap.empty PriceMap.empty,
            .applyDeltaAsk 30001 0, .clear]).asks_.entries, e.2.isZero = false)) :=
  no_zero_size_reachable new ["BTC-USDT"] [(11, sample.snapshotUpdate), (21, sample.deltaUpdate)]
    "BTC-USDT" [.applyDeltaBid 30000 1, .applySnapshot PriceMap.empty PriceMap.empty,
      .applyDeltaAsk 30001 0, .clear]
    (by
      intro x hx
      simp only [List.mem_cons, List.mem_singleton, List.not_mem_nil, or_false] at hx
      rcases hx with rfl | rfl
      · exact snapshotNoZero_snapshotUpdate
      · exact snapshotNoZero_deltaUpdate)
    (by
      intro c hc
      simp only [List.mem_cons, List.mem_singleton, List.not_mem_nil, or_false] at hc
      rcases hc with rfl | rfl | rfl | rfl
      · trivial
      · exact ⟨fun _ he => absurd he (List.not_mem_nil _), fun _ he => absurd he (List.not_mem_nil _)⟩
      · trivial
      · trivial)

namespace util.SPSCRingBuffer

variable {T : Type}

/-! ## The ring buffer refines a bounded FIFO queue (C1, C7) -/

theorem and_mask_eq_mod (k x : Nat) : x &&& mask_ (2 ^ k) = x % 2 ^ k :=
  Nat.and_pow_two_sub_one_eq_mod x k

theorem add_mod_inj {C t a b : Nat} (ha : a < C) (hb : b < C)
    (h : (t + a) % C = (t + b) % C) : a = b := by
  have h1 : a ≡ b [MOD C] := Nat.ModEq.add_left_cancel' t h
  have h2 : a % C = b % C := h1
  rwa [Nat.mod_eq_of_lt ha, Nat.mod_eq_of_lt hb] at h2

theorem succ_mod_add {C t n : Nat} : ((t + n) % C + 1) % C = (t + (n + 1)) % C := by
  rw [← Nat.add_assoc, Nat.add_mod (t + n) 1 C, Nat.add_mod ((t + n) % C) 1 C, Nat.mod_mod]

theorem holds_new (k : Nat) : Holds (new : SPSCRingBuffer T (2 ^ k)) [] where
  tail_lt := Nat.two_pow_pos k
  buffer_len := List.length_replicate _ _
  room := Nat.two_pow_pos k
  head_eq := by simp [new]
  slots := fun i hi => absurd hi (Nat.not_lt_zero i)
  raw := fun j hj _ => by simp [new, List.getElem?_replicate, hj]
  count := by simp [held, new, List.countP_replicate]

theorem Holds.head_lt {C : Nat} {r : SPSCRingBuffer T C} {q : List T} (h : Holds r q) :
    r.head_ < C := by
  rw [h.head_eq]
  exact Nat.mod_lt _ (lt_of_le_of_lt (Nat.zero_le _) h.tail_lt)

theorem Holds.head_raw {C : Nat} {r : SPSCRingBuffer T C} {q : List T} (h : Holds r q) :
    r.buffer_[r.head_]? = some none := by
  apply h.raw _ h.head_lt
  intro i hi heq
  rw [h.head_eq] at heq
  have := add_mod_inj h.room (lt_trans hi h.room) heq
  omega

/-- The producer finds the ring full exactly when it holds `C - 1` messages. -/
theorem Holds.full_iff {k : Nat} {r : SPSCRingBuffer T (2 ^ k)} {q : List T} (h : Holds r q) :
    (r.head_ + 1) &&& mask_ (2 ^ k) = r.tail_ ↔ q.length = 2 ^ k - 1 := by
  have hpos : 0 < 2 ^ k := Nat.two_pow_pos k
  rw [and_mask_eq_mod, h.head_eq, succ_mod_add]
  constructor
  · intro heq
    by_contra hne
    have hlt : q.length + 1 < 2 ^ k := by have := h.room; omega
    have h0 : (r.tail_ + (q.length + 1)) % 2 ^ k = (r.tail_ + 0) % 2 ^ k := by
      rw [heq, Nat.add_zero, Nat.mod_eq_of_lt h.tail_lt]
    have := add_mod_inj hlt hpos h0
    omega
  · intro hlen
    have : q.length + 1 = 2 ^ k := by omega
    rw [this, Nat.add_mod_right, Nat.mod_eq_of_lt h.tail_lt]

/-- The consumer finds the ring empty exactly when it holds no message. -/
theorem Holds.empty_iff {C : Nat} {r : SPSCRingBuffer T C} {q : List T} (h : Holds r q) :
    r.tail_ = r.head_ ↔ q = [] := by
  have hpos : 0 < C := lt_of_le_of_lt (Nat.zero_le _) h.tail_lt
  constructor
  · intro heq
    have h0 : (r.tail_ + 0) % C = (r.tail_ + q.length) % C := by
      rw [← h.head_eq, ← heq, Nat.add_zero, Nat.mod_eq_of_lt h.tail_lt]
    exact List.length_eq_zero.1 (add_mod_inj hpos h.room h0).symm
  · intro hq
    rw [h.head_eq, hq, List.length_nil, Nat.add_zero, Nat.mod_eq_of_lt h.tail_lt]

theorem Holds.tryEmplace_ok {k : Nat} {r : SPSCRingBuffer T (2 ^ k)} {q : List T}
    (h : Holds r q) (v : T) (hroom : q.length ≠ 2 ^ k - 1) :
    (r.tryEmplace v).1 = true ∧ Holds (r.tryEmplace v).2 (q ++ [v]) := by
  have hnf : ¬ (r.head_ + 1) &&& mask_ (2 ^ k) = r.tail_ := fun hf => hroom (h.full_iff.1 hf)
  have hlt : q.length + 1 < 2 ^ k := by have := h.room; omega
  have hhl : r.head_ < r.buffer_.length := by rw [h.buffer_len]; exact h.head_lt
  simp only [tryEmplace, hnf, if_false, true_and]
  refine ⟨h.tail_lt, ?_, ?_, ?_, ?_, ?_, ?_⟩
  · simp [h.buffer_len]
  · simpa using hlt
  · show (r.head_ + 1) &&& mask_ (2 ^ k) = _
    rw [and_mask_eq_mod, h.head_eq, succ_mod_add, List.length_append, List.length_singleton]
  · intro i hi
    rw [List.length_append, List.length_singleton] at hi
    show (r.buffer_.set r.head_ (some v))[(r.tail_ + i) % 2 ^ k]? = _
    by_cases hil : i < q.length
    · have hne : r.head_ ≠ (r.tail_ + i) % 2 ^ k := by
        intro heq
        rw [h.head_eq] at heq
        have := add_mod_inj h.room (lt_trans hil h.room) heq
        omega
      rw [List.getElem?_set_ne hne, h.slots i hil, List.getElem?_append_left hil]
    · have hieq : i = q.length := by omega
      subst hieq
      rw [← h.head_eq, List.getElem?_set_self hhl, List.getElem?_append_right (le_refl _)]
      simp
  · intro j hj hout
    show (r.buffer_.set r.head_ (some v))[j]? = _
    have hne : r.head_ ≠ j := by
      intro heq
      apply hout q.length (by simp)
      rw [← heq, h.head_eq]
    rw [List.getElem?_set_ne hne]
    exact h.raw j hj (fun i hi => hout i (by rw [List.length_append]; omega))
  · show (r.buffer_.set r.head_ (some v)).countP Option.isSome = _
    have hraw := h.head_raw
    rw [List.getElem?_eq_getElem hhl] at hraw
    have hcnt := h.count
    simp only [held] at hcnt
    rw [List.countP_set _ _ _ _ hhl, Option.some.inj hraw, hcnt]
    simp

theorem Holds.tryEmplace_full {k : Nat} {r : SPSCRingBuffer T (2 ^ k)} {q : List T}
    (h : Holds r q) (v : T) (hfull : q.length = 2 ^ k - 1) :
    r.tryEmplace v = (false, r) := by
  simp [tryEmplace, h.full_iff.2 hfull]

theorem Holds.tryPop_ok {k : Nat} {r : SPSCRingBuffer T (2 ^ k)} {x : T} {q : List T}
    (h : Holds r (x :: q)) :
    r.tryPop.1 = (true, some x) ∧ Holds r.tryPop.2 q := by
  have hne : ¬ r.tail_ = r.head_ := fun he => List.cons_ne_nil x q (h.empty_iff.1 he)
  have htl : r.tail_ < r.buffer_.length := by rw [h.buffer_len]; exact h.tail_lt
  have hroom : q.length + 1 < 2 ^ k := by simpa using h.room
  have hslot0 : r.buffer_[r.tail_]? = some (some x) := by
    have := h.slots 0 (by simp)
    rw [Nat.add_zero, Nat.mod_eq_of_lt h.tail_lt] at this
    simpa using this
  have hshift : ∀ i, ((r.tail_ + 1) % 2 ^ k + i) % 2 ^ k = (r.tail_ + (i + 1)) % 2 ^ k := by
    intro i
    rw [Nat.add_mod, Nat.mod_mod, ← Nat.add_mod]
    congr 1
    omega
  simp only [tryPop, hne, if_false]
  refine ⟨?_, ?_, ?_, ?_, ?_, ?_, ?_, ?_⟩
  · rw [List.getD_eq_getElem?_getD, hslot0]; rfl
  · show (r.tail_ + 1) &&& mask_ (2 ^ k) < 2 ^ k
    rw [and_mask_eq_mod]
    exact Nat.mod_lt _ (Nat.two_pow_pos k)
  · simp [h.buffer_len]
  · omega
  · show r.head_ = (((r.tail_ + 1) &&& mask_ (2 ^ k)) + q.length) % 2 ^ k
    rw [and_mask_eq_mod, hshift, h.head_eq, List.length_cons]
  · intro i hi
    show (r.buffer_.set r.tail_ none)[(((r.tail_ + 1) &&& mask_ (2 ^ k)) + i) % 2 ^ k]? = _
    rw [and_mask_eq_mod, hshift]
    have hne2 : r.tail_ ≠ (r.tail_ + (i + 1)) % 2 ^ k := by
      intro heq
      have h0 : (r.tail_ + 0) % 2 ^ k = (r.tail_ + (i + 1)) % 2 ^ k := by
        rw [Nat.add_zero, Nat.mod_eq_of_lt h.tail_lt]; exact heq
      have := add_mod_inj (Nat.two_pow_pos k) (by omega) h0
      omega
    rw [List.getElem?_set_ne hne2, h.slots (i + 1) (by simp; omega)]
    simp
  · intro j hj hout
    show (r.buffer_.set r.tail_ none)[j]? = _
    by_cases hjt : r.tail_ = j
    · subst hjt
      rw [List.getElem?_set_self htl]
    · rw [List.getElem?_set_ne hjt]
      apply h.raw j hj
      intro i hi
      cases i with
      | zero =>
        rw [Nat.add_zero, Nat.mod_eq_of_lt h.tail_lt]
        exact fun he => hjt he.symm
      | succ i =>
        have := hout i (by simpa using hi)
        rwa [and_mask_eq_mod, hshift] at this
  · show (r.buffer_.set r.tail_ none).countP Option.isSome = _
    have hcnt := h.count
    simp only [held, List.length_cons] at hcnt
    rw [List.getElem?_eq_getElem htl] at hslot0
    rw [List.countP_set _ _ _ _ htl, Option.some.inj hslot0, hcnt]
    simp

theorem Holds.tryPop_empty {C : Nat} {r : SPSCRingBuffer T C} (h : Holds r []) :
    r.tryPop = ((false, none), r) := by
  simp [tryPop, h.empty_iff.2 rfl]

/-- One call keeps the ring and the reference queue in step. -/
theorem Holds.step {k : Nat} {r : SPSCRingBuffer T (2 ^ k)} {q : List T} (h : Holds r q)
    (c : Call T) :
    (r.step c).1 = (refStep (2 ^ k - 1) q c).1
      ∧ Holds (r.step c).2 (refStep (2 ^ k - 1) q c).2 := by
  cases c with
  | tryEmplace v =>
    by_cases hfull : q.length = 2 ^ k - 1
    · have e := h.tryEmplace_full v hfull
      simp only [SPSCRingBuffer.step, refStep, refEmplace, e, hfull, lt_irrefl, if_false]
      exact ⟨trivial, h⟩
    · have e := h.tryEmplace_ok v hfull
      have hlt : q.length < 2 ^ k - 1 := by have := h.room; omega
      simp only [SPSCRingBuffer.step, refStep, refEmplace, hlt, if_true, e.1]
      exact ⟨trivial, e.2⟩
  | tryPop =>
    cases q with
    | nil =>
      simp only [SPSCRingBuffer.step, refStep, refPop, h.tryPop_empty]
      exact ⟨trivial, h⟩
    | cons x q =>
      have e := h.tryPop_ok
      simp only [SPSCRingBuffer.step, refStep, refPop, e.1]
      exact ⟨trivial, e.2⟩

theorem Holds.run {k : Nat} (calls : List (Call T)) :
    ∀ {r : SPSCRingBuffer T (2 ^ k)} {q : List T}, Holds r q →
      (r.run calls).1 = (refRun (2 ^ k - 1) q calls).1
        ∧ Holds (r.run calls).2 (refRun (2 ^ k - 1) q calls).2 := by
  induction calls with
  | nil => intro r q h; exact ⟨rfl, h⟩
  | cons c rest ih =>
    intro r q h
    have hs := h.step c
    have hr := ih hs.2
    simp only [SPSCRingBuffer.run, refRun, hs.1, hr.1]
    exact ⟨trivial, hr.2⟩

/-- On the reference queue, what was queued at the start and what was accepted
since is what was delivered followed by what is still queued. -/
theorem ref_accounting (bound : Nat) (calls : List (Call T)) :
    ∀ q : List T,
      q.map some ++ (accepted calls (refRun bound q calls).1).map some
        = delivered (refRun bound q calls).1 ++ (refRun bound q calls).2.map some := by
  induction calls with
  | nil => intro q; simp [refRun, accepted, delivered]
  | cons c rest ih =>
    intro q
    cases c with
    | tryEmplace v =>
      by_cases hroom : q.length < bound
      · have := ih (q ++ [v])
        simp only [refRun, refStep, refEmplace, hroom, if_true, accepted, delivered]
        simpa using this
      · have := ih q
        simp only [refRun, refStep, refEmplace, hroom, if_false, accepted, delivered]
        exact this
    | tryPop =>
      cases q with
      | nil =>
        have := ih []
        simp only [refRun, refStep, refPop, accepted, delivered]
        exact this
      | cons x q =>
        have := ih q
        simp only [refRun, refStep, refPop, accepted, delivered]
        simpa using this

end util.SPSCRingBuffer

/-- The scenario of `tests/test_ringbuffer.cpp`, "capacity limits": a ring of
capacity 4 takes three messages, refuses the fourth, and after one `tryPop`
(which delivers the first message) takes one more. -/
theorem ring_capacity_test_scenario :
    ((new : SPSCRingBuffer Nat 4).run
        [.tryEmplace 1, .tryEmplace 2, .tryEmplace 3, .tryEmplace 4, .tryPop, .tryEmplace 4]).1
      = [.emplaced true, .emplaced true, .emplaced true, .emplaced false,
          .popped true (some 1), .emplaced true] := by
  rfl

/-- C1. Run sequentially from an empty ring of capacity `2^k`, every finite
sequence of `tryEmplace(v)` and `tryPop` calls returns, call by call, what the
same calls return on a FIFO list queue bounded at `2^k - 1` elements; the
values of the successful `tryEmplace` calls are, in order, the values moved
out by the successful `tryPop` calls followed by the messages the ring still
holds (nothing duplicated, lost or reordered, also after the cursors wrap). -/
theorem ring_refines_bounded_fifo {T : Type} (k : Nat) (calls : List (Call T)) :
    ((new : SPSCRingBuffer T (2 ^ k)).run calls).1 = (refRun (2 ^ k - 1) [] calls).1
    ∧ (accepted calls ((new : SPSCRingBuffer T (2 ^ k)).run calls).1).map some
        = delivered ((new : SPSCRingBuffer T (2 ^ k)).run calls).1
          ++ (refRun (2 ^ k - 1) [] calls).2.map some
    ∧ Holds ((new : SPSCRingBuffer T (2 ^ k)).run calls).2 (refRun (2 ^ k - 1) [] calls).2 := by
  have h := Holds.run calls (holds_new (T := T) k)
  refine ⟨h.1, ?_, h.2⟩
  rw [h.1]
  simpa using ref_accounting (2 ^ k - 1) calls ([] : List T)

/-- C7. In every state a ring of capacity `2^k` reaches by a sequence of
calls, `tryEmplace` returns false if and only if the ring holds exactly
`2^k - 1` messages; a failed `tryEmplace` leaves the whole state (head, tail
and every slot) unchanged; and after a successful `tryPop` on a full ring the
next `tryEmplace` succeeds. -/
theorem tryEmplace_full_contract {T : Type} (k : Nat) (calls : List (Call T)) (v w : T) :
    ((((new : SPSCRingBuffer T (2 ^ k)).run calls).2.tryEmplace v).1 = false
        ↔ ((new : SPSCRingBuffer T (2 ^ k)).run calls).2.held = 2 ^ k - 1)
    ∧ ((((new : SPSCRingBuffer T (2 ^ k)).run calls).2.tryEmplace v).1 = false →
        (((new : SPSCRingBuffer T (2 ^ k)).run calls).2.tryEmplace v).2
          = ((new : SPSCRingBuffer T (2 ^ k)).run calls).2)
    ∧ (((new : SPSCRingBuffer T (2 ^ k)).run calls).2.held = 2 ^ k - 1 →
        ((new : SPSCRingBuffer T (2 ^ k)).run calls).2.tryPop.1.1 = true →
        (((new : SPSCRingBuffer T (2 ^ k)).run calls).2.tryPop.2.tryEmplace w).1 = true) := by
  have h := (Holds.run calls (holds_new (T := T) k)).2
  generalize ((new : SPSCRingBuffer T (2 ^ k)).run calls).2 = r at h
  generalize (refRun (2 ^ k - 1) [] calls).2 = q at h
  have hiff : (r.tryEmplace v).1 = false ↔ r.held = 2 ^ k - 1 := by
    rw [h.count]
    constructor
    · intro hf
      by_contra hne
      rw [(h.tryEmplace_ok v hne).1] at hf
      exact Bool.noConfusion hf
    · intro hfull
      rw [h.tryEmplace_full v hfull]
  refine ⟨hiff, ?_, ?_⟩
  · intro hf
    rw [h.tryEmplace_full v (h.count ▸ hiff.1 hf)]
  · intro hfull hpop
    rw [h.count] at hfull
    cases q with
    | nil =>
      rw [h.tryPop_empty] at hpop
      exact Bool.noConfusion hpop
    | cons x q =>
      have hp := h.tryPop_ok
      have hx : q.length ≠ 2 ^ k - 1 := by
        rw [List.length_cons] at hfull
        omega
      exact (hp.2.tryEmplace_ok w hx).1

namespace gateway

/-! ## The checksum string (C10) -/

theorem writeLevels_eq (levels : List (Double × Double)) :
    ∀ oss : List Char, writeLevels oss levels
      = oss ++ (((numbers levels).map fmt.fixed8).map (fun t => t ++ [':'])).flatten := by
  induction levels with
  | nil => intro oss; simp [writeLevels, numbers]
  | cons hd rest ih =>
    obtain ⟨px, sz⟩ := hd
    intro oss
    rw [writeLevels, ih]
    simp [numbers, List.append_assoc]

theorem flatten_terminated (toks : List (List Char)) (h : toks ≠ []) :
    (toks.map (fun t => t ++ [':'])).flatten = joinColon toks ++ [':'] := by
  induction toks with
  | nil => exact absurd rfl h
  | cons t rest ih =>
    cases rest with
    | nil => simp [joinColon]
    | cons t2 rest2 =>
      have := ih (List.cons_ne_nil _ _)
      rw [List.map_cons, List.flatten_cons, this, joinColon]
      simp [List.append_assoc]

/-- The stream contents of `computeOkxChecksum` after the trailing `':'` is
removed are the canonical string. -/
theorem stripped_eq_canonical (bids asks : List (Double × Double)) :
    (if (!(writeLevels (writeLevels [] bids) asks).isEmpty
          && (writeLevels (writeLevels [] bids) asks).getLast? = some ':')
      then (writeLevels (writeLevels [] bids) asks).dropLast
      else writeLevels (writeLevels [] bids) asks) = canonical bids asks := by
  have hoss : writeLevels (writeLevels [] bids) asks
      = (((numbers bids ++ numbers asks).map fmt.fixed8).map (fun t => t ++ [':'])).flatten := by
    rw [writeLevels_eq, writeLevels_eq]
    simp
  rw [hoss]
  by_cases hnil : (numbers bids ++ numbers asks).map fmt.fixed8 = []
  · simp [canonical, hnil, joinColon]
  · rw [flatten_terminated _ hnil]
    simp [canonical]

theorem crcBit_lt {c : Nat} (h : c < 2 ^ 32) : zlib.crcBit c < 2 ^ 32 := by
  unfold zlib.crcBit
  have h1 : c >>> 1 < 2 ^ 32 := by
    rw [Nat.shiftRight_eq_div_pow]
    exact lt_of_le_of_lt (Nat.div_le_self _ _) h
  split_ifs
  · exact Nat.xor_lt_two_pow h1 (by decide)
  · exact h1

theorem crcByte_lt {c b : Nat} (hc : c < 2 ^ 32) (hb : b < 2 ^ 32) :
    zlib.crcByte c b < 2 ^ 32 := by
  unfold zlib.crcByte
  have h0 : c ^^^ b < 2 ^ 32 := Nat.xor_lt_two_pow hc hb
  generalize c ^^^ b = x at h0
  have : ∀ n, zlib.crcBit^[n] x < 2 ^ 32 := by
    intro n
    induction n with
    | zero => exact h0
    | succ n ih => rw [Function.iterate_succ_apply']; exact crcBit_lt ih
  exact this 8

theorem foldl_crcByte_lt (buf : List Nat) (hbuf : ∀ b ∈ buf, b < 2 ^ 32) :
    ∀ c, c < 2 ^ 32 → buf.foldl zlib.crcByte c < 2 ^ 32 := by
  induction buf with
  | nil => intro c hc; exact hc
  | cons b rest ih =>
    intro c hc
    exact ih (fun x hx => hbuf x (List.mem_cons_of_mem _ hx)) _
      (crcByte_lt hc (hbuf b (List.mem_cons_self _ _)))

theorem crc32_lt (crc : Nat) (data : List Char) (len : Nat) (hcrc : crc < 2 ^ 32) :
    zlib.crc32 crc (data.map Char.toNat) len < 2 ^ 32 := by
  unfold zlib.crc32
  apply Nat.xor_lt_two_pow _ (by decide)
  apply foldl_crcByte_lt
  · intro b hb
    obtain ⟨c, _, rfl⟩ := List.mem_map.1 (List.mem_of_mem_take hb)
    exact c.val.toNat_lt_size
  · exact Nat.xor_lt_two_pow hcrc (by decide)

theorem frac8_spec (m : Nat) : (fmt.frac8 m).length = 8 ∧ ∀ c ∈ fmt.frac8 m, c.isDigit = true := by
  refine ⟨rfl, ?_⟩
  intro c hc
  simp only [fmt.frac8, List.mem_map] at hc
  obtain ⟨i, _, rfl⟩ := hc
  have h10 : m / 10 ^ i % 10 < 10 := Nat.mod_lt _ (by decide)
  generalize m / 10 ^ i % 10 = d at h10
  interval_cases d <;> decide

end gateway

theorem crc32_initial : zlib.crc32 0 [] 0 = 0 := by decide

set_option maxRecDepth 100000 in
/-- The CRC-32 model gives the standard check value `0xCBF43926` on the ASCII
bytes of `123456789`. -/
theorem crc32_check_value :
    zlib.crc32 0 ("123456789".data.map Char.toNat) 9 = 0xCBF43926 := by decide

namespace gateway

/-! ### The CRC-32 register update is injective -/

theorem digitChar_value {k : Nat} (hk : k < 10) : (Nat.digitChar k).toNat - 48 = k := by
  interval_cases k <;> rfl

theorem decimalValue_toDigitsCore (fuel : Nat) :
    ∀ n ds, n < fuel →
      (Nat.toDigitsCore 10 fuel n ds).foldl (fun acc c => 10 * acc + (c.toNat - 48)) 0
        = ds.foldl (fun acc c => 10 * acc + (c.toNat - 48)) n := by
  induction fuel with
  | zero => intro n ds h; exact absurd h (Nat.not_lt_zero n)
  | succ fuel ih =>
    intro n ds h
    unfold Nat.toDigitsCore
    simp only
    split_ifs with h0
    · have hlt : n < 10 := by omega
      have hn : n % 10 = n := Nat.mod_eq_of_lt hlt
      simp only [List.foldl_cons, hn, digitChar_value hlt, Nat.mul_zero, Nat.zero_add]
    · rw [ih (n / 10) _ (by omega)]
      simp only [List.foldl_cons, digitChar_value (Nat.mod_lt n (by decide))]
      congr 1
      omega

theorem decimalValue_toString (n : Nat) : fmt.decimalValue (toString n).data = n := by
  show fmt.decimalValue (Nat.toDigits 10 n) = n
  unfold fmt.decimalValue Nat.toDigits
  rw [decimalValue_toDigitsCore (n + 1) n [] (Nat.lt_succ_self n)]
  rfl

theorem digitChar_isDigit {k : Nat} (hk : k < 10) : (Nat.digitChar k).isDigit = true := by
  interval_cases k <;> decide

theorem toDigitsCore_spec (fuel : Nat) :
    ∀ n ds, (∀ c ∈ ds, c.isDigit = true) →
      (∀ c ∈ Nat.toDigitsCore 10 fuel n ds, c.isDigit = true)
      ∧ (0 < fuel → Nat.toDigitsCore 10 fuel n ds ≠ []) := by
  induction fuel with
  | zero => intro n ds h; exact ⟨h, fun h0 => absurd h0 (Nat.lt_irrefl 0)⟩
  | succ fuel ih =>
    intro n ds h
    have hd : ∀ c ∈ Nat.digitChar (n % 10) :: ds, c.isDigit = true := by
      intro c hc
      rcases List.mem_cons.1 hc with hc | hc
      · rw [hc]; exact digitChar_isDigit (Nat.mod_lt n (by decide))
      · exact h c hc
    unfold Nat.toDigitsCore
    simp only
    split_ifs with h0
    · exact ⟨hd, fun _ => List.cons_ne_nil _ _⟩
    · refine ⟨(ih (n / 10) _ hd).1, fun _ => ?_⟩
      cases fuel with
      | zero => exact List.cons_ne_nil _ _
      | succ f => exact (ih (n / 10) _ hd).2 (Nat.succ_pos f)

/-- The decimal digits `std::to_string` and the stream write for a natural
number: at least one character, all of them digits. -/
theorem repr_data_spec (n : Nat) :
    (Nat.repr n).data ≠ [] ∧ ∀ c ∈ (Nat.repr n).data, c.isDigit = true := by
  have h := toDigitsCore_spec (n + 1) n [] (fun _ hc => absurd hc (List.not_mem_nil _))
  exact ⟨h.2 (Nat.succ_pos n), h.1⟩

/-- The digits `fixed8` prints denote `|x| * 10^8` rounded to the nearest
integer: the printed number is within half a unit of the eighth decimal place. -/
theorem scaled8_rounds (x : ℚ) : |(fmt.scaled8 x : ℚ) - |x| * 10 ^ 8| ≤ 1 / 2 := by
  have hd : (0 : ℚ) < x.den := by exact_mod_cast x.den_pos
  have hx : |x| = (x.num.natAbs : ℚ) / x.den := by
    conv_lhs => rw [← Rat.num_div_den x]
    rw [abs_div, Nat.cast_natAbs, abs_of_pos hd]
    simp
  have hdiv := Nat.div_add_mod (x.num.natAbs * 10 ^ 8) x.den
  have hcast : ((x.num.natAbs : ℚ) * 10 ^ 8)
      = x.den * ((x.num.natAbs * 10 ^ 8 / x.den : ℕ) : ℚ)
        + ((x.num.natAbs * 10 ^ 8 % x.den : ℕ) : ℚ) := by
    exact_mod_cast hdiv.symm
  have hr0 : (0 : ℚ) ≤ ((x.num.natAbs * 10 ^ 8 % x.den : ℕ) : ℚ) := Nat.cast_nonneg _
  have hrd : ((x.num.natAbs * 10 ^ 8 % x.den : ℕ) : ℚ) < x.den := by
    exact_mod_cast Nat.mod_lt _ x.den_pos
  have key : |x| * 10 ^ 8 = ((x.num.natAbs * 10 ^ 8 / x.den : ℕ) : ℚ)
      + ((x.num.natAbs * 10 ^ 8 % x.den : ℕ) : ℚ) / x.den := by
    rw [hx, div_mul_eq_mul_div, hcast]
    field_simp
    ring
  rw [key]
  unfold fmt.scaled8
  simp only
  generalize x.num.natAbs * 10 ^ 8 / x.den = q at *
  generalize x.num.natAbs * 10 ^ 8 % x.den = r at *
  rw [abs_le]
  split_ifs with h1 h2 h3
  · have h1' : (2 : ℚ) * r < x.den := by exact_mod_cast h1
    have : (r : ℚ) / x.den < 1 / 2 := by rw [div_lt_div_iff₀ hd (by norm_num)]; linarith
    have : (0 : ℚ) ≤ (r : ℚ) / x.den := div_nonneg hr0 hd.le
    constructor <;> linarith
  · have h2' : (x.den : ℚ) < 2 * r := by exact_mod_cast h2
    have : (1 : ℚ) / 2 < (r : ℚ) / x.den := by rw [div_lt_div_iff₀ (by norm_num) hd]; linarith
    have : (r : ℚ) / x.den < 1 := by rw [div_lt_one hd]; exact hrd
    push_cast
    constructor <;> linarith
  · have heq : (2 : ℚ) * r = x.den := by
      have : 2 * r = x.den := by omega
      exact_mod_cast this
    have : (r : ℚ) / x.den = 1 / 2 := by rw [div_eq_div_iff hd.ne' (by norm_num)]; linarith
    constructor <;> linarith
  · have heq : (2 : ℚ) * r = x.den := by
      have : 2 * r = x.den := by omega
      exact_mod_cast this
    have : (r : ℚ) / x.den = 1 / 2 := by rw [div_eq_div_iff hd.ne' (by norm_num)]; linarith
    push_cast
    constructor <;> linarith

/-- The digits `fixed8` prints, read as one decimal numeral without the point,
are `scaled8`. -/
theorem decimalValue_fixed8_digits (m : Nat) :
    fmt.decimalValue ((Nat.repr (m / 10 ^ 8)).data ++ fmt.frac8 m) = m := by
  have hk : fmt.decimalValue (Nat.repr (m / 10 ^ 8)).data = m / 10 ^ 8 :=
    decimalValue_toString (m / 10 ^ 8)
  unfold fmt.decimalValue at hk ⊢
  rw [List.foldl_append, hk]
  simp only [fmt.frac8, List.map_cons, List.map_nil, List.foldl_cons, List.foldl_nil]
  rw [digitChar_value (Nat.mod_lt _ (by decide)), digitChar_value (Nat.mod_lt _ (by decide)),
    digitChar_value (Nat.mod_lt _ (by decide)), digitChar_value (Nat.mod_lt _ (by decide)),
    digitChar_value (Nat.mod_lt _ (by decide)), digitChar_value (Nat.mod_lt _ (by decide)),
    digitChar_value (Nat.mod_lt _ (by decide)), digitChar_value (Nat.mod_lt _ (by decide))]
  norm_num
  omega

end gateway

set_option maxRecDepth 100000 in
/-- C10, refuted as stated.  For the bid level `(inf, 1.0)` the string hashed is
`inf:1.00000000` (and `nan:1.00000000` for `(NaN, 1.0)`): its first number has
no decimal point and no fractional digits, so it is not in fixed-point
notation with 8 fractional digits. -/
theorem checksum_of_infinite_price :
    String.mk (canonical [(.inf false, 1)] []) = "inf:1.00000000"
    ∧ String.mk (canonical [(.nan false, 1)] []) = "nan:1.00000000"
    ∧ computeOkxChecksum [(.inf false, 1)] []
        = toString (zlib.crc32 0 ("inf:1.00000000".data.map Char.toNat) 14)
    ∧ '.' ∉ fmt.fixed8 (.inf false)
    ∧ '.' ∉ fmt.fixed8 (.nan false)
    ∧ ¬ ∃ whole frac : List Char, fmt.fixed8 (.inf false) = whole ++ '.' :: frac := by
  refine ⟨by decide, by decide, by decide, by decide, by decide, ?_⟩
  rintro ⟨whole, frac, h⟩
  have : '.' ∈ fmt.fixed8 (.inf false) := by rw [h]; simp
  exact absurd this (by decide)

/-- C10, amended. For all lists of bid and ask levels whose canonical string is
shorter than `2^32` bytes, `computeOkxChecksum` returns the decimal rendering
of the CRC-32, an unsigned 32-bit value, of the canonical string: price and
size of every bid in received order, then of every ask, joined by `':'` with no
trailing `':'`.  Each finite number is written in fixed-point notation with
exactly 8 fractional digits (an optional `'-'`, the integer digits, `'.'` and
eight digits, which together denote the number rounded to the eighth decimal
place; negative zero is written `-0.00000000`), an infinity is written `inf`
or `-inf` and a NaN `nan` or `-nan`.  For empty bids and asks the hashed
string is empty and the result is `"0"`. -/
theorem computeOkxChecksum_canonical (bids asks : List (Double × Double))
    (hlen : (canonical bids asks).length < 2 ^ 32) :
    computeOkxChecksum bids asks
        = toString (zlib.crc32 0 ((canonical bids asks).map Char.toNat)
            (canonical bids asks).length)
    ∧ zlib.crc32 0 ((canonical bids asks).map Char.toNat) (canonical bids asks).length < 2 ^ 32
    ∧ canonical bids asks = joinColon ((numbers bids ++ numbers asks).map fmt.fixed8)
    ∧ (∀ x : ℚ, ∃ whole frac : List Char,
        fmt.fixed8 (.finite x) = (if x < 0 then ['-'] else []) ++ whole ++ '.' :: frac
        ∧ whole ≠ [] ∧ (∀ c ∈ whole, c.isDigit = true)
        ∧ frac.length = 8 ∧ (∀ c ∈ frac, c.isDigit = true)
        ∧ |(fmt.decimalValue (whole ++ frac) : ℚ) - |x| * 10 ^ 8| ≤ 1 / 2)
    ∧ String.mk (fmt.fixed8 .negZero) = "-0.00000000"
    ∧ String.mk (fmt.fixed8 (.inf false)) = "inf" ∧ String.mk (fmt.fixed8 (.inf true)) = "-inf"
    ∧ String.mk (fmt.fixed8 (.nan false)) = "nan" ∧ String.mk (fmt.fixed8 (.nan true)) = "-nan"
    ∧ canonical [] [] = []
    ∧ computeOkxChecksum [] [] = "0" := by
  refine ⟨?_, crc32_lt 0 _ _ (by decide), rfl, ?_, by decide, by decide, by decide, by decide,
    by decide, rfl, by decide⟩
  · unfold computeOkxChecksum
    simp only [stripped_eq_canonical, crc32_initial, Nat.mod_eq_of_lt hlen]
  · intro x
    refine ⟨_, fmt.frac8 (fmt.scaled8 x), rfl, ?_, ?_, (frac8_spec _).1, (frac8_spec _).2, ?_⟩
    · exact (repr_data_spec _).1
    · exact (repr_data_spec _).2
    · rw [decimalValue_fixed8_digits]
      exact scaled8_rounds x

set_option maxRecDepth 100000 in
/-- One bid and one ask level, and a bid level with a negative zero price. -/
theorem computeOkxChecksum_canonical_witness :
    String.mk (canonical [(1, 2)] [(3, 4)]) = "1.00000000:2.00000000:3.00000000:4.00000000"
    ∧ computeOkxChecksum [(1, 2)] [(3, 4)] = "1226904355"
    ∧ String.mk (canonical [(.negZero, 1)] []) = "-0.00000000:1.00000000"
    ∧ computeOkxChecksum [(.negZero, 1)] [] = "1431393890"
    ∧ computeOkxChecksum [(1, 2)] [(3, 4)]
        = toString (zlib.crc32 0 ((canonical [(1, 2)] [(3, 4)]).map Char.toNat)
            (canonical [(1, 2)] [(3, 4)]).length) :=
  ⟨by decide, by decide, by decide, by decide,
    (computeOkxChecksum_canonical [(1, 2)] [(3, 4)] (by decide)).1⟩

/-! ## Frame processing (C8, C9) -/

theorem parseLevels_of_levels (stod : String → Option Double) {elems : List Value}
    {levels : List (Double × Double)} (h : List.Forall₂ (IsLevel stod) elems levels) :
    parseLevels stod elems = .ok levels := by
  induction h with
  | nil => rfl
  | @cons e l es ls hl _ ih =>
    obtain ⟨p, s, extra, rfl, hp, hs⟩ := hl
    simp [parseLevels, Value.IsArray, Value.Size, Value.index, stodOf, Value.GetString, hp, hs, ih,
      bind, Except.bind, pure, Except.pure]

theorem parseSide_of_side (stod : String → Option Double) {bookMembers : List (String × Value)}
    {name : String} {v : Value} {levels : List (Double × Double)}
    (hv : Value.findMember name bookMembers = some v) (h : IsSide stod v levels) :
    parseSide stod (.object bookMembers) name = .ok levels := by
  obtain ⟨elems, rfl, hl⟩ := h
  simp [parseSide, Value.HasMember, Value.member, hv, Value.IsArray, Value.GetArray,
    parseLevels_of_levels stod hl, bind, Except.bind, pure, Except.pure]

/-- What `readOnceAndProcess` does with a well-formed books frame. -/
theorem readOnceAndProcess_wellFormed (stod : String → Option Double) (d : Value)
    (instId : String) (action : Option String) (bids asks : List (Double × Double))
    (cs : Option String) (recvNs : Int) (g : OkxMarketDataGateway)
    (hwf : WellFormedBooks stod d instId action bids asks cs) :
    readOnceAndProcess stod (some d) recvNs g =
      if cs.getD "" ≠ "" ∧ cs.getD "" ≠ computeOkxChecksum bids asks then .ok (true, g)
      else .ok (true, { g with ringBuffer_ := (g.ringBuffer_.tryEmplace
        (BookUpdate.new instId bids asks recvNs (decide (action = some "snapshot"))
          (cs.getD ""))).2 }) := by
  obtain ⟨members, argMembers, bookMembers, rest, bidsV, asksV, rfl, harg, hchan, hinst, hact,
    hdata, hb, hbs, ha, has, hcs⟩ := hwf
  have hB := parseSide_of_side stod hb hbs
  have hA := parseSide_of_side stod ha has
  cases action <;> cases cs <;>
  simp [readOnceAndProcess, Value.IsObject, Value.HasMember, Value.member, harg, hchan, hinst, hact,
    hdata, hcs, hB, hA, Value.GetString, Value.IsArray, Value.Empty, Value.index, Value.IsString,
    bind, Except.bind, pure, Except.pure]
  all_goals (split_ifs <;> simp_all)

/-- C8. For every well-formed books frame whose `cs` is a non-empty string
different from the checksum computed over the frame's bids and asks,
`readOnceAndProcess` returns true and leaves the gateway as it was: nothing is
enqueued (the ring is unchanged), no book is touched, and the session loop
reads the next frame on the same connection. -/
theorem checksum_mismatch_skips (stod : String → Option Double) (d : Value)
    (instId : String) (action : Option String) (bids asks : List (Double × Double))
    (cs : String) (recvNs : Int) (g : OkxMarketDataGateway)
    (hwf : WellFormedBooks stod d instId action bids asks (some cs))
    (hne : cs ≠ "") (hmis : cs ≠ computeOkxChecksum bids asks) :
    readOnceAndProcess stod (some d) recvNs g = .ok (true, g)
    ∧ ioThreadRunStep (readOnceAndProcess stod (some d) recvNs g) = .continueReading := by
  have h := readOnceAndProcess_wellFormed stod d instId action bids asks (some cs) recvNs g hwf
  have hc : (some cs).getD "" ≠ "" ∧ (some cs).getD "" ≠ computeOkxChecksum bids asks :=
    ⟨hne, hmis⟩
  rw [if_pos hc] at h
  rw [h]
  exact ⟨rfl, rfl⟩

theorem wellFormed_booksFrame (action cs : String) :
    WellFormedBooks sample.stod (sample.booksFrame action "1" cs) "BTC-USDT" (some action)
      [(1, 2)] [(3, 4)] (some cs) :=
  ⟨_, _, _, _, _, _, rfl, rfl, rfl, rfl, rfl, rfl, rfl,
    ⟨_, rfl, List.Forall₂.cons ⟨_, _, _, rfl, rfl, rfl⟩ List.Forall₂.nil⟩, rfl,
    ⟨_, rfl, List.Forall₂.cons ⟨_, _, _, rfl, rfl, rfl⟩ List.Forall₂.nil⟩, rfl⟩

/-- The frame `sample.booksFrame` with the bid price string `"-0"`: its bid
level is negative zero with size 2. -/
theorem wellFormed_booksFrame_negZero (action cs : String) :
    WellFormedBooks sample.stod (sample.booksFrame action "-0" cs) "BTC-USDT" (some action)
      [(.negZero, 2)] [(3, 4)] (some cs) :=
  ⟨_, _, _, _, _, _, rfl, rfl, rfl, rfl, rfl, rfl, rfl,
    ⟨_, rfl, List.Forall₂.cons ⟨_, _, _, rfl, rfl, rfl⟩ List.Forall₂.nil⟩, rfl,
    ⟨_, rfl, List.Forall₂.cons ⟨_, _, _, rfl, rfl, rfl⟩ List.Forall₂.nil⟩, rfl⟩

set_option maxRecDepth 100000 in
/-- The checksum of the levels of that frame: the CRC-32 of
`-0.00000000:2.00000000:3.00000000:4.00000000`. -/
theorem checksum_negZero : computeOkxChecksum [(.negZero, 2)] [(3, 4)] = "947334089" := by
  decide

set_option maxRecDepth 100000 in
/-- A snapshot frame with one bid and one ask level and the wrong checksum
`"12"`, and the frame whose bid price is `"-0"` with the checksum `"238216664"`
of the string without the sign of the zero. -/
theorem checksum_mismatch_skips_witness :
    (readOnceAndProcess sample.stod (some (sample.booksFrame "snapshot" "1" "12")) 5
        sample.gatewayBtc = .ok (true, sample.gatewayBtc)
      ∧ ioThreadRunStep (readOnceAndProcess sample.stod
          (some (sample.booksFrame "snapshot" "1" "12")) 5 sample.gatewayBtc) = .continueReading)
    ∧ (readOnceAndProcess sample.stod (some (sample.booksFrame "snapshot" "-0" "238216664")) 5
        sample.gatewayBtc = .ok (true, sample.gatewayBtc)
      ∧ ioThreadRunStep (readOnceAndProcess sample.stod
          (some (sample.booksFrame "snapshot" "-0" "238216664")) 5 sample.gatewayBtc)
        = .continueReading) :=
  ⟨checksum_mismatch_skips sample.stod _ "BTC-USDT" (some "snapshot") [(1, 2)] [(3, 4)] "12" 5
      sample.gatewayBtc (wellFormed_booksFrame "snapshot" "12") (by decide) (by decide),
    checksum_mismatch_skips sample.stod _ "BTC-USDT" (some "snapshot") [(.negZero, 2)] [(3, 4)]
      "238216664" 5 sample.gatewayBtc (wellFormed_booksFrame_negZero "snapshot" "238216664")
      (by decide) (by rw [checksum_negZero]; decide)⟩

/-- C9, evaluated at malformed frames.  A level whose price is not a numeric
string makes `std::stod` throw: `readOnceAndProcess` does not return, and
`ioThreadRun` catches the exception and reconnects.  A frame whose
`arg.channel` is not a string, or a books frame without `arg.instId`, violates
the precondition of a RapidJSON accessor. -/
theorem malformed_frame_faults (recvNs : Int) (g : OkxMarketDataGateway) :
    sample.stod "abc" = none
    ∧ readOnceAndProcess sample.stod (some (sample.booksFrame "update" "abc" "")) recvNs g
        = .error .stodException
    ∧ ioThreadRunStep (readOnceAndProcess sample.stod
        (some (sample.booksFrame "update" "abc" "")) recvNs g) = .reconnect
    ∧ (∀ stod, readOnceAndProcess stod (some sample.numericChannelFrame) recvNs g
        = .error .rapidjsonAssert)
    ∧ (∀ stod, readOnceAndProcess stod (some sample.noInstIdFrame) recvNs g
        = .error .rapidjsonAssert) := by
  refine ⟨by decide, ?_, ?_, ?_, ?_⟩
  · rfl
  · rfl
  · intro stod; rfl
  · intro stod; rfl

/-! ## The book worker (C11 to C14) -/

theorem applyDeltas_append (a b : List Delta) :
    ∀ ob : OrderBook, applyDeltas ob (a ++ b) = applyDeltas (applyDeltas ob a) b := by
  induction a with
  | nil => intro ob; rfl
  | cons d rest ih =>
    intro ob
    cases d with
    | bid p s => exact ih _
    | ask p s => exact ih _

theorem applyBidDeltas_eq_applyDeltas (levels : List (Double × Double)) :
    ∀ ob : OrderBook,
      applyBidDeltas ob levels = applyDeltas ob (levels.map (fun l => Delta.bid l.1 l.2)) := by
  induction levels with
  | nil => intro ob; rfl
  | cons hd rest ih =>
    obtain ⟨p, s⟩ := hd
    intro ob
    exact ih _

theorem applyAskDeltas_eq_applyDeltas (levels : List (Double × Double)) :
    ∀ ob : OrderBook,
      applyAskDeltas ob levels = applyDeltas ob (levels.map (fun l => Delta.ask l.1 l.2)) := by
  induction levels with
  | nil => intro ob; rfl
  | cons hd rest ih =>
    obtain ⟨p, s⟩ := hd
    intro ob
    exact ih _

/-- C11. For every map of books and every delta update `u` for a registered
instrument, `processBookUpdate(u)` leaves that instrument's book equal to the
result of calling `applyDeltaBid(px, sz)` for each level of `u.bids` in order
and then `applyDeltaAsk(px, sz)` for each level of `u.asks` in order (a level
of size 0 deletes its price, any other size sets it), and leaves the book of
every other instrument unchanged. -/
theorem delta_update_applies_levels (now : Int) (g : OkxMarketDataGateway) (u : BookUpdate)
    (prior : OrderBook) (hreg : g.books_ u.instrumentId = some prior)
    (hdelta : u.isSnapshot = false) :
    (processBookUpdate now g u).books_ u.instrumentId
        = some (applyDeltas prior (u.bids.map (fun l => Delta.bid l.1 l.2)
            ++ u.asks.map (fun l => Delta.ask l.1 l.2)))
    ∧ (∀ inst, inst ≠ u.instrumentId → (processBookUpdate now g u).books_ inst = g.books_ inst)
    ∧ (∀ (ob : OrderBook) (px sz : Double),
        (ob.applyDeltaBid px sz).bids_.find px = (if sz.isZero then none else some sz)
        ∧ (ob.applyDeltaAsk px sz).asks_.find px = (if sz.isZero then none else some sz)) := by
  refine ⟨?_, fun inst hne => books_processBookUpdate_other now g u inst hne, ?_⟩
  · rw [books_processBookUpdate_self now g u prior hreg, applyDeltas_append,
      ← applyBidDeltas_eq_applyDeltas, ← applyAskDeltas_eq_applyDeltas]
    simp [updatedBook, hdelta]
  · intro ob px sz
    cases hs : sz.isZero
    · rw [applyDeltaBid_of_nonzero _ _ hs, applyDeltaAsk_of_nonzero _ _ hs]
      exact ⟨findRaw_assignRaw_self px sz _, findRaw_assignRaw_self px sz _⟩
    · rw [applyDeltaBid_of_zero _ _ hs, applyDeltaAsk_of_zero _ _ hs]
      exact ⟨findRaw_eraseRaw_self px _, findRaw_eraseRaw_self px _⟩

/-- The delta update of the samples on the registered, empty `BTC-USDT` book. -/
theorem delta_update_applies_levels_witness :
    (processBookUpdate 21 sample.gatewayBtc sample.deltaUpdate).books_ "BTC-USDT"
        = some (applyDeltas (OrderBook.new "BTC-USDT")
            [Delta.bid 30000 0, Delta.ask 30002 5])
    ∧ (∀ inst, inst ≠ "BTC-USDT" →
        (processBookUpdate 21 sample.gatewayBtc sample.deltaUpdate).books_ inst
          = sample.gatewayBtc.books_ inst)
    ∧ (∀ (ob : OrderBook) (px sz : Double),
        (ob.applyDeltaBid px sz).bids_.find px = (if sz.isZero then none else some sz)
        ∧ (ob.applyDeltaAsk px sz).asks_.find px = (if sz.isZero then none else some sz)) :=
  delta_update_applies_levels 21 sample.gatewayBtc sample.deltaUpdate (OrderBook.new "BTC-USDT")
    books_gatewayBtc rfl

theorem callbackCalls_processBookUpdate (now : Int) (g : OkxMarketDataGateway) (u : BookUpdate)
    (prior : OrderBook) (hreg : g.books_ u.instrumentId = some prior)
    (hcb : g.bestQuoteCallback_ = true) :
    (processBookUpdate now g u).callbackCalls = g.callbackCalls ++
      [⟨u.instrumentId, (updatedBook prior u).bestBid.1, (updatedBook prior u).bestBid.2,
        (updatedBook prior u).bestAsk.1, (updatedBook prior u).bestAsk.2,
        now - u.receiveTimeNs⟩] := by
  unfold processBookUpdate
  rw [hreg]
  simp [hcb]

theorem bestQuoteCallback_processBookUpdate (now : Int) (g : OkxMarketDataGateway)
    (u : BookUpdate) :
    (processBookUpdate now g u).bestQuoteCallback_ = g.bestQuoteCallback_ := by
  unfold processBookUpdate
  cases hreg : g.books_ u.instrumentId with
  | none => rfl
  | some prior => by_cases hcb : g.bestQuoteCallback_ = true <;> simp [hcb]

/-- C12. For every update `u` applied to a registered instrument's book (with a
callback set), the `BestQuote` handed to the callback has `instrumentId` equal
to `u.instrumentId`, `(bestBidPrice, bestBidSize)` equal to `bestBid()` and
`(bestAskPrice, bestAskSize)` equal to `bestAsk()` of that book as it is
after `u` has been applied, an empty side being reported as `(0.0, 0.0)`. -/
theorem best_quote_reports_updated_book (now : Int) (g : OkxMarketDataGateway) (u : BookUpdate)
    (prior : OrderBook) (hreg : g.books_ u.instrumentId = some prior)
    (hcb : g.bestQuoteCallback_ = true) :
    ∃ (ob : OrderBook) (q : BestQuote),
      (processBookUpdate now g u).books_ u.instrumentId = some ob
      ∧ (processBookUpdate now g u).callbackCalls = g.callbackCalls ++ [q]
      ∧ q.instrumentId = u.instrumentId
      ∧ (q.bestBidPrice, q.bestBidSize) = ob.bestBid
      ∧ (q.bestAskPrice, q.bestAskSize) = ob.bestAsk
      ∧ q.tickToBookLatencyNs = now - u.receiveTimeNs
      ∧ (ob.bidLevels = 0 → q.bestBidPrice = 0 ∧ q.bestBidSize = 0)
      ∧ (ob.askLevels = 0 → q.bestAskPrice = 0 ∧ q.bestAskSize = 0) := by
  refine ⟨updatedBook prior u, _, books_processBookUpdate_self now g u prior hreg,
    callbackCalls_processBookUpdate now g u prior hreg hcb, rfl, rfl, rfl, rfl, ?_, ?_⟩
  · intro h
    have hnil : (updatedBook prior u).bids_.entries = [] := List.length_eq_zero.1 h
    simp [OrderBook.bestBid, PriceMap.isEmpty, hnil]
  · intro h
    have hnil : (updatedBook prior u).asks_.entries = [] := List.length_eq_zero.1 h
    simp [OrderBook.bestAsk, PriceMap.isEmpty, hnil]

/-- The snapshot update of the samples: best bid `(30000, 1)`, best ask
`(30001, 3)`, latency `11 - 10`. -/
theorem best_quote_reports_updated_book_witness :
    (processBookUpdate 11 sample.gatewayBtc sample.snapshotUpdate).callbackCalls
        = [⟨"BTC-USDT", 30000, 1, 30001, 3, 1⟩]
    ∧ ∃ (ob : OrderBook) (q : BestQuote),
      (processBookUpdate 11 sample.gatewayBtc sample.snapshotUpdate).books_ "BTC-USDT" = some ob
      ∧ (processBookUpdate 11 sample.gatewayBtc sample.snapshotUpdate).callbackCalls
          = sample.gatewayBtc.callbackCalls ++ [q]
      ∧ q.instrumentId = "BTC-USDT"
      ∧ (q.bestBidPrice, q.bestBidSize) = ob.bestBid
      ∧ (q.bestAskPrice, q.bestAskSize) = ob.bestAsk
      ∧ q.tickToBookLatencyNs = 11 - 10
      ∧ (ob.bidLevels = 0 → q.bestBidPrice = 0 ∧ q.bestBidSize = 0)
      ∧ (ob.askLevels = 0 → q.bestAskPrice = 0 ∧ q.bestAskSize = 0) :=
  ⟨by decide, best_quote_reports_updated_book 11 sample.gatewayBtc sample.snapshotUpdate
    (OrderBook.new "BTC-USDT") books_gatewayBtc rfl⟩

theorem registered_processBookUpdate (now : Int) (g : OkxMarketDataGateway) (u : BookUpdate)
    (inst : String) :
    ((processBookUpdate now g u).books_ inst).isSome = (g.books_ inst).isSome := by
  cases hreg : g.books_ u.instrumentId with
  | none => rw [books_processBookUpdate_unknown now g u hreg]
  | some prior =>
    by_cases hi : inst = u.instrumentId
    · subst hi
      rw [books_processBookUpdate_self now g u prior hreg, hreg]
      rfl
    · rw [books_processBookUpdate_other now g u inst hi]

theorem length_callbackCalls_processBookUpdate (now : Int) (g : OkxMarketDataGateway)
    (u : BookUpdate) (hcb : g.bestQuoteCallback_ = true) :
    (processBookUpdate now g u).callbackCalls.length
      = g.callbackCalls.length + (if (g.books_ u.instrumentId).isSome then 1 else 0) := by
  cases hreg : g.books_ u.instrumentId with
  | none => rw [books_processBookUpdate_unknown now g u hreg]; simp
  | some prior => rw [callbackCalls_processBookUpdate now g u prior hreg hcb]; simp

theorem length_callbackCalls_processBookUpdates (updates : List (Int × BookUpdate)) :
    ∀ g : OkxMarketDataGateway, g.bestQuoteCallback_ = true →
      (processBookUpdates g updates).callbackCalls.length
        = g.callbackCalls.length
          + (updates.filter (fun x => (g.books_ x.2.instrumentId).isSome)).length := by
  induction updates with
  | nil => intro g _; rfl
  | cons hd rest ih =>
    obtain ⟨now, u⟩ := hd
    intro g hcb
    have hcb2 : (processBookUpdate now g u).bestQuoteCallback_ = true := by
      rw [bestQuoteCallback_processBookUpdate, hcb]
    have hfilter : rest.filter
          (fun x => ((processBookUpdate now g u).books_ x.2.instrumentId).isSome)
        = rest.filter (fun x => (g.books_ x.2.instrumentId).isSome) := by
      congr 1
      funext x
      exact registered_processBookUpdate now g u _
    rw [processBookUpdates, ih _ hcb2, hfilter, length_callbackCalls_processBookUpdate now g u hcb,
      List.filter_cons]
    by_cases hr : (g.books_ u.instrumentId).isSome = true
    · simp [hr]; omega
    · simp [hr]

/-- C13. With a callback registered, `processBookUpdate(u)` invokes the callback
exactly once for every update `u` whose instrument is registered, whatever `u`
does to the book (also when it leaves the book and its best bid and ask as
they were, as a delta without levels does); over any sequence of updates the number of callback invocations
is the number of updates applied, that is, of those whose instrument is
registered. -/
theorem callback_once_per_applied_update (g : OkxMarketDataGateway)
    (updates : List (Int × BookUpdate)) (hcb : g.bestQuoteCallback_ = true) :
    (∀ (now : Int) (u : BookUpdate), (g.books_ u.instrumentId).isSome = true →
        ∃ q, (processBookUpdate now g u).callbackCalls = g.callbackCalls ++ [q])
    ∧ (∀ (now recvNs : Int) (inst cs : String) (ob : OrderBook), g.books_ inst = some ob →
        (processBookUpdate now g ⟨inst, [], [], recvNs, cs, false⟩).books_ inst = some ob
        ∧ (processBookUpdate now g ⟨inst, [], [], recvNs, cs, false⟩).callbackCalls.length
          = g.callbackCalls.length + 1)
    ∧ (processBookUpdates g updates).callbackCalls.length
        = g.callbackCalls.length
          + (updates.filter (fun x => (g.books_ x.2.instrumentId).isSome)).length := by
  refine ⟨?_, ?_, length_callbackCalls_processBookUpdates updates g hcb⟩
  · intro now u hreg
    obtain ⟨prior, hprior⟩ := Option.isSome_iff_exists.1 hreg
    exact ⟨_, callbackCalls_processBookUpdate now g u prior hprior hcb⟩
  · intro now recvNs inst cs ob hreg
    constructor
    · rw [books_processBookUpdate_self now g ⟨inst, [], [], recvNs, cs, false⟩ ob hreg]
      rfl
    · rw [callbackCalls_processBookUpdate now g ⟨inst, [], [], recvNs, cs, false⟩ ob hreg hcb]
      simp

/-- A snapshot, a delta, an update for an instrument that is not registered,
and a delta without levels: three of the four are applied. -/
theorem callback_once_per_applied_update_witness :
    (processBookUpdates sample.gatewayBtc
        [(11, sample.snapshotUpdate), (21, sample.deltaUpdate),
          (31, ⟨"ETH-USDT", [(1, 1)], [], 30, "", false⟩),
          (41, ⟨"BTC-USDT", [], [], 40, "", false⟩)]).callbackCalls.length = 3
    ∧ (∀ (now : Int) (u : BookUpdate), (sample.gatewayBtc.books_ u.instrumentId).isSome = true →
        ∃ q, (processBookUpdate now sample.gatewayBtc u).callbackCalls
          = sample.gatewayBtc.callbackCalls ++ [q])
    ∧ (∀ (now recvNs : Int) (inst cs : String) (ob : OrderBook),
        sample.gatewayBtc.books_ inst = some ob →
        (processBookUpdate now sample.gatewayBtc ⟨inst, [], [], recvNs, cs, false⟩).books_ inst
          = some ob
        ∧ (processBookUpdate now sample.gatewayBtc
            ⟨inst, [], [], recvNs, cs, false⟩).callbackCalls.length
          = sample.gatewayBtc.callbackCalls.length + 1)
    ∧ (processBookUpdates sample.gatewayBtc
        [(11, sample.snapshotUpdate), (21, sample.deltaUpdate),
          (31, ⟨"ETH-USDT", [(1, 1)], [], 30, "", false⟩),
          (41, ⟨"BTC-USDT", [], [], 40, "", false⟩)]).callbackCalls.length
        = sample.gatewayBtc.callbackCalls.length
          + ([(11, sample.snapshotUpdate), (21, sample.deltaUpdate),
              (31, (⟨"ETH-USDT", [(1, 1)], [], 30, "", false⟩ : BookUpdate)),
              (41, ⟨"BTC-USDT", [], [], 40, "", false⟩)].filter
                (fun x => (sample.gatewayBtc.books_ x.2.instrumentId).isSome)).length :=
  ⟨by decide, callback_once_per_applied_update sample.gatewayBtc _ rfl⟩

/-- C14. For every update `u` whose `instrumentId` is not a key of the registered
books, `processBookUpdate(u)` drops it: the gateway is left as it was, so
every book is unchanged, no book is created for `u.instrumentId`, and the
callback is not invoked. -/
theorem unknown_instrument_dropped (now : Int) (g : OkxMarketDataGateway) (u : BookUpdate)
    (hunknown : g.books_ u.instrumentId = none) :
    processBookUpdate now g u = g
    ∧ (∀ inst, (processBookUpdate now g u).books_ inst = g.books_ inst)
    ∧ (processBookUpdate now g u).books_ u.instrumentId = none
    ∧ (processBookUpdate now g u).callbackCalls = g.callbackCalls := by
  have h := books_processBookUpdate_unknown now g u hunknown
  rw [h]
  exact ⟨rfl, fun _ => rfl, hunknown, rfl⟩

/-- An update for `ETH-USDT` on a gateway that registered only `BTC-USDT`. -/
theorem unknown_instrument_dropped_witness :
    processBookUpdate 31 sample.gatewayBtc ⟨"ETH-USDT", [(1, 1)], [(2, 1)], 30, "", true⟩
        = sample.gatewayBtc
    ∧ (∀ inst, (processBookUpdate 31 sample.gatewayBtc
          ⟨"ETH-USDT", [(1, 1)], [(2, 1)], 30, "", true⟩).books_ inst
        = sample.gatewayBtc.books_ inst)
    ∧ (processBookUpdate 31 sample.gatewayBtc
          ⟨"ETH-USDT", [(1, 1)], [(2, 1)], 30, "", true⟩).books_ "ETH-USDT" = none
    ∧ (processBookUpdate 31 sample.gatewayBtc
          ⟨"ETH-USDT", [(1, 1)], [(2, 1)], 30, "", true⟩).callbackCalls
        = sample.gatewayBtc.callbackCalls :=
  unknown_instrument_dropped 31 sample.gatewayBtc ⟨"ETH-USDT", [(1, 1)], [(2, 1)], 30, "", true⟩
    (by decide)

/-! ## Round trip and idempotence (C15, C16) -/

namespace book

theorem eraseRaw_idem (p : Double) (l : List (Double × Double)) :
    eraseRaw p (eraseRaw p l) = eraseRaw p l := by
  simp [eraseRaw, List.filter_filter]

theorem assignRaw_idem (p s : Double) (l : List (Double × Double)) :
    assignRaw p s (assignRaw p s l) = assignRaw p s l := by
  induction l with
  | nil => simp [assignRaw, Double.lt_irrefl]
  | cons hd rest ih =>
    obtain ⟨q, t⟩ := hd
    by_cases h1 : p < q
    · simp [assignRaw, h1, Double.lt_irrefl]
    · by_cases h2 : q < p
      · simp [assignRaw, h1, h2, ih]
      · simp [assignRaw, h1, h2]

/-- In an ordered map that stores `(p, s)` and no key above `p`, the last entry
is `(p, s)`. -/
theorem getLast_of_upper_bound {l : List (Double × Double)} (hl : Ascending l) {p s : Double}
    (hmem : (p, s) ∈ l) (hub : ∀ e ∈ l, ¬ p < e.1) : l.getLast? = some (p, s) := by
  have hne : l ≠ [] := List.ne_nil_of_mem hmem
  have hlast := List.getLast?_eq_getLast l hne
  obtain ⟨hin, hmax⟩ := lt_getLast_of_ascending hl hlast
  rw [hlast]
  rcases hmax _ hmem with h | h
  · rw [h]
  · exact absurd h (hub _ hin)

/-- In an ordered map that stores `(p, s)` and no key below `p`, the first
entry is `(p, s)`. -/
theorem head_of_lower_bound {l : List (Double × Double)} (hl : Ascending l) {p s : Double}
    (hmem : (p, s) ∈ l) (hlb : ∀ e ∈ l, ¬ e.1 < p) : l.head? = some (p, s) := by
  cases l with
  | nil => exact absurd hmem (List.not_mem_nil _)
  | cons hd rest =>
    obtain ⟨hin, hmin⟩ := head_lt_of_ascending hl (rfl : (hd :: rest).head? = some hd)
    rcases hmin _ hmem with h | h
    · rw [h]; rfl
    · exact absurd h (hlb _ hin)

end book

theorem mem_bids_applyBidDeltas_zero (qs : List Double) :
    ∀ (ob : OrderBook) (e : Double × Double),
      e ∈ (applyBidDeltas ob (qs.map (fun q => (q, 0)))).bids_.entries
        ↔ e ∈ ob.bids_.entries ∧ ∀ q ∈ qs, e.1 < q ∨ q < e.1 := by
  induction qs with
  | nil => intro ob e; simp [applyBidDeltas]
  | cons q rest ih =>
    intro ob e
    rw [List.map_cons, applyBidDeltas, ih, applyDeltaBid_of_zero _ _ Double.isZero_zero]
    simp only [PriceMap.erase, mem_eraseRaw, List.mem_cons, forall_eq_or_imp]
    tauto

theorem mem_asks_applyAskDeltas_zero (qs : List Double) :
    ∀ (ob : OrderBook) (e : Double × Double),
      e ∈ (applyAskDeltas ob (qs.map (fun q => (q, 0)))).asks_.entries
        ↔ e ∈ ob.asks_.entries ∧ ∀ q ∈ qs, e.1 < q ∨ q < e.1 := by
  induction qs with
  | nil => intro ob e; simp [applyAskDeltas]
  | cons q rest ih =>
    intro ob e
    rw [List.map_cons, applyAskDeltas, ih, applyDeltaAsk_of_zero _ _ Double.isZero_zero]
    simp only [PriceMap.erase, mem_eraseRaw, List.mem_cons, forall_eq_or_imp]
    tauto

/-- C15. For all price-to-size maps `B` and `A` and every level `(p, s)` of `B`:
after `applySnapshot(B, A)` followed by `applyDeltaBid(q, 0)` for the prices
`q` of `B` above `p` (a list `qs` of prices above `p` that holds every such
price, in any order), `bestBid()` is `(p, s)`.  Symmetrically, for every
`(p, s)` of `A`, after `applySnapshot(B, A)` followed by `applyDeltaAsk(q, 0)`
for the prices of `A` below `p`, `bestAsk()` is `(p, s)`. -/
theorem round_trip_best_quote (ob : OrderBook) (B A : PriceMap) (p s : Double)
    (qs : List Double) :
    ((p, s) ∈ B.entries → (∀ e ∈ B.entries, p < e.1 → e.1 ∈ qs) → (∀ q ∈ qs, p < q) →
      (applyBidDeltas (ob.applySnapshot B A) (qs.map (fun q => (q, 0)))).bestBid = (p, s))
    ∧ ((p, s) ∈ A.entries → (∀ e ∈ A.entries, e.1 < p → e.1 ∈ qs) → (∀ q ∈ qs, q < p) →
      (applyAskDeltas (ob.applySnapshot B A) (qs.map (fun q => (q, 0)))).bestAsk = (p, s)) := by
  constructor
  · intro hmem hall hgt
    have hchar := mem_bids_applyBidDeltas_zero qs (ob.applySnapshot B A)
    have hin : (p, s) ∈ (applyBidDeltas (ob.applySnapshot B A)
        (qs.map (fun q => (q, 0)))).bids_.entries :=
      (hchar _).2 ⟨hmem, fun q hq => Or.inl (hgt q hq)⟩
    have hub : ∀ e ∈ (applyBidDeltas (ob.applySnapshot B A)
        (qs.map (fun q => (q, 0)))).bids_.entries, ¬ p < e.1 := by
      intro e he hgt'
      obtain ⟨heB, hnq⟩ := (hchar e).1 he
      exact (hnq e.1 (hall e heB hgt')).elim (Double.lt_irrefl _) (Double.lt_irrefl _)
    have hlast := getLast_of_upper_bound (PriceMap.ordered _) hin hub
    have hne := List.ne_nil_of_mem hin
    simp [OrderBook.bestBid, PriceMap.isEmpty, PriceMap.last?, hne, hlast]
  · intro hmem hall hlt
    have hchar := mem_asks_applyAskDeltas_zero qs (ob.applySnapshot B A)
    have hin : (p, s) ∈ (applyAskDeltas (ob.applySnapshot B A)
        (qs.map (fun q => (q, 0)))).asks_.entries :=
      (hchar _).2 ⟨hmem, fun q hq => Or.inr (hlt q hq)⟩
    have hlb : ∀ e ∈ (applyAskDeltas (ob.applySnapshot B A)
        (qs.map (fun q => (q, 0)))).asks_.entries, ¬ e.1 < p := by
      intro e he hlt'
      obtain ⟨heA, hnq⟩ := (hchar e).1 he
      exact (hnq e.1 (hall e heA hlt')).elim (Double.lt_irrefl _) (Double.lt_irrefl _)
    have hhead := head_of_lower_bound (PriceMap.ordered _) hin hlb
    have hne := List.ne_nil_of_mem hin
    simp [OrderBook.bestAsk, PriceMap.isEmpty, PriceMap.first?, hne, hhead]

/-- C16. For every book, price `p` and size `s` (zero or not), applying
`applyDeltaBid(p, s)` twice in a row leaves the book in the same state as
applying it once; the same holds for `applyDeltaAsk`. -/
theorem applyDelta_idempotent (ob : OrderBook) (p s : Double) :
    (ob.applyDeltaBid p s).applyDeltaBid p s = ob.applyDeltaBid p s
    ∧ (ob.applyDeltaAsk p s).applyDeltaAsk p s = ob.applyDeltaAsk p s := by
  obtain ⟨id, bids, asks⟩ := ob
  cases hs : s.isZero
  · have hb : (bids.assign p s).assign p s = bids.assign p s :=
      PriceMap.eq_of_entries (assignRaw_idem p s bids.entries)
    have ha : (asks.assign p s).assign p s = asks.assign p s :=
      PriceMap.eq_of_entries (assignRaw_idem p s asks.entries)
    simp [OrderBook.applyDeltaBid, OrderBook.applyDeltaAsk, hs, hb, ha]
  · have hb : (bids.erase p).erase p = bids.erase p :=
      PriceMap.eq_of_entries (eraseRaw_idem p bids.entries)
    have ha : (asks.erase p).erase p = asks.erase p :=
      PriceMap.eq_of_entries (eraseRaw_idem p asks.entries)
    simp [OrderBook.applyDeltaBid, OrderBook.applyDeltaAsk, hs, hb, ha]

/-! ## `size()` and `empty()` (C20) -/

namespace util.SPSCRingBuffer

variable {T : Type}

theorem wrapped_difference {C D head tail len : Nat} (hD : 0 < D) (htail : tail < C)
    (hlen : len < C) (hhead : head = (tail + len) % C) :
    (head + C * D - tail) % C = len := by
  have hC : 0 < C := lt_of_le_of_lt (Nat.zero_le _) htail
  have hdiv := Nat.div_add_mod (tail + len) C
  rw [← hhead] at hdiv
  have hj : (tail + len) / C < 2 := by
    rw [Nat.div_lt_iff_lt_mul hC]; omega
  have hDC : C * D = C * (D - 1) + C := by
    obtain ⟨D', rfl⟩ := Nat.exists_eq_succ_of_ne_zero (Nat.pos_iff_ne_zero.1 hD)
    simp [Nat.mul_succ]
  generalize (tail + len) / C = j at hdiv hj
  have hj2 : j = 0 ∨ j = 1 := by omega
  rcases hj2 with rfl | rfl
  · have e : head + C * D - tail = len + C * D := by omega
    rw [e, Nat.add_mul_mod_self_left, Nat.mod_eq_of_lt hlen]
  · have e : head + C * D - tail = len + C * (D - 1) := by
      rw [hDC]; omega
    rw [e, Nat.add_mul_mod_self_left, Nat.mod_eq_of_lt hlen]

/-- `size()` is the number of messages the ring holds, for every capacity
`2^k` a `size_t` can hold. -/
theorem Holds.size_eq {k : Nat} (hk : k < 64) {r : SPSCRingBuffer T (2 ^ k)} {q : List T}
    (h : Holds r q) : r.size = q.length := by
  have hpow : (2 : Nat) ^ 64 = 2 ^ k * 2 ^ (64 - k) := by
    rw [← Nat.pow_add]; congr 1; omega
  have hdvd : 2 ^ k ∣ 2 ^ 64 := ⟨2 ^ (64 - k), hpow⟩
  unfold SPSCRingBuffer.size
  rw [and_mask_eq_mod, Nat.mod_mod_of_dvd _ hdvd, hpow]
  exact wrapped_difference (Nat.two_pow_pos _) h.tail_lt h.room h.head_eq

theorem Holds.empty_eq {C : Nat} {r : SPSCRingBuffer T C} {q : List T} (h : Holds r q) :
    r.empty = true ↔ q = [] := by
  unfold SPSCRingBuffer.empty
  rw [decide_eq_true_iff]
  constructor
  · intro he; exact h.empty_iff.1 he.symm
  · intro hq; exact (h.empty_iff.2 hq).symm

end util.SPSCRingBuffer

/-- C20. In every state a ring of capacity `2^k` (`k < 64`, a `size_t`) reaches
by sequential `tryEmplace` and `tryPop` calls from an empty ring, `size()`,
computed as `(head - tail) & mask_` in 64-bit unsigned arithmetic, is the
number of successful `tryEmplace` calls minus the number of successful
`tryPop` calls and the number of constructed slots, it lies between 0 and
`2^k - 1`, and `empty()` is true if and only if `size()` is 0.  The last
conjuncts are a run on capacity 4 that leaves `head_ = 1` below `tail_ = 2`
with three messages queued. -/
theorem size_contract {T : Type} (k : Fin 64) (calls : List (Call T)) :
    ((new : SPSCRingBuffer T (2 ^ (k : Nat))).run calls).2.size
        = (accepted calls ((new : SPSCRingBuffer T (2 ^ (k : Nat))).run calls).1).length
          - (delivered ((new : SPSCRingBuffer T (2 ^ (k : Nat))).run calls).1).length
    ∧ (delivered ((new : SPSCRingBuffer T (2 ^ (k : Nat))).run calls).1).length
        ≤ (accepted calls ((new : SPSCRingBuffer T (2 ^ (k : Nat))).run calls).1).length
    ∧ ((new : SPSCRingBuffer T (2 ^ (k : Nat))).run calls).2.size
        = ((new : SPSCRingBuffer T (2 ^ (k : Nat))).run calls).2.held
    ∧ ((new : SPSCRingBuffer T (2 ^ (k : Nat))).run calls).2.size ≤ 2 ^ (k : Nat) - 1
    ∧ (((new : SPSCRingBuffer T (2 ^ (k : Nat))).run calls).2.empty = true
        ↔ ((new : SPSCRingBuffer T (2 ^ (k : Nat))).run calls).2.size = 0)
    ∧ ((new : SPSCRingBuffer Nat 4).run
        [.tryEmplace 1, .tryEmplace 2, .tryEmplace 3, .tryPop, .tryPop, .tryEmplace 4,
          .tryEmplace 5]).2.head_ = 1
    ∧ ((new : SPSCRingBuffer Nat 4).run
        [.tryEmplace 1, .tryEmplace 2, .tryEmplace 3, .tryPop, .tryPop, .tryEmplace 4,
          .tryEmplace 5]).2.tail_ = 2
    ∧ ((new : SPSCRingBuffer Nat 4).run
        [.tryEmplace 1, .tryEmplace 2, .tryEmplace 3, .tryPop, .tryPop, .tryEmplace 4,
          .tryEmplace 5]).2.size = 3 := by
  have h := Holds.run calls (holds_new (T := T) (k : Nat))
  have hacc := ref_accounting (2 ^ (k : Nat) - 1) calls ([] : List T)
  rw [← h.1] at hacc
  have hlen := congrArg List.length hacc
  simp only [List.map_nil, List.nil_append, List.length_map, List.length_append] at hlen
  have hsize := h.2.size_eq k.isLt
  have hroom := h.2.room
  refine ⟨by omega, by omega, by rw [hsize, h.2.count], by omega, ?_, rfl, rfl, rfl⟩
  rw [h.2.empty_eq, hsize, List.length_eq_zero]

/-! ## Enqueueing a decoded frame (C17, C18) -/

namespace util.SPSCRingBuffer

variable {T : Type}

/-- The ring with `head_ = n`, `tail_ = 0` and the first `n` of its `n + 1` slots
filled holds those `n` messages. -/
theorem holds_filled (n : Nat) (v : T) :
    Holds (C := n + 1) ⟨n, 0, List.replicate n (some v) ++ [none]⟩ (List.replicate n v) where
  tail_lt := Nat.succ_pos n
  buffer_len := by simp
  room := by simp
  head_eq := by
    show n = (0 + (List.replicate n v).length) % (n + 1)
    rw [List.length_replicate, Nat.zero_add, Nat.mod_eq_of_lt (Nat.lt_succ_self n)]
  slots := by
    intro i hi
    rw [List.length_replicate] at hi
    show (List.replicate n (some v) ++ [none])[(0 + i) % (n + 1)]? = _
    rw [Nat.zero_add, Nat.mod_eq_of_lt (Nat.lt_succ_of_lt hi),
      List.getElem?_append_left (by simpa using hi), List.getElem?_replicate,
      List.getElem?_replicate, if_pos hi, if_pos hi]
  raw := by
    intro j hj hout
    have hjn : j = n := by
      by_contra hne
      have hlt : j < n := by omega
      apply hout j (by simpa using hlt)
      rw [Nat.zero_add, Nat.mod_eq_of_lt hj]
    subst hjn
    show (List.replicate j (some v) ++ [none])[j]? = _
    rw [List.getElem?_append_right (by simp)]
    simp
  count := by
    show (List.replicate n (some v) ++ [none]).countP Option.isSome = _
    simp [List.countP_append, List.countP_replicate]

theorem tryEmplace_gateway_full {r : SPSCRingBuffer T kRingBufferSize} {q : List T}
    (h : Holds r q) (hfull : q.length = kRingBufferSize - 1) (v : T) :
    r.tryEmplace v = (false, r) :=
  Holds.tryEmplace_full (k := 12) h v hfull

theorem tryEmplace_gateway_room {r : SPSCRingBuffer T kRingBufferSize} {q : List T}
    (h : Holds r q) (hroom : q.length ≠ kRingBufferSize - 1) (v : T) :
    (r.tryEmplace v).1 = true ∧ Holds (r.tryEmplace v).2 (q ++ [v]) :=
  Holds.tryEmplace_ok (k := 12) h v hroom

end util.SPSCRingBuffer

theorem holds_fullRing :
    Holds sample.fullGateway.ringBuffer_
      (List.replicate (kRingBufferSize - 1) sample.deltaUpdate) :=
  holds_filled (kRingBufferSize - 1) sample.deltaUpdate

/-- C17. When the ring already holds `Capacity - 1` updates (it holds exactly the
updates `q`, oldest first, and `q` has `kRingBufferSize - 1` elements), processing a
well-formed books frame that passes checksum validation drops the new update:
`readOnceAndProcess` returns true and leaves the gateway as it was, so the
queued updates are neither overwritten nor reordered, nothing is raised, and
the session keeps reading. -/
theorem ring_full_drops_update (stod : String → Option Double) (d : Value) (instId : String)
    (action : Option String) (bids asks : List (Double × Double)) (cs : Option String)
    (recvNs : Int) (g : OkxMarketDataGateway) (q : List BookUpdate)
    (hwf : WellFormedBooks stod d instId action bids asks cs)
    (hpass : cs.getD "" = "" ∨ cs.getD "" = computeOkxChecksum bids asks)
    (hring : Holds g.ringBuffer_ q) (hfull : q.length = kRingBufferSize - 1) :
    readOnceAndProcess stod (some d) recvNs g = .ok (true, g)
    ∧ ioThreadRunStep (readOnceAndProcess stod (some d) recvNs g) = .continueReading := by
  have h := readOnceAndProcess_wellFormed stod d instId action bids asks cs recvNs g hwf
  have hc : ¬ (cs.getD "" ≠ "" ∧ cs.getD "" ≠ computeOkxChecksum bids asks) := by
    rintro ⟨h1, h2⟩
    rcases hpass with hp | hp
    · exact h1 hp
    · exact h2 hp
  rw [if_neg hc] at h
  rw [tryEmplace_gateway_full hring hfull] at h
  rw [h]
  exact ⟨rfl, rfl⟩

/-- A snapshot frame without checksum read by a gateway whose ring holds 4095
updates. -/
theorem ring_full_drops_update_witness :
    readOnceAndProcess sample.stod (some (sample.booksFrame "snapshot" "1" "")) 5
        sample.fullGateway = .ok (true, sample.fullGateway)
    ∧ ioThreadRunStep (readOnceAndProcess sample.stod
        (some (sample.booksFrame "snapshot" "1" "")) 5 sample.fullGateway) = .continueReading :=
  ring_full_drops_update sample.stod _ "BTC-USDT" (some "snapshot") [(1, 2)] [(3, 4)] (some "")
    5 sample.fullGateway (List.replicate (kRingBufferSize - 1) sample.deltaUpdate)
    (wellFormed_booksFrame "snapshot" "") (Or.inl rfl) holds_fullRing (List.length_replicate _ _)

/-- C18. For every well-formed books frame that passes checksum validation while
the ring is not full (it holds exactly the updates `q`, fewer than
`kRingBufferSize - 1`), `readOnceAndProcess` returns true and enqueues exactly
one `BookUpdate` behind the updates already queued; it is the reference
decoding of the frame: `instrumentId` is `arg.instId`, `isSnapshot` is true
exactly when the top-level `action` is `"snapshot"` (false for `"update"` and
for an absent `action`), `bids` and `asks` are, in received order, the
converted first two strings of each level, `receiveTimeNs` is the clock
reading taken after the read, and `checksum` is the received `cs` (empty
when absent).  Nothing else of the gateway changes. -/
theorem frame_enqueued_as_decoded (stod : String → Option Double) (d : Value) (instId : String)
    (action : Option String) (bids asks : List (Double × Double)) (cs : Option String)
    (recvNs : Int) (g : OkxMarketDataGateway) (q : List BookUpdate)
    (hwf : WellFormedBooks stod d instId action bids asks cs)
    (hpass : cs.getD "" = "" ∨ cs.getD "" = computeOkxChecksum bids asks)
    (hring : Holds g.ringBuffer_ q) (hroom : q.length ≠ kRingBufferSize - 1) :
    ∃ (u : BookUpdate) (g' : OkxMarketDataGateway),
      readOnceAndProcess stod (some d) recvNs g = .ok (true, g')
      ∧ u.instrumentId = instId
      ∧ u.isSnapshot = decide (action = some "snapshot")
      ∧ (action = some "update" ∨ action = none → u.isSnapshot = false)
      ∧ u.bids = bids ∧ u.asks = asks
      ∧ u.receiveTimeNs = recvNs
      ∧ u.checksum = cs.getD ""
      ∧ g'.ringBuffer_ = (g.ringBuffer_.tryEmplace u).2
      ∧ (g.ringBuffer_.tryEmplace u).1 = true
      ∧ g'.ringBuffer_.held = g.ringBuffer_.held + 1
      ∧ Holds g'.ringBuffer_ (q ++ [u])
      ∧ g'.books_ = g.books_ ∧ g'.callbackCalls = g.callbackCalls
      ∧ g'.instruments_ = g.instruments_ ∧ g'.bestQuoteCallback_ = g.bestQuoteCallback_ := by
  have h := readOnceAndProcess_wellFormed stod d instId action bids asks cs recvNs g hwf
  have hc : ¬ (cs.getD "" ≠ "" ∧ cs.getD "" ≠ computeOkxChecksum bids asks) := by
    rintro ⟨h1, h2⟩
    rcases hpass with hp | hp
    · exact h1 hp
    · exact h2 hp
  rw [if_neg hc] at h
  have hok := tryEmplace_gateway_room hring hroom
    (BookUpdate.new instId bids asks recvNs (decide (action = some "snapshot")) (cs.getD ""))
  refine ⟨_, _, h, rfl, rfl, ?_, rfl, rfl, rfl, rfl, rfl, hok.1, ?_, hok.2, rfl, rfl, rfl, rfl⟩
  · rintro (ha | ha) <;> simp [BookUpdate.new, ha]
  · show (g.ringBuffer_.tryEmplace _).2.held = _
    rw [hok.2.count, hring.count, List.length_append, List.length_singleton]

set_option maxRecDepth 100000 in
/-- A snapshot frame with one bid and one ask level (each with two further
elements) and the matching checksum, read by a gateway with an empty ring;
and the frame whose bid price is `"-0"` with the checksum `"947334089"` of the
string that starts with `-0.00000000`. -/
theorem frame_enqueued_as_decoded_witness :
    (∃ (u : BookUpdate) (g' : OkxMarketDataGateway),
      readOnceAndProcess sample.stod (some (sample.booksFrame "snapshot" "1" "1226904355")) 5
          sample.gatewayBtc = .ok (true, g')
      ∧ u.instrumentId = "BTC-USDT"
      ∧ u.isSnapshot = decide (some "snapshot" = some "snapshot")
      ∧ ((some "snapshot" : Option String) = some "update" ∨ (some "snapshot" : Option String) = none
          → u.isSnapshot = false)
      ∧ u.bids = [(1, 2)] ∧ u.asks = [(3, 4)]
      ∧ u.receiveTimeNs = 5
      ∧ u.checksum = (some "1226904355" : Option String).getD ""
      ∧ g'.ringBuffer_ = (sample.gatewayBtc.ringBuffer_.tryEmplace u).2
      ∧ (sample.gatewayBtc.ringBuffer_.tryEmplace u).1 = true
      ∧ g'.ringBuffer_.held = sample.gatewayBtc.ringBuffer_.held + 1
      ∧ Holds g'.ringBuffer_ (([] : List BookUpdate) ++ [u])
      ∧ g'.books_ = sample.gatewayBtc.books_ ∧ g'.callbackCalls = sample.gatewayBtc.callbackCalls
      ∧ g'.instruments_ = sample.gatewayBtc.instruments_
      ∧ g'.bestQuoteCallback_ = sample.gatewayBtc.bestQuoteCallback_)
    ∧ ∃ (u : BookUpdate) (g' : OkxMarketDataGateway),
      readOnceAndProcess sample.stod (some (sample.booksFrame "snapshot" "-0" "947334089")) 5
          sample.gatewayBtc = .ok (true, g')
      ∧ u.bids = [(.negZero, 2)] ∧ u.asks = [(3, 4)]
      ∧ u.checksum = "947334089"
      ∧ Holds g'.ringBuffer_ (([] : List BookUpdate) ++ [u]) :=
  ⟨frame_enqueued_as_decoded sample.stod _ "BTC-USDT" (some "snapshot") [(1, 2)] [(3, 4)]
      (some "1226904355") 5 sample.gatewayBtc [] (wellFormed_booksFrame "snapshot" "1226904355")
      (Or.inr (by decide)) (holds_new 12) (by decide),
    match frame_enqueued_as_decoded sample.stod _ "BTC-USDT" (some "snapshot") [(.negZero, 2)]
      [(3, 4)] (some "947334089") 5 sample.gatewayBtc []
      (wellFormed_booksFrame_negZero "snapshot" "947334089") (Or.inr checksum_negZero.symm)
      (holds_new 12) (by decide) with
    | ⟨u, g', h⟩ => ⟨u, g', h.1, h.2.2.2.2.1, h.2.2.2.2.2.1, h.2.2.2.2.2.2.2.1,
        h.2.2.2.2.2.2.2.2.2.2.2.1⟩⟩

/-! ## Routing by channel and `data` (C19) -/

/-- What `readOnceAndProcess` does with a frame that is not routed to the
books decoder, as long as every accessor it calls on the way meets its
precondition: the root is not an object, or it has no `arg`, or `arg` is an
object without `channel`, or `arg.channel` is a string other than `"books"`, or
the channel is `"books"` and `data` is missing, not an array, or empty. -/
theorem readOnceAndProcess_not_routed (stod : String → Option Double) (d : Value)
    (recvNs : Int) (g : OkxMarketDataGateway)
    (h : d.IsObject = false
      ∨ ∃ members, d = .object members ∧
          (Value.findMember "arg" members = none
          ∨ ∃ argMembers, Value.findMember "arg" members = some (.object argMembers) ∧
              (Value.findMember "channel" argMembers = none
              ∨ ∃ c, Value.findMember "channel" argMembers = some (.string c) ∧
                  (c ≠ "books"
                  ∨ Value.findMember "data" members = none
                  ∨ ∃ v, Value.findMember "data" members = some v ∧
                      (v.IsArray = false ∨ v = .array []))))) :
    readOnceAndProcess stod (some d) recvNs g = .ok (true, g) := by
  rcases h with h | ⟨members, rfl, h⟩
  · simp [readOnceAndProcess, h, bind, Except.bind, pure, Except.pure]
  rcases h with h | ⟨argMembers, harg, h⟩
  · simp [readOnceAndProcess, Value.IsObject, Value.HasMember, h, bind, Except.bind, pure,
      Except.pure]
  rcases h with h | ⟨c, hc, h⟩
  · simp [readOnceAndProcess, Value.IsObject, Value.HasMember, Value.member, harg, h, bind,
      Except.bind, pure, Except.pure]
  by_cases hb : c = "books"
  swap
  · simp [readOnceAndProcess, Value.IsObject, Value.HasMember, Value.member, Value.GetString,
      harg, hc, hb, bind, Except.bind, pure, Except.pure]
  subst hb
  rcases h with h | h | ⟨v, hv, h | rfl⟩
  · exact absurd rfl h
  · simp [readOnceAndProcess, Value.IsObject, Value.HasMember, Value.member, Value.GetString,
      harg, hc, h, bind, Except.bind, pure, Except.pure]
  · simp [readOnceAndProcess, Value.IsObject, Value.HasMember, Value.member, Value.GetString,
      harg, hc, hv, h, bind, Except.bind, pure, Except.pure]
  · simp [readOnceAndProcess, Value.IsObject, Value.HasMember, Value.member, Value.GetString,
      harg, hc, hv, Value.IsArray, Value.Empty, bind, Except.bind, pure, Except.pure]

/-- C19, evaluated.  A frame without a `data` member whose `arg.channel` is not a
string, or whose `arg` is not an object, violates the precondition of a
RapidJSON accessor before the `data` test is reached: `readOnceAndProcess`
does not return true, and the failed assertion ends the process.  On every
frame on which the accessors called on the way meet their preconditions (the
root is an object, `arg` is an object, `arg.channel` is a string), a channel
other than `"books"`, a missing `data`, a `data` that is not an array and an
empty `data` array each make `readOnceAndProcess` return true and leave the
gateway (ring, books, callback log) as it was, whatever the other members
are; so do a root that is not an object, a missing `arg` and a missing
`arg.channel`. -/
theorem routing_by_channel_and_data (stod : String → Option Double) (recvNs : Int)
    (g : OkxMarketDataGateway) :
    (sample.numericChannelNoDataFrame.HasMember "data" = .ok false
      ∧ sample.stringArgFrame.HasMember "data" = .ok false
      ∧ readOnceAndProcess stod (some sample.numericChannelNoDataFrame) recvNs g
          = .error .rapidjsonAssert
      ∧ ioThreadRunStep (readOnceAndProcess stod (some sample.numericChannelNoDataFrame)
          recvNs g) = .abort
      ∧ readOnceAndProcess stod (some sample.stringArgFrame) recvNs g = .error .rapidjsonAssert)
    ∧ (∀ (members argMembers : List (String × Value)) (c : String),
        Value.findMember "arg" members = some (.object argMembers) →
        Value.findMember "channel" argMembers = some (.string c) →
        (c ≠ "books"
          ∨ Value.findMember "data" members = none
          ∨ ∃ v, Value.findMember "data" members = some v ∧
              (v.IsArray = false ∨ v = .array [])) →
        readOnceAndProcess stod (some (.object members)) recvNs g = .ok (true, g))
    ∧ (∀ d : Value, d.IsObject = false →
        readOnceAndProcess stod (some d) recvNs g = .ok (true, g))
    ∧ (∀ members : List (String × Value), Value.findMember "arg" members = none →
        readOnceAndProcess stod (some (.object members)) recvNs g = .ok (true, g))
    ∧ (∀ members argMembers : List (String × Value),
        Value.findMember "arg" members = some (.object argMembers) →
        Value.findMember "channel" argMembers = none →
        readOnceAndProcess stod (some (.object members)) recvNs g = .ok (true, g))
    ∧ readOnceAndProcess stod (some sample.tickersFrame) recvNs g = .ok (true, g)
    ∧ readOnceAndProcess stod (some sample.booksNoDataFrame) recvNs g = .ok (true, g)
    ∧ readOnceAndProcess stod (some (sample.booksFrameWithData (.array []))) recvNs g
        = .ok (true, g)
    ∧ readOnceAndProcess stod (some (sample.booksFrameWithData (.string "x"))) recvNs g
        = .ok (true, g) := by
  refine ⟨⟨rfl, rfl, rfl, rfl, rfl⟩, ?_, ?_, ?_, ?_, rfl, rfl, rfl, rfl⟩
  · intro members argMembers c harg hc h
    exact readOnceAndProcess_not_routed stod _ recvNs g
      (Or.inr ⟨members, rfl, Or.inr ⟨argMembers, harg, Or.inr ⟨c, hc, h⟩⟩⟩)
  · intro d hd
    exact readOnceAndProcess_not_routed stod d recvNs g (Or.inl hd)
  · intro members h
    exact readOnceAndProcess_not_routed stod _ recvNs g (Or.inr ⟨members, rfl, Or.inl h⟩)
  · intro members argMembers harg h
    exact readOnceAndProcess_not_routed stod _ recvNs g
      (Or.inr ⟨members, rfl, Or.inr ⟨argMembers, harg, Or.inl h⟩⟩)

/-! ## The stored cursors (C22) -/

namespace util.SPSCRingBuffer

variable {T : Type}

/-- The stored `tail_` is the number of successful `tryPop` calls, reduced
modulo the capacity. -/
theorem Holds.tail_run {k : Nat} (calls : List (Call T)) :
    ∀ {r : SPSCRingBuffer T (2 ^ k)} {q : List T}, Holds r q →
      (r.run calls).2.tail_ = (r.tail_ + (delivered (r.run calls).1).length) % 2 ^ k := by
  induction calls with
  | nil =>
    intro r q h
    simp only [SPSCRingBuffer.run, delivered, List.length_nil, Nat.add_zero]
    exact (Nat.mod_eq_of_lt h.tail_lt).symm
  | cons c rest ih =>
    intro r q h
    have hs := (h.step c).2
    have hr := ih hs
    cases c with
    | tryEmplace v =>
      have ht : (r.step (.tryEmplace v)).2.tail_ = r.tail_ := by
        simp only [SPSCRingBuffer.step, tryEmplace]
        split_ifs <;> rfl
      simp only [SPSCRingBuffer.run, delivered]
      rw [hr, ht]
    | tryPop =>
      cases q with
      | nil =>
        have e := h.tryPop_empty
        have e2 : r.step (.tryPop) = (.popped false none, r) := by
          simp only [SPSCRingBuffer.step, e]
        simp only [SPSCRingBuffer.run, delivered]
        rw [hr, e2]
        simp only [delivered]
      | cons x q =>
        have e := h.tryPop_ok
        have hne : ¬ r.tail_ = r.head_ := fun he => List.cons_ne_nil x q (h.empty_iff.1 he)
        have ht : (r.step (.tryPop)).2.tail_ = (r.tail_ + 1) % 2 ^ k := by
          simp only [SPSCRingBuffer.step, tryPop, hne, if_false]
          exact and_mask_eq_mod k _
        have e1 : (r.step (.tryPop)).1 = .popped true (some x) := by
          simp only [SPSCRingBuffer.step, e.1]
        simp only [SPSCRingBuffer.run, delivered]
        rw [hr, ht, e1]
        simp only [delivered, List.length_cons]
        rw [Nat.add_mod, Nat.mod_mod, ← Nat.add_mod]
        congr 1
        omega

end util.SPSCRingBuffer

/-- C22, refuted as stated.  On a ring of capacity 4 with `head_ = 3` and
`tail_ = 1` a `tryEmplace` succeeds and stores `head_ = 0`, which is not above
3; with `head_ = 0` and `tail_ = 3` a `tryPop` succeeds and stores
`tail_ = 0`. -/
theorem stored_cursor_wraps_to_zero :
    ((new : SPSCRingBuffer Nat 4).run
        [.tryEmplace 1, .tryEmplace 2, .tryEmplace 3, .tryPop]).2.head_ = 3
    ∧ ((new : SPSCRingBuffer Nat 4).run
        [.tryEmplace 1, .tryEmplace 2, .tryEmplace 3, .tryPop]).2.tail_ = 1
    ∧ (((new : SPSCRingBuffer Nat 4).run
        [.tryEmplace 1, .tryEmplace 2, .tryEmplace 3, .tryPop]).2.tryEmplace 4).1 = true
    ∧ (((new : SPSCRingBuffer Nat 4).run
        [.tryEmplace 1, .tryEmplace 2, .tryEmplace 3, .tryPop]).2.tryEmplace 4).2.head_ = 0
    ∧ ¬ ((new : SPSCRingBuffer Nat 4).run
          [.tryEmplace 1, .tryEmplace 2, .tryEmplace 3, .tryPop]).2.head_
        < (((new : SPSCRingBuffer Nat 4).run
          [.tryEmplace 1, .tryEmplace 2, .tryEmplace 3, .tryPop]).2.tryEmplace 4).2.head_
    ∧ ((new : SPSCRingBuffer Nat 4).run
        [.tryEmplace 1, .tryEmplace 2, .tryEmplace 3, .tryPop, .tryPop, .tryPop,
          .tryEmplace 4]).2.tail_ = 3
    ∧ ((new : SPSCRingBuffer Nat 4).run
        [.tryEmplace 1, .tryEmplace 2, .tryEmplace 3, .tryPop, .tryPop, .tryPop,
          .tryEmplace 4]).2.tryPop.1 = (true, some 4)
    ∧ ((new : SPSCRingBuffer Nat 4).run
        [.tryEmplace 1, .tryEmplace 2, .tryEmplace 3, .tryPop, .tryPop, .tryPop,
          .tryEmplace 4]).2.tryPop.2.tail_ = 0
    ∧ ¬ ((new : SPSCRingBuffer Nat 4).run
          [.tryEmplace 1, .tryEmplace 2, .tryEmplace 3, .tryPop, .tryPop, .tryPop,
            .tryEmplace 4]).2.tail_
        < ((new : SPSCRingBuffer Nat 4).run
          [.tryEmplace 1, .tryEmplace 2, .tryEmplace 3, .tryPop, .tryPop, .tryPop,
            .tryEmplace 4]).2.tryPop.2.tail_ := by
  decide

/-- C22, amended.  In every state a ring of capacity `2^k` reaches by sequential
calls from a new ring, the stored cursors are slot indices below the
capacity: `head_` is the number of successful `tryEmplace` calls and `tail_`
the number of successful `tryPop` calls, each reduced modulo the capacity.  A
successful `tryEmplace` constructs the message in the slot `head_` (the
stored value, used unmasked) and stores `(head_ + 1) & mask_`, which is
`head_ + 1` below the last slot and 0 at it; `tail_` is left alone.  A
successful `tryPop` moves the message out of the slot `tail_` and stores
`(tail_ + 1) & mask_` likewise; `head_` is left alone. -/
theorem cursors_are_masked_counters {T : Type} (k : Nat) (calls : List (Call T)) (v : T) :
    ((new : SPSCRingBuffer T (2 ^ k)).run calls).2.head_ < 2 ^ k
    ∧ ((new : SPSCRingBuffer T (2 ^ k)).run calls).2.tail_ < 2 ^ k
    ∧ ((new : SPSCRingBuffer T (2 ^ k)).run calls).2.head_
        = (accepted calls ((new : SPSCRingBuffer T (2 ^ k)).run calls).1).length % 2 ^ k
    ∧ ((new : SPSCRingBuffer T (2 ^ k)).run calls).2.tail_
        = (delivered ((new : SPSCRingBuffer T (2 ^ k)).run calls).1).length % 2 ^ k
    ∧ ((((new : SPSCRingBuffer T (2 ^ k)).run calls).2.tryEmplace v).1 = true →
        (((new : SPSCRingBuffer T (2 ^ k)).run calls).2.tryEmplace v).2.head_
            = (((new : SPSCRingBuffer T (2 ^ k)).run calls).2.head_ + 1) % 2 ^ k
        ∧ (((new : SPSCRingBuffer T (2 ^ k)).run calls).2.tryEmplace v).2.head_
            = (if ((new : SPSCRingBuffer T (2 ^ k)).run calls).2.head_ = 2 ^ k - 1 then 0
               else ((new : SPSCRingBuffer T (2 ^ k)).run calls).2.head_ + 1)
        ∧ (((new : SPSCRingBuffer T (2 ^ k)).run calls).2.tryEmplace v).2.tail_
            = ((new : SPSCRingBuffer T (2 ^ k)).run calls).2.tail_
        ∧ (((new : SPSCRingBuffer T (2 ^ k)).run calls).2.tryEmplace v).2.buffer_
            = ((new : SPSCRingBuffer T (2 ^ k)).run calls).2.buffer_.set
                ((new : SPSCRingBuffer T (2 ^ k)).run calls).2.head_ (some v))
    ∧ (((new : SPSCRingBuffer T (2 ^ k)).run calls).2.tryPop.1.1 = true →
        ((new : SPSCRingBuffer T (2 ^ k)).run calls).2.tryPop.2.tail_
            = (((new : SPSCRingBuffer T (2 ^ k)).run calls).2.tail_ + 1) % 2 ^ k
        ∧ ((new : SPSCRingBuffer T (2 ^ k)).run calls).2.tryPop.2.tail_
            = (if ((new : SPSCRingBuffer T (2 ^ k)).run calls).2.tail_ = 2 ^ k - 1 then 0
               else ((new : SPSCRingBuffer T (2 ^ k)).run calls).2.tail_ + 1)
        ∧ ((new : SPSCRingBuffer T (2 ^ k)).run calls).2.tryPop.2.head_
            = ((new : SPSCRingBuffer T (2 ^ k)).run calls).2.head_
        ∧ ((new : SPSCRingBuffer T (2 ^ k)).run calls).2.tryPop.1.2
            = ((new : SPSCRingBuffer T (2 ^ k)).run calls).2.buffer_.getD
                ((new : SPSCRingBuffer T (2 ^ k)).run calls).2.tail_ none) := by
  have h := Holds.run calls (holds_new (T := T) k)
  have ht := Holds.tail_run calls (holds_new (T := T) k)
  have hacc := ref_accounting (2 ^ k - 1) calls ([] : List T)
  rw [← h.1] at hacc
  have hlen := congrArg List.length hacc
  simp only [List.map_nil, List.nil_append, List.length_map, List.length_append] at hlen
  have hpos : 0 < 2 ^ k := Nat.two_pow_pos k
  have hwrap : ∀ x, x < 2 ^ k → (x + 1) % 2 ^ k = if x = 2 ^ k - 1 then 0 else x + 1 := by
    intro x hx
    by_cases hx1 : x = 2 ^ k - 1
    · rw [if_pos hx1, hx1, Nat.sub_add_cancel hpos, Nat.mod_self]
    · rw [if_neg hx1, Nat.mod_eq_of_lt (by omega)]
  have htail : ((new : SPSCRingBuffer T (2 ^ k)).run calls).2.tail_
      = (delivered ((new : SPSCRingBuffer T (2 ^ k)).run calls).1).length % 2 ^ k := by
    rw [ht]
    show (0 + _) % 2 ^ k = _
    rw [Nat.zero_add]
  generalize ((new : SPSCRingBuffer T (2 ^ k)).run calls).2 = r at *
  refine ⟨h.2.head_lt, h.2.tail_lt, ?_, htail, ?_, ?_⟩
  · rw [h.2.head_eq, htail, Nat.add_mod, Nat.mod_mod, ← Nat.add_mod, hlen]
  · intro hok
    have hnf : ¬ (r.head_ + 1) &&& mask_ (2 ^ k) = r.tail_ := by
      intro hf
      simp [tryEmplace, hf] at hok
    have e : r.tryEmplace v
        = (true, { r with buffer_ := r.buffer_.set r.head_ (some v),
                          head_ := (r.head_ + 1) &&& mask_ (2 ^ k) }) := by
      simp only [tryEmplace, hnf, if_false]
    rw [e]
    exact ⟨and_mask_eq_mod k _, (and_mask_eq_mod k _).trans (hwrap _ h.2.head_lt), rfl, rfl⟩
  · intro hok
    have hne : ¬ r.tail_ = r.head_ := by
      intro hf
      simp [tryPop, hf] at hok
    have e : r.tryPop
        = ((true, r.buffer_.getD r.tail_ none),
            { r with buffer_ := r.buffer_.set r.tail_ none,
                     tail_ := (r.tail_ + 1) &&& mask_ (2 ^ k) }) := by
      simp only [tryPop, hne, if_false]
    rw [e]
    exact ⟨and_mask_eq_mod k _, (and_mask_eq_mod k _).trans (hwrap _ h.2.tail_lt), rfl, rfl⟩

/-! ## Order of the delta calls (C25) -/

namespace book

theorem assignRaw_of_lt_all {p : Double} (s : Double) {l : List (Double × Double)}
    (h : ∀ e ∈ l, p < e.1) : assignRaw p s l = (p, s) :: l := by
  cases l with
  | nil => rfl
  | cons hd rest =>
    have h1 := h hd (List.mem_cons_self _ _)
    simp [assignRaw, h1]

theorem assignRaw_comm_of_lt {p q : Double} (s t : Double) (hpq : p < q) :
    ∀ l : List (Double × Double), NoNaNPrice l →
      assignRaw p s (assignRaw q t l) = assignRaw q t (assignRaw p s l) := by
  have hqp : ¬ q < p := Double.lt_asymm hpq
  intro l
  induction l with
  | nil => intro _; simp [assignRaw, hpq, hqp]
  | cons hd rest ih =>
    obtain ⟨r, u⟩ := hd
    intro hl
    have hr : r.isNaN = false := hl (r, u) (List.mem_cons_self _ _)
    have hrest : NoNaNPrice rest := fun e he => hl e (List.mem_cons_of_mem _ he)
    by_cases h1 : r < p
    · have h2 : r < q := Double.lt_trans h1 hpq
      simp [assignRaw, h1, h2, Double.lt_asymm h1, Double.lt_asymm h2, ih hrest]
    · by_cases h2 : p < r
      · by_cases h3 : r < q
        · simp [assignRaw, h1, h2, h3, Double.lt_asymm h3, hpq, hqp]
        · by_cases h4 : q < r
          · simp [assignRaw, h1, h2, h3, h4, hpq, hqp]
          · simp [assignRaw, h1, h2, h3, h4, hpq, hqp]
      · have h3 : r < q := Double.lt_of_not_lt_of_lt h2 hr hpq
        simp [assignRaw, h1, h2, h3, Double.lt_asymm h3]

theorem assignRaw_comm {p q : Double} (s t : Double) (hne : p < q ∨ q < p)
    (l : List (Double × Double)) (hl : NoNaNPrice l) :
    assignRaw p s (assignRaw q t l) = assignRaw q t (assignRaw p s l) := by
  rcases hne with h | h
  · exact assignRaw_comm_of_lt s t h l hl
  · exact (assignRaw_comm_of_lt t s h l hl).symm

theorem eraseRaw_comm (p q : Double) (l : List (Double × Double)) :
    eraseRaw p (eraseRaw q l) = eraseRaw q (eraseRaw p l) := by
  simp only [eraseRaw, List.filter_filter]
  congr 1
  funext e
  exact Bool.and_comm _ _

theorem assignRaw_eraseRaw_comm {p q : Double} (s : Double) (hne : p < q ∨ q < p) :
    ∀ l : List (Double × Double), Ascending l → NoNaNPrice l →
      assignRaw p s (eraseRaw q l) = eraseRaw q (assignRaw p s l) := by
  intro l
  induction l with
  | nil => intro _ _; simp [assignRaw, eraseRaw, List.filter_cons, hne]
  | cons hd rest ih =>
    obtain ⟨r, u⟩ := hd
    intro hasc hl
    have hr : r.isNaN = false := hl (r, u) (List.mem_cons_self _ _)
    have hrest : NoNaNPrice rest := fun e he => hl e (List.mem_cons_of_mem _ he)
    have hlt := (List.pairwise_cons.1 hasc).1
    have hasc' := (List.pairwise_cons.1 hasc).2
    by_cases hk : r < q ∨ q < r
    · by_cases h1 : p < r
      · simp [assignRaw, eraseRaw_cons, hk, h1, hne]
      · by_cases h2 : r < p
        · simp [assignRaw, eraseRaw_cons, hk, h1, h2, ih hasc' hrest]
        · simp [assignRaw, eraseRaw_cons, hk, h1, h2]
    · rw [not_or] at hk
      have hpr : p < r ∨ r < p := by
        rcases hne with h | h
        · exact Or.inl (Double.lt_of_lt_of_not_lt h hk.1 hr)
        · exact Or.inr (Double.lt_of_not_lt_of_lt hk.2 hr h)
      rcases hpr with h1 | h1
      · have hall : ∀ e ∈ eraseRaw q rest, p < e.1 :=
          fun e he => Double.lt_trans h1 (hlt e (List.mem_of_mem_filter he))
        rw [eraseRaw_cons, if_neg (not_or.2 hk), assignRaw_of_lt_all s hall]
        simp [assignRaw, eraseRaw_cons, hk, h1, hne]
      · simp [assignRaw, eraseRaw_cons, hk, h1, Double.lt_asymm h1, ih hasc' hrest]

end book

namespace book

theorem asks_applyDeltaBid (ob : OrderBook) (p s : Double) :
    (ob.applyDeltaBid p s).asks_ = ob.asks_ := by
  unfold OrderBook.applyDeltaBid; split_ifs <;> rfl

theorem bids_applyDeltaAsk (ob : OrderBook) (p s : Double) :
    (ob.applyDeltaAsk p s).bids_ = ob.bids_ := by
  unfold OrderBook.applyDeltaAsk; split_ifs <;> rfl

theorem applyDeltaBid_applyDeltaAsk_comm (ob : OrderBook) (p s q t : Double) :
    (ob.applyDeltaBid p s).applyDeltaAsk q t = (ob.applyDeltaAsk q t).applyDeltaBid p s := by
  unfold OrderBook.applyDeltaBid OrderBook.applyDeltaAsk
  split_ifs <;> rfl

theorem noNaNPrice_applyDeltaBid (ob : OrderBook) {p : Double} (s : Double)
    (hp : p.isNaN = false) (h : NoNaNPrice ob.bids_.entries) :
    NoNaNPrice (ob.applyDeltaBid p s).bids_.entries := by
  unfold OrderBook.applyDeltaBid
  split_ifs
  · exact noNaNPrice_eraseRaw p h
  · exact noNaNPrice_assignRaw hp h

theorem noNaNPrice_applyDeltaAsk (ob : OrderBook) {p : Double} (s : Double)
    (hp : p.isNaN = false) (h : NoNaNPrice ob.asks_.entries) :
    NoNaNPrice (ob.applyDeltaAsk p s).asks_.entries := by
  unfold OrderBook.applyDeltaAsk
  split_ifs
  · exact noNaNPrice_eraseRaw p h
  · exact noNaNPrice_assignRaw hp h

/-- Two `applyDeltaBid` calls at prices that are not `==` commute. -/
theorem applyDeltaBid_comm (ob : OrderBook) {p q : Double} (s t : Double)
    (hne : p < q ∨ q < p) (h : NoNaNPrice ob.bids_.entries) :
    (ob.applyDeltaBid p s).applyDeltaBid q t = (ob.applyDeltaBid q t).applyDeltaBid p s := by
  obtain ⟨id, bids, asks⟩ := ob
  have e : ∀ {a b : PriceMap}, a = b → OrderBook.mk id a asks = OrderBook.mk id b asks :=
    fun h => by rw [h]
  cases hs : s.isZero <;> cases ht : t.isZero
  · rw [applyDeltaBid_of_nonzero _ _ hs, applyDeltaBid_of_nonzero _ _ ht,
      applyDeltaBid_of_nonzero _ _ ht, applyDeltaBid_of_nonzero _ _ hs]
    exact e (PriceMap.eq_of_entries (assignRaw_comm t s (Or.symm hne) _ h))
  · rw [applyDeltaBid_of_nonzero _ _ hs, applyDeltaBid_of_zero _ _ ht,
      applyDeltaBid_of_zero _ _ ht, applyDeltaBid_of_nonzero _ _ hs]
    exact e (PriceMap.eq_of_entries (assignRaw_eraseRaw_comm s hne _ bids.ordered h).symm)
  · rw [applyDeltaBid_of_zero _ _ hs, applyDeltaBid_of_nonzero _ _ ht,
      applyDeltaBid_of_nonzero _ _ ht, applyDeltaBid_of_zero _ _ hs]
    exact e (PriceMap.eq_of_entries (assignRaw_eraseRaw_comm t (Or.symm hne) _ bids.ordered h))
  · rw [applyDeltaBid_of_zero _ _ hs, applyDeltaBid_of_zero _ _ ht,
      applyDeltaBid_of_zero _ _ ht, applyDeltaBid_of_zero _ _ hs]
    exact e (PriceMap.eq_of_entries (eraseRaw_comm q p _))

/-- Two `applyDeltaAsk` calls at prices that are not `==` commute. -/
theorem applyDeltaAsk_comm (ob : OrderBook) {p q : Double} (s t : Double)
    (hne : p < q ∨ q < p) (h : NoNaNPrice ob.asks_.entries) :
    (ob.applyDeltaAsk p s).applyDeltaAsk q t = (ob.applyDeltaAsk q t).applyDeltaAsk p s := by
  obtain ⟨id, bids, asks⟩ := ob
  have e : ∀ {a b : PriceMap}, a = b → OrderBook.mk id bids a = OrderBook.mk id bids b :=
    fun h => by rw [h]
  cases hs : s.isZero <;> cases ht : t.isZero
  · rw [applyDeltaAsk_of_nonzero _ _ hs, applyDeltaAsk_of_nonzero _ _ ht,
      applyDeltaAsk_of_nonzero _ _ ht, applyDeltaAsk_of_nonzero _ _ hs]
    exact e (PriceMap.eq_of_entries (assignRaw_comm t s (Or.symm hne) _ h))
  · rw [applyDeltaAsk_of_nonzero _ _ hs, applyDeltaAsk_of_zero _ _ ht,
      applyDeltaAsk_of_zero _ _ ht, applyDeltaAsk_of_nonzero _ _ hs]
    exact e (PriceMap.eq_of_entries (assignRaw_eraseRaw_comm s hne _ asks.ordered h).symm)
  · rw [applyDeltaAsk_of_zero _ _ hs, applyDeltaAsk_of_nonzero _ _ ht,
      applyDeltaAsk_of_nonzero _ _ ht, applyDeltaAsk_of_zero _ _ hs]
    exact e (PriceMap.eq_of_entries (assignRaw_eraseRaw_comm t (Or.symm hne) _ asks.ordered h))
  · rw [applyDeltaAsk_of_zero _ _ hs, applyDeltaAsk_of_zero _ _ ht,
      applyDeltaAsk_of_zero _ _ ht, applyDeltaAsk_of_zero _ _ hs]
    exact e (PriceMap.eq_of_entries (eraseRaw_comm q p _))

theorem Delta.sameKey_comm (a b : Delta) : a.sameKey b = b.sameKey a := by
  unfold Delta.sameKey
  rw [Double.equals_comm, Bool.beq_comm]

/-- Two delta calls that address different levels, at prices that are not
NaN, commute on a book that stores no NaN price. -/
theorem applyDeltas_swap (ob : OrderBook) (hb : NoNaNPrice ob.bids_.entries)
    (ha : NoNaNPrice ob.asks_.entries) (x y : Delta) (hx : x.key.2.isNaN = false)
    (hy : y.key.2.isNaN = false) (hxy : x.sameKey y = false) :
    applyDeltas ob [x, y] = applyDeltas ob [y, x] := by
  cases x with
  | bid p s =>
    cases y with
    | bid q t =>
      have hne : p < q ∨ q < p := by
        apply (Double.equals_eq_false_iff hx hy).1
        simpa [Delta.sameKey, Delta.key] using hxy
      exact applyDeltaBid_comm ob s t hne hb
    | ask q t => exact applyDeltaBid_applyDeltaAsk_comm ob p s q t
  | ask p s =>
    cases y with
    | bid q t => exact (applyDeltaBid_applyDeltaAsk_comm ob q t p s).symm
    | ask q t =>
      have hne : p < q ∨ q < p := by
        apply (Double.equals_eq_false_iff hx hy).1
        simpa [Delta.sameKey, Delta.key] using hxy
      exact applyDeltaAsk_comm ob s t hne ha

theorem applyDeltas_cons (ob : OrderBook) (d : Delta) (rest : List Delta) :
    applyDeltas ob (d :: rest) = applyDeltas (applyDeltas ob [d]) rest := by
  cases d <;> rfl

theorem noNaNPrice_applyDeltas_single (ob : OrderBook) (d : Delta)
    (hd : d.key.2.isNaN = false) (hb : NoNaNPrice ob.bids_.entries)
    (ha : NoNaNPrice ob.asks_.entries) :
    NoNaNPrice (applyDeltas ob [d]).bids_.entries
    ∧ NoNaNPrice (applyDeltas ob [d]).asks_.entries := by
  cases d with
  | bid p s =>
    exact ⟨noNaNPrice_applyDeltaBid ob s hd hb, by
      show NoNaNPrice (ob.applyDeltaBid p s).asks_.entries
      rw [asks_applyDeltaBid]; exact ha⟩
  | ask p s =>
    exact ⟨by
      show NoNaNPrice (ob.applyDeltaAsk p s).bids_.entries
      rw [bids_applyDeltaAsk]; exact hb, noNaNPrice_applyDeltaAsk ob s hd ha⟩

/-- Deltas that address pairwise different levels, at prices that are not NaN,
give the same book in every order when the book stores no NaN price. -/
theorem applyDeltas_perm {ds ds' : List Delta} (hperm : ds.Perm ds') :
    ∀ ob : OrderBook, NoNaNPrice ob.bids_.entries → NoNaNPrice ob.asks_.entries →
      (∀ d ∈ ds, d.key.2.isNaN = false) →
      ds.Pairwise (fun a b => a.sameKey b = false) →
      applyDeltas ob ds = applyDeltas ob ds' := by
  induction hperm with
  | nil => intro ob _ _ _ _; rfl
  | cons x _ ih =>
    intro ob hb ha hp hk
    have hv := noNaNPrice_applyDeltas_single ob x (hp x (List.mem_cons_self _ _)) hb ha
    have h := ih _ hv.1 hv.2 (fun d hd => hp d (List.mem_cons_of_mem _ hd))
      (List.pairwise_cons.1 hk).2
    rw [← applyDeltas_cons, ← applyDeltas_cons] at h
    exact h
  | swap x y l =>
    intro ob hb ha hp hk
    have hy := hp y (List.mem_cons_self _ _)
    have hx := hp x (List.mem_cons_of_mem _ (List.mem_cons_self _ _))
    have hyx : y.sameKey x = false := (List.pairwise_cons.1 hk).1 x (List.mem_cons_self _ _)
    have h := congrArg (fun b => applyDeltas b l) (applyDeltas_swap ob hb ha y x hy hx hyx)
    have e : ∀ a b : Delta, applyDeltas ob (a :: b :: l) = applyDeltas (applyDeltas ob [a, b]) l :=
      fun a b => by cases a <;> cases b <;> rfl
    rw [e, e]
    exact h
  | trans h₁ _ ih₁ ih₂ =>
    intro ob hb ha hp hk
    rw [ih₁ ob hb ha hp hk]
    refine ih₂ ob hb ha (fun d hd => hp d (h₁.mem_iff.2 hd)) ?_
    exact (h₁.pairwise_iff (fun {a b} h => by rw [Delta.sameKey_comm]; exact h)).1 hk

end book

/-- C25, as stated, fails at a NaN price.  The deltas `bid(NaN, 1)` and
`bid(30000, 2)` have distinct (side, price) keys; on an empty book the one
order leaves the single level `NaN: 2` and the other the single level
`30000: 1`, with different `bestBid()`.  On the book `{NaN: 1}` the deltas
`bid(1, 5)` and `bid(2, 7)`, at two prices that are not NaN, leave size 7 in
one order and size 5 in the other. -/
theorem delta_order_matters_with_nan :
    ([Delta.bid (.nan false) 1, Delta.bid 30000 2].map Delta.key).Nodup
    ∧ [Delta.bid (.nan false) 1, Delta.bid 30000 2].Perm
        [Delta.bid 30000 2, Delta.bid (.nan false) 1]
    ∧ (applyDeltas (OrderBook.new "BTC-USDT")
        [Delta.bid (.nan false) 1, Delta.bid 30000 2]).bids_.entries = [(.nan false, 2)]
    ∧ (applyDeltas (OrderBook.new "BTC-USDT")
        [Delta.bid 30000 2, Delta.bid (.nan false) 1]).bids_.entries = [(30000, 1)]
    ∧ (applyDeltas (OrderBook.new "BTC-USDT")
        [Delta.bid (.nan false) 1, Delta.bid 30000 2]).bestBid = (.nan false, 2)
    ∧ (applyDeltas (OrderBook.new "BTC-USDT")
        [Delta.bid 30000 2, Delta.bid (.nan false) 1]).bestBid = (30000, 1)
    ∧ (applyDeltas ((OrderBook.new "BTC-USDT").applyDeltaBid (.nan false) 1)
        [Delta.bid 1 5, Delta.bid 2 7]).bids_.entries = [(.nan false, 7)]
    ∧ (applyDeltas ((OrderBook.new "BTC-USDT").applyDeltaBid (.nan false) 1)
        [Delta.bid 2 7, Delta.bid 1 5]).bids_.entries = [(.nan false, 5)] := by
  refine ⟨by decide, List.Perm.swap _ _ _, by decide, by decide, by decide, by decide,
    by decide, by decide⟩

/-- C25. Order of insertion is irrelevant when no price is NaN: for every book
that stores no NaN price and every list of deltas whose prices are not NaN and
whose (side, price) keys are pairwise distinct (the same side with prices that
are `==` is the same key), applying the deltas in any permutation of the list
gives the same book state (the same levels on both sides, the same `bestBid()`
and `bestAsk()`); any `applyDeltaBid` commutes with any `applyDeltaAsk`,
`applyDeltaBid` leaves the ask side unchanged and `applyDeltaAsk` the bid
side, whatever the prices and sizes. -/
theorem delta_order_irrelevant (ob : OrderBook) (ds ds' : List Delta) (hperm : ds.Perm ds')
    (hbids : NoNaNPrice ob.bids_.entries) (hasks : NoNaNPrice ob.asks_.entries)
    (hprices : ∀ d ∈ ds, d.key.2.isNaN = false)
    (hkeys : ds.Pairwise (fun a b => a.sameKey b = false)) :
    applyDeltas ob ds = applyDeltas ob ds'
    ∧ (applyDeltas ob ds).bids_.entries = (applyDeltas ob ds').bids_.entries
    ∧ (applyDeltas ob ds).asks_.entries = (applyDeltas ob ds').asks_.entries
    ∧ (applyDeltas ob ds).bestBid = (applyDeltas ob ds').bestBid
    ∧ (applyDeltas ob ds).bestAsk = (applyDeltas ob ds').bestAsk
    ∧ (∀ p s q t : Double,
        (ob.applyDeltaBid p s).applyDeltaAsk q t = (ob.applyDeltaAsk q t).applyDeltaBid p s)
    ∧ (∀ p s : Double, (ob.applyDeltaBid p s).asks_ = ob.asks_)
    ∧ (∀ p s : Double, (ob.applyDeltaAsk p s).bids_ = ob.bids_) := by
  have h := applyDeltas_perm hperm ob hbids hasks hprices hkeys
  exact ⟨h, by rw [h], by rw [h], by rw [h], by rw [h], applyDeltaBid_applyDeltaAsk_comm ob,
    asks_applyDeltaBid ob, bids_applyDeltaAsk ob⟩

/-- Three deltas on the book of the order book test (a bid level removed, an
ask level changed, a bid level added), in the given order and rotated. -/
theorem delta_order_irrelevant_witness :
    [Delta.bid 120000 0, Delta.ask 120002 7, Delta.bid 119999 4].Pairwise
        (fun a b => a.sameKey b = false)
    ∧ (applyDeltas sample.testBook
          [Delta.bid 119999 4, Delta.bid 120000 0, Delta.ask 120002 7]).bids_.entries
        = [(119998, 20), (119999, 4)]
    ∧ applyDeltas sample.testBook [Delta.bid 120000 0, Delta.ask 120002 7, Delta.bid 119999 4]
        = applyDeltas sample.testBook
            [Delta.bid 119999 4, Delta.bid 120000 0, Delta.ask 120002 7] :=
  ⟨by decide, by decide,
    (delta_order_irrelevant sample.testBook
      [Delta.bid 120000 0, Delta.ask 120002 7, Delta.bid 119999 4]
      [Delta.bid 119999 4, Delta.bid 120000 0, Delta.ask 120002 7]
      (List.perm_append_comm :
        ([Delta.bid 120000 0, Delta.ask 120002 7] ++ [Delta.bid 119999 4]).Perm
          ([Delta.bid 119999 4] ++ [Delta.bid 120000 0, Delta.ask 120002 7]))
      (by unfold NoNaNPrice; decide) (by unfold NoNaNPrice; decide) (by decide)
      (by decide)).1⟩

/-! ## When the checksum is validated (C23) -/

/-- What `readOnceAndProcess` does with a books frame whose `cs` member may be
any JSON value. -/
theorem readOnceAndProcess_booksFrameWithCs (stod : String → Option Double) (d : Value)
    (instId : String) (action : Option String) (bids asks : List (Double × Double))
    (csV : Option Value) (recvNs : Int) (g : OkxMarketDataGateway)
    (hwf : BooksFrameWithCs stod d instId action bids asks csV) :
    readOnceAndProcess stod (some d) recvNs g =
      if receivedChecksumOf csV ≠ "" ∧ receivedChecksumOf csV ≠ computeOkxChecksum bids asks
      then .ok (true, g)
      else .ok (true, { g with ringBuffer_ := (g.ringBuffer_.tryEmplace
        (BookUpdate.new instId bids asks recvNs (decide (action = some "snapshot"))
          (receivedChecksumOf csV))).2 }) := by
  obtain ⟨members, argMembers, bookMembers, rest, bidsV, asksV, rfl, harg, hchan, hinst, hact,
    hdata, hb, hbs, ha, has, hcs⟩ := hwf
  have hB := parseSide_of_side stod hb hbs
  have hA := parseSide_of_side stod ha has
  cases action <;> rcases csV with _ | v
  · simp [readOnceAndProcess, Value.IsObject, Value.HasMember, Value.member, harg, hchan,
      hinst, hact, hdata, hcs, hB, hA, Value.GetString, Value.IsArray, Value.Empty,
      Value.index, Value.IsString, receivedChecksumOf, bind, Except.bind, pure, Except.pure]
  · cases v <;>
    simp [readOnceAndProcess, Value.IsObject, Value.HasMember, Value.member, harg, hchan,
      hinst, hact, hdata, hcs, hB, hA, Value.GetString, Value.IsArray, Value.Empty,
      Value.index, Value.IsString, receivedChecksumOf, bind, Except.bind, pure, Except.pure]
    split_ifs <;> simp_all
  · simp [readOnceAndProcess, Value.IsObject, Value.HasMember, Value.member, harg, hchan,
      hinst, hact, hdata, hcs, hB, hA, Value.GetString, Value.IsArray, Value.Empty,
      Value.index, Value.IsString, receivedChecksumOf, bind, Except.bind, pure, Except.pure]
  · cases v <;>
    simp [readOnceAndProcess, Value.IsObject, Value.HasMember, Value.member, harg, hchan,
      hinst, hact, hdata, hcs, hB, hA, Value.GetString, Value.IsArray, Value.Empty,
      Value.index, Value.IsString, receivedChecksumOf, bind, Except.bind, pure, Except.pure]
    split_ifs <;> simp_all

theorem booksFrameWithCs_sample (cs : Value) :
    BooksFrameWithCs sample.stod (sample.booksFrameCs cs) "BTC-USDT" (some "snapshot")
      [(1, 2)] [(3, 4)] (some cs) :=
  ⟨_, _, _, _, _, _, rfl, rfl, rfl, rfl, rfl, rfl, rfl,
    ⟨_, rfl, List.Forall₂.cons ⟨_, _, _, rfl, rfl, rfl⟩ List.Forall₂.nil⟩, rfl,
    ⟨_, rfl, List.Forall₂.cons ⟨_, _, _, rfl, rfl, rfl⟩ List.Forall₂.nil⟩, rfl⟩

set_option maxRecDepth 100000 in
theorem checksum_sample : computeOkxChecksum [(1, 2)] [(3, 4)] = "1226904355" := by decide

/-- The frame `sample.booksFrame` with the bid price string `"-0"`: its bid level
is negative zero with size 2. -/
theorem booksFrameWithCs_negZero (cs : String) :
    BooksFrameWithCs sample.stod (sample.booksFrame "snapshot" "-0" cs) "BTC-USDT"
      (some "snapshot") [(.negZero, 2)] [(3, 4)] (some (.string cs)) :=
  ⟨_, _, _, _, _, _, rfl, rfl, rfl, rfl, rfl, rfl, rfl,
    ⟨_, rfl, List.Forall₂.cons ⟨_, _, _, rfl, rfl, rfl⟩ List.Forall₂.nil⟩, rfl,
    ⟨_, rfl, List.Forall₂.cons ⟨_, _, _, rfl, rfl, rfl⟩ List.Forall₂.nil⟩, rfl⟩

/-- A books frame whose `cs` is not validated: the update is handed to the ring
with an empty checksum. -/
theorem readOnceAndProcess_unvalidated (stod : String → Option Double) (d : Value)
    (instId : String) (action : Option String) (bids asks : List (Double × Double))
    (csV : Option Value) (recvNs : Int) (g : OkxMarketDataGateway)
    (hwf : BooksFrameWithCs stod d instId action bids asks csV)
    (hrc : receivedChecksumOf csV = "") :
    readOnceAndProcess stod (some d) recvNs g
      = .ok (true, { g with ringBuffer_ := (g.ringBuffer_.tryEmplace
          (BookUpdate.new instId bids asks recvNs (decide (action = some "snapshot")) "")).2 }) := by
  rw [readOnceAndProcess_booksFrameWithCs stod d instId action bids asks csV recvNs g hwf,
    if_neg (fun h => h.1 hrc), hrc]

/-- C23, refuted as stated.  The frames
`{"arg":{"channel":"books","instId":"BTC-USDT"},"action":"snapshot",
"data":[{"asks":[["3","4"]],"bids":[["1","2"]],"cs":cs}]}` with `cs` the empty
string and with `cs` the number 7 have a `cs` member; the checksum of their
levels is `"1226904355"`, which the empty string does not equal, and yet
`readOnceAndProcess` enqueues the update (with an empty checksum) in the empty
ring of `gatewayBtc`. -/
theorem present_cs_not_validated :
    computeOkxChecksum [(1, 2)] [(3, 4)] = "1226904355"
    ∧ BooksFrameWithCs sample.stod (sample.booksFrameCs (.string "")) "BTC-USDT"
        (some "snapshot") [(1, 2)] [(3, 4)] (some (.string ""))
    ∧ readOnceAndProcess sample.stod (some (sample.booksFrameCs (.string ""))) 5
          sample.gatewayBtc
        = .ok (true, { sample.gatewayBtc with ringBuffer_ :=
            (sample.gatewayBtc.ringBuffer_.tryEmplace
              ⟨"BTC-USDT", [(1, 2)], [(3, 4)], 5, "", true⟩).2 })
    ∧ BooksFrameWithCs sample.stod (sample.booksFrameCs (.number 7)) "BTC-USDT"
        (some "snapshot") [(1, 2)] [(3, 4)] (some (.number 7))
    ∧ readOnceAndProcess sample.stod (some (sample.booksFrameCs (.number 7))) 5
          sample.gatewayBtc
        = .ok (true, { sample.gatewayBtc with ringBuffer_ :=
            (sample.gatewayBtc.ringBuffer_.tryEmplace
              ⟨"BTC-USDT", [(1, 2)], [(3, 4)], 5, "", true⟩).2 })
    ∧ (sample.gatewayBtc.ringBuffer_.tryEmplace
          (⟨"BTC-USDT", [(1, 2)], [(3, 4)], 5, "", true⟩ : BookUpdate)).1 = true
    ∧ Holds (sample.gatewayBtc.ringBuffer_.tryEmplace
          (⟨"BTC-USDT", [(1, 2)], [(3, 4)], 5, "", true⟩ : BookUpdate)).2
        [⟨"BTC-USDT", [(1, 2)], [(3, 4)], 5, "", true⟩] :=
  ⟨checksum_sample, booksFrameWithCs_sample _,
    readOnceAndProcess_unvalidated _ _ _ _ _ _ _ _ _ (booksFrameWithCs_sample _) rfl,
    booksFrameWithCs_sample _,
    readOnceAndProcess_unvalidated _ _ _ _ _ _ _ _ _ (booksFrameWithCs_sample _) rfl,
    (tryEmplace_gateway_room (holds_new 12) (by decide) _).1,
    (tryEmplace_gateway_room (holds_new 12) (by decide) _).2⟩

/-- C23, amended.  For every books frame whose `data[0]` has a `cs` member that
is a non-empty JSON string, the checksum is computed over the received bids
and asks and compared with `cs` as strings: on a difference
`readOnceAndProcess` returns true and leaves the gateway as it was, and on
equality it hands the update, carrying `cs`, to `tryEmplace`.  A `cs` that is
absent, the empty string, or not a JSON string is not compared with anything:
the update is handed to `tryEmplace` with an empty checksum.  On a ring with
room `tryEmplace` appends what it is handed. -/
theorem checksum_validated_when_nonempty_string (stod : String → Option Double) (d : Value)
    (instId : String) (action : Option String) (bids asks : List (Double × Double))
    (csV : Option Value) (recvNs : Int) (g : OkxMarketDataGateway)
    (hwf : BooksFrameWithCs stod d instId action bids asks csV) :
    (∀ c : String, csV = some (.string c) → c ≠ "" →
      (c ≠ computeOkxChecksum bids asks →
        readOnceAndProcess stod (some d) recvNs g = .ok (true, g))
      ∧ (c = computeOkxChecksum bids asks →
        readOnceAndProcess stod (some d) recvNs g
          = .ok (true, { g with ringBuffer_ := (g.ringBuffer_.tryEmplace
              (BookUpdate.new instId bids asks recvNs (decide (action = some "snapshot"))
                c)).2 })))
    ∧ ((csV = none ∨ csV = some (.string "") ∨ ∃ v, csV = some v ∧ v.IsString = false) →
        readOnceAndProcess stod (some d) recvNs g
          = .ok (true, { g with ringBuffer_ := (g.ringBuffer_.tryEmplace
              (BookUpdate.new instId bids asks recvNs (decide (action = some "snapshot"))
                "")).2 }))
    ∧ (∀ (q : List BookUpdate) (u : BookUpdate), Holds g.ringBuffer_ q →
        q.length ≠ kRingBufferSize - 1 →
        (g.ringBuffer_.tryEmplace u).1 = true ∧ Holds (g.ringBuffer_.tryEmplace u).2 (q ++ [u])) := by
  have h := readOnceAndProcess_booksFrameWithCs stod d instId action bids asks csV recvNs g hwf
  refine ⟨?_, ?_, fun q u hq hroom => tryEmplace_gateway_room hq hroom u⟩
  · intro c hc hne
    subst hc
    constructor
    · intro hmis
      rw [h, if_pos ⟨hne, hmis⟩]
    · intro heq
      rw [h, if_neg (fun hh => hh.2 heq)]
      rfl
  · intro hcase
    apply readOnceAndProcess_unvalidated stod d instId action bids asks csV recvNs g hwf
    rcases hcase with rfl | rfl | ⟨v, rfl, hv⟩
    · rfl
    · rfl
    · cases v <;> first | rfl | simp [Value.IsString] at hv

/-- The sample frame with the matching checksum `"1226904355"` is enqueued with
it; with the checksum `"12"` it is skipped.  The frame whose bid price is `"-0"`
is enqueued with the checksum `"947334089"` of the string that starts with
`-0.00000000`, and skipped with `"238216664"`, the checksum of the string
without the sign. -/
theorem checksum_validated_when_nonempty_string_witness :
    readOnceAndProcess sample.stod (some (sample.booksFrameCs (.string "1226904355"))) 5
        sample.gatewayBtc
      = .ok (true, { sample.gatewayBtc with ringBuffer_ :=
          (sample.gatewayBtc.ringBuffer_.tryEmplace
            ⟨"BTC-USDT", [(1, 2)], [(3, 4)], 5, "1226904355", true⟩).2 })
    ∧ readOnceAndProcess sample.stod (some (sample.booksFrameCs (.string "12"))) 5
        sample.gatewayBtc = .ok (true, sample.gatewayBtc)
    ∧ readOnceAndProcess sample.stod (some (sample.booksFrame "snapshot" "-0" "947334089")) 5
        sample.gatewayBtc
      = .ok (true, { sample.gatewayBtc with ringBuffer_ :=
          (sample.gatewayBtc.ringBuffer_.tryEmplace
            ⟨"BTC-USDT", [(.negZero, 2)], [(3, 4)], 5, "947334089", true⟩).2 })
    ∧ readOnceAndProcess sample.stod (some (sample.booksFrame "snapshot" "-0" "238216664")) 5
        sample.gatewayBtc = .ok (true, sample.gatewayBtc) :=
  ⟨((checksum_validated_when_nonempty_string sample.stod _ "BTC-USDT" (some "snapshot")
      [(1, 2)] [(3, 4)] (some (.string "1226904355")) 5 sample.gatewayBtc
      (booksFrameWithCs_sample _)).1 "1226904355" rfl (by decide)).2 checksum_sample.symm,
   ((checksum_validated_when_nonempty_string sample.stod _ "BTC-USDT" (some "snapshot")
      [(1, 2)] [(3, 4)] (some (.string "12")) 5 sample.gatewayBtc
      (booksFrameWithCs_sample _)).1 "12" rfl (by decide)).1
        (by rw [checksum_sample]; decide),
   ((checksum_validated_when_nonempty_string sample.stod _ "BTC-USDT" (some "snapshot")
      [(.negZero, 2)] [(3, 4)] (some (.string "947334089")) 5 sample.gatewayBtc
      (booksFrameWithCs_negZero _)).1 "947334089" rfl (by decide)).2 checksum_negZero.symm,
   ((checksum_validated_when_nonempty_string sample.stod _ "BTC-USDT" (some "snapshot")
      [(.negZero, 2)] [(3, 4)] (some (.string "238216664")) 5 sample.gatewayBtc
      (booksFrameWithCs_negZero _)).1 "238216664" rfl (by decide)).1
        (by rw [checksum_negZero]; decide)⟩

/-! ## The levels the checksum covers (C24) -/

namespace gateway

end gateway

end mdgw
